import Mathlib

/-!
# NanoBroker: shared-memory ring buffer, producer and consumer paths

A shallow embedding of `include/nanobroker/NanoBroker.hpp`.

* The shared segment `SharedChannel<T, BufferSize, MaxConsumers>` is a record;
  its fixed-size arrays (`tails`, `slot_active`, `heartbeats`, `slots`) are
  total functions on indices, and every loop of the source ranges over
  `[0, MaxConsumers)` or touches one index only.
* `BufferSize` and `MaxConsumers` are the template parameters `N` and `C`.
* `size_t` indices are `Nat`: they stay below `BufferSize`, so `+ 1` is exact.
  The `uint64_t` slot counter is a `Nat`: it grows by one per publication of
  its slot and stays far below `2^64` in any run of feasible length, so its
  `+ 1` is exact as well.  Millisecond clock readings (`int64_t`) are `Int`,
  and `now_ms()` is an argument of every operation that reads the clock.
* Each member function is one atomic step on the pair (local `Broker` object,
  shared channel).  A call of `prepare_publish` that finds `write_lock` set
  spins for ever when nobody else runs; this is the outer `none`.
* `peek` is given a second time in three parts, cut after the load of
  `seq_before` and after the wait loop, so that steps of the producer can be
  placed between the atomic loads of one call.
-/

namespace NanoBroker

/-! ## Data model -/

def MAGIC_NUMBER : Nat := 0x4E414E4F42524F4B

def PROTOCOL_VERSION : Nat := 2

inductive OverflowPolicy where
  | BLOCK
  | OVERWRITE_OLD
  deriving DecidableEq, Repr

inductive SlotState where
  | FREE
  | WRITING
  | READY
  deriving DecidableEq, Repr

structure BrokerSettings where
  overflow_policy : OverflowPolicy := OverflowPolicy.BLOCK
  producer_timeout_ms : Int := 10000
  spin_iterations : Int := 1000
  yield_iterations : Int := 10000

structure SlotWrapper (T : Type) where
  sequence : Nat
  state : SlotState
  data : T

structure SharedChannel (T : Type) where
  magic : Nat
  version : Nat
  struct_size : Nat
  buffer_capacity : Nat
  producer_epoch : Nat
  head : Nat
  tails : Nat → Nat
  slot_active : Nat → Bool
  heartbeats : Nat → Int
  write_lock : Bool
  slots : Nat → SlotWrapper T

/-- The process-local part of a `Broker` object.  `pending_slot` is the index
of the slot the pointer refers to, `none` for `nullptr`. -/
structure Broker where
  is_owner : Bool
  consumer_id : Int
  local_epoch_cache : Nat
  settings : BrokerSettings
  pending_slot : Option Nat

/-- Index used by `channel->tails[consumer_id]` and friends. -/
def Broker.self (b : Broker) : Nat := b.consumer_id.toNat

/-! ## Producer path -/

/-- The `for (size_t i = 0; i < MaxConsumers; i++)` loop of `prepare_publish`,
started at index `i` with `rem` iterations left.  Returns the `full` flag and
the channel as the loop leaves it. -/
def prepare_loop {T : Type} (N : Nat) (policy : OverflowPolicy) (next_head : Nat)
    (now timeout_ms : Int) : Nat → Nat → SharedChannel T → Bool × SharedChannel T
  | 0, _, ch => (false, ch)
  | rem + 1, i, ch =>
    if ch.slot_active i = true then
      let t := ch.tails i
      if next_head = t then
        let last := ch.heartbeats i
        if now - last > timeout_ms then
          prepare_loop N policy next_head now timeout_ms rem (i + 1)
            { ch with slot_active := Function.update ch.slot_active i false }
        else if policy = OverflowPolicy.BLOCK then
          (true, ch)
        else
          prepare_loop N policy next_head now timeout_ms rem (i + 1)
            { ch with tails := Function.update ch.tails i ((t + 1) % N) }
      else prepare_loop N policy next_head now timeout_ms rem (i + 1) ch
    else prepare_loop N policy next_head now timeout_ms rem (i + 1) ch

/-- `T* prepare_publish(int64_t timeout_ms)`.  Outer `none`: the spin on
`write_lock` never ends.  Inner `none`: `nullptr` (full).  Inner `some p`:
a pointer to `slots[p].data`. -/
def prepare_publish {T : Type} (N C : Nat) (b : Broker) (ch : SharedChannel T)
    (now timeout_ms : Int) : Option (Option Nat × Broker × SharedChannel T) :=
  if ch.write_lock = true then none
  else
    let ch0 := { ch with write_lock := true }
    let current_head := ch0.head
    let next_head := (current_head + 1) % N
    let r := prepare_loop N b.settings.overflow_policy next_head now timeout_ms C 0 ch0
    if r.1 = true then
      some (none, b, { r.2 with write_lock := false })
    else
      let ch1 := r.2
      some (some current_head, { b with pending_slot := some current_head },
        { ch1 with
          slots := Function.update ch1.slots current_head
            { ch1.slots current_head with state := SlotState.WRITING } })

/-- Default value of the `timeout_ms` parameter of `prepare_publish`. -/
def DEFAULT_TIMEOUT_MS : Int := 2000

/-- The call `prepare_publish()` with the argument left out. -/
def prepare_publish_default {T : Type} (N C : Nat) (b : Broker) (ch : SharedChannel T)
    (now : Int) : Option (Option Nat × Broker × SharedChannel T) :=
  prepare_publish N C b ch now DEFAULT_TIMEOUT_MS

/-- The producer writes the record through the pointer it was handed. -/
def fill {T : Type} (ch : SharedChannel T) (p : Nat) (r : T) : SharedChannel T :=
  { ch with slots := Function.update ch.slots p { ch.slots p with data := r } }

/-- `void commit_publish()`. -/
def commit_publish {T : Type} (N : Nat) (b : Broker) (ch : SharedChannel T) :
    Broker × SharedChannel T :=
  match b.pending_slot with
  | none => (b, ch)
  | some p =>
    let current_head := ch.head
    let seq := (ch.slots p).sequence
    let ch1 := { ch with
      slots := Function.update ch.slots p
        { ch.slots p with sequence := seq + 1 } }
    let ch2 := { ch1 with
      slots := Function.update ch1.slots p { ch1.slots p with state := SlotState.READY } }
    let next_head := (current_head + 1) % N
    ({ b with pending_slot := none }, { ch2 with head := next_head, write_lock := false })

/-! ## Consumer path -/

/-- `void release()`. -/
def release {T : Type} (N : Nat) (b : Broker) (ch : SharedChannel T) (now : Int) :
    SharedChannel T :=
  let ch1 := { ch with heartbeats := Function.update ch.heartbeats b.self now }
  let current_tail := ch1.tails b.self
  { ch1 with tails := Function.update ch1.tails b.self ((current_tail + 1) % N) }

/-- The bounded wait of `peek` on a slot whose state reads `st` every time:
`true` when the loop is left with `READY`, `false` when `++spin > 10000`. -/
def spin_wait (st : SlotState) : Nat → Nat → Bool
  | 0, _ => false
  | fuel + 1, spin =>
    if st = SlotState.READY then true
    else if spin + 1 > 10000 then false
    else spin_wait st fuel (spin + 1)

/-- Outcome of `peek`: the exception, `nullptr`, or a pointer to
`slots[i].data`. -/
inductive PeekResult where
  | disconnected
  | empty
  | view (i : Nat)
  deriving DecidableEq, Repr

/-- `const T* peek()`. -/
def peek {T : Type} (N : Nat) (b : Broker) (ch : SharedChannel T) (now : Int) :
    PeekResult × Broker × SharedChannel T :=
  let current_epoch := ch.producer_epoch
  let b1 : Broker :=
    if b.local_epoch_cache = 0 then { b with local_epoch_cache := current_epoch } else b
  if current_epoch ≠ b1.local_epoch_cache then
    let new_head := ch.head
    (PeekResult.empty, { b1 with local_epoch_cache := current_epoch },
      { ch with tails := Function.update ch.tails b.self new_head })
  else if ch.slot_active b.self = false then
    (PeekResult.disconnected, b1, ch)
  else
    let ch1 := { ch with heartbeats := Function.update ch.heartbeats b.self now }
    let current_tail := ch1.tails b.self
    if current_tail = ch1.head then (PeekResult.empty, b1, ch1)
    else
      let seq_before := (ch1.slots current_tail).sequence
      if spin_wait (ch1.slots current_tail).state 10001 0 = false then
        (PeekResult.empty, b1, ch1)
      else
        let seq_after := (ch1.slots current_tail).sequence
        if seq_before ≠ seq_after then
          (PeekResult.empty, b1, release N b1 ch1 now)
        else (PeekResult.view current_tail, b1, ch1)

/-! ## Construction -/

/-- The `create` branch of the constructor on a fresh, zero-filled segment:
`epoch` is the value drawn from the random device, `blank` the payload bytes
of the untouched slots. -/
def create {T : Type} (N : Nat) (sizeofT : Nat) (epoch : Nat) (blank : T)
    (settings : BrokerSettings) : Broker × SharedChannel T :=
  ({ is_owner := true, consumer_id := -1, local_epoch_cache := 0, settings := settings,
     pending_slot := none },
   { magic := MAGIC_NUMBER, version := PROTOCOL_VERSION, struct_size := sizeofT,
     buffer_capacity := N, producer_epoch := epoch, head := 0,
     tails := fun _ => 0, slot_active := fun _ => false, heartbeats := fun _ => 0,
     write_lock := false,
     slots := fun _ => { sequence := 0, state := SlotState.FREE, data := blank } })

inductive AttachError where
  | STALE_MEMORY
  | VERSION_MISMATCH
  | LAYOUT_MISMATCH
  | INVALID_CONSUMER_ID
  deriving DecidableEq, Repr

/-- The attach branch of the constructor (`create == false`). -/
def attach {T : Type} (C : Nat) (sizeofT : Nat) (id : Int) (settings : BrokerSettings)
    (ch : SharedChannel T) (now : Int) : Except AttachError (Broker × SharedChannel T) :=
  let b : Broker := { is_owner := false, consumer_id := id, local_epoch_cache := 0,
                      settings := settings, pending_slot := none }
  if ch.magic ≠ MAGIC_NUMBER then Except.error AttachError.STALE_MEMORY
  else if ch.version ≠ PROTOCOL_VERSION then Except.error AttachError.VERSION_MISMATCH
  else if ch.struct_size ≠ sizeofT then Except.error AttachError.LAYOUT_MISMATCH
  else if id ≠ -99 then
    if id < 0 ∨ id ≥ (C : Int) then Except.error AttachError.INVALID_CONSUMER_ID
    else
      let h := ch.head
      let ch1 := { ch with tails := Function.update ch.tails b.self h }
      let ch2 := { ch1 with heartbeats := Function.update ch1.heartbeats b.self now }
      Except.ok (b, { ch2 with slot_active := Function.update ch2.slot_active b.self true })
  else Except.ok (b, ch)

/-! ## Interleavings of one producer and one consumer -/

/-- One atomic step of the producer (`prepare`, `fill`, `commit`) or of the
consumer (`peek`, `release`), with the clock reading it sees. -/
inductive Step (T : Type) where
  | prepare (now timeout_ms : Int)
  | fill (r : T)
  | commit
  | peek (now : Int)
  | release (now : Int)

/-- The shared channel, the two local `Broker` objects, and the observer's
notes: whether the consumer holds a view it has not released, the records
committed so far and the records handed out by successful peeks. -/
structure Sys (T : Type) where
  ch : SharedChannel T
  prod : Broker
  cons : Broker
  holding : Bool
  committed : List T
  delivered : List T

/-- One step of the interleaving; `none` when the step cannot be taken:
`prepare_publish` never returns, the producer has no pointer to write through
or to commit, the consumer peeks while it holds a view or releases without
one. -/
def step {T : Type} (N C : Nat) (s : Sys T) : Step T → Option (Sys T)
  | Step.prepare now timeout_ms =>
    match prepare_publish N C s.prod s.ch now timeout_ms with
    | none => none
    | some (_, b, ch) => some { s with prod := b, ch := ch }
  | Step.fill r =>
    match s.prod.pending_slot with
    | none => none
    | some p => some { s with ch := fill s.ch p r }
  | Step.commit =>
    match s.prod.pending_slot with
    | none => none
    | some p =>
      some { s with
        prod := (commit_publish N s.prod s.ch).1
        ch := (commit_publish N s.prod s.ch).2
        committed := s.committed ++ [(s.ch.slots p).data] }
  | Step.peek now =>
    if s.holding = true then none
    else
      match peek N s.cons s.ch now with
      | (PeekResult.view i, b, ch) =>
        some { s with
          cons := b
          ch := ch
          holding := true
          delivered := s.delivered ++ [(ch.slots i).data] }
      | (_, b, ch) => some { s with cons := b, ch := ch }
  | Step.release now =>
    if s.holding = true then
      some { s with ch := release N s.cons s.ch now, holding := false }
    else none

/-- Run a schedule from `s`. -/
def run {T : Type} (N C : Nat) : Sys T → List (Step T) → Option (Sys T)
  | s, [] => some s
  | s, e :: es =>
    match step N C s e with
    | none => none
    | some s1 => run N C s1 es

/-- Consumer `cid` is registered in every state the schedule goes through. -/
def aliveAlong {T : Type} (N C cid : Nat) : Sys T → List (Step T) → Bool
  | s, [] => s.ch.slot_active cid
  | s, e :: es =>
    s.ch.slot_active cid &&
      (match step N C s e with
       | none => true
       | some s1 => aliveAlong N C cid s1 es)

/-- The system right after an attach: the new consumer object and the channel
as the constructor left it, next to producer object `p`; nothing when the
constructor threw. -/
def attached {T : Type} (p : Broker) :
    Except AttachError (Broker × SharedChannel T) → Option (Sys T)
  | Except.ok (c, ch) =>
    some { ch := ch, prod := p, cons := c, holding := false, committed := [], delivered := [] }
  | Except.error _ => none

/-- A producer creates the channel, then consumer `cid` attaches at time
`now`. -/
def init {T : Type} (N C sizeofT epoch : Nat) (blank : T) (pset cset : BrokerSettings)
    (cid : Nat) (now : Int) : Option (Sys T) :=
  attached (create N sizeofT epoch blank pset).1
    (attach C sizeofT (cid : Int) cset (create N sizeofT epoch blank pset).2 now)

def Step.isProducer {T : Type} : Step T → Bool
  | Step.prepare _ _ => true
  | Step.fill _ => true
  | Step.commit => true
  | _ => false

/-- What an observer can compare of a slot. -/
def SlotWrapper.obs (w : SlotWrapper Nat) : Nat × SlotState × Nat :=
  (w.sequence, w.state, w.data)

/-- The ring as seen by an observer who counts: `R` records have been released
by consumer `cid`, `committed.length` have been published; the unread ones sit
READY in the slots between tail and head, the consumer has been handed the
first `R` of them (one more while it holds a view), and a publication in
flight targets the head with room for one more record. -/
structure Inv {T : Type} (N C cid : Nat) (s : Sys T) (R : Nat) : Prop where
  cid_lt : cid < C
  policy : s.prod.settings.overflow_policy = OverflowPolicy.BLOCK
  self_eq : s.cons.self = cid
  epoch : s.cons.local_epoch_cache = 0 ∨ s.cons.local_epoch_cache = s.ch.producer_epoch
  head_eq : s.ch.head = s.committed.length % N
  tail_eq : s.ch.tails cid = R % N
  le_len : R ≤ s.committed.length
  len_lt : s.committed.length < R + N
  window : ∀ k, R ≤ k → k < s.committed.length →
    (s.ch.slots (k % N)).state = SlotState.READY ∧
      s.committed[k]? = some (s.ch.slots (k % N)).data
  delivered_eq : s.delivered = s.committed.take (R + (if s.holding = true then 1 else 0))
  holding_lt : s.holding = true → R < s.committed.length
  pending : ∀ p, s.prod.pending_slot = some p →
    p = s.ch.head ∧ s.committed.length + 1 < R + N

/-- Consumer `cid` holds the view of slot `t`, whose content is `w`: its tail
is `t`, the head is elsewhere, and a publication in flight targets the head
and was admitted with `(head + 1) mod N` off `t`. -/
structure ViewHeld {T : Type} (N cid t : Nat) (w : SlotWrapper T) (s : Sys T) : Prop where
  policy : s.prod.settings.overflow_policy = OverflowPolicy.BLOCK
  tail_eq : s.ch.tails cid = t
  head_ne : s.ch.head ≠ t
  slot_eq : s.ch.slots t = w
  pending : ∀ p, s.prod.pending_slot = some p → p = s.ch.head ∧ (s.ch.head + 1) % N ≠ t

/-! ## Sample data -/

def sampleSettings (policy : OverflowPolicy) (timeout : Int) : BrokerSettings :=
  { overflow_policy := policy, producer_timeout_ms := timeout }

def sampleProducer (policy : OverflowPolicy) (timeout : Int) : Broker :=
  { is_owner := true, consumer_id := -1, local_epoch_cache := 0,
    settings := sampleSettings policy timeout, pending_slot := none }

def sampleConsumer (id : Int) (cache : Nat) : Broker :=
  { is_owner := false, consumer_id := id, local_epoch_cache := cache,
    settings := sampleSettings OverflowPolicy.BLOCK 10000, pending_slot := none }

/-- A channel with epoch 7 whose slots all hold sequence `seq`, state `st` and
payload 0. -/
def sampleChannel (head : Nat) (tails : Nat → Nat) (active : Nat → Bool)
    (heartbeats : Nat → Int) (seq : Nat) (st : SlotState) : SharedChannel Nat :=
  { magic := MAGIC_NUMBER, version := PROTOCOL_VERSION, struct_size := 8,
    buffer_capacity := 4, producer_epoch := 7, head := head, tails := tails,
    slot_active := active, heartbeats := heartbeats, write_lock := false,
    slots := fun _ => { sequence := seq, state := st, data := 0 } }

/-- Head 0; consumer 0 is registered with its tail on slot 1 and heartbeat 0. -/
def sampleBlocked : SharedChannel Nat :=
  sampleChannel 0 (fun _ => 1) (fun i => decide (i = 0)) (fun _ => 0) 0 SlotState.FREE

/-- Head 0; consumers 0 and 1 are registered with their tails on slot 1;
consumer 0 has heartbeat 900, consumer 1 heartbeat 0. -/
def sampleTwo : SharedChannel Nat :=
  sampleChannel 0 (fun _ => 1) (fun i => decide (i < 2))
    (fun i => if i = 0 then 900 else 0) 0 SlotState.FREE

/-- Head 2; consumer 0 is registered with its tail on slot 1; all slots READY. -/
def sampleReadable : SharedChannel Nat :=
  sampleChannel 2 (fun _ => 1) (fun i => decide (i = 0)) (fun _ => 0) 1 SlotState.READY

/-- Head 1; consumer 0 is registered with its tail on slot 1 as well. -/
def sampleDrained : SharedChannel Nat :=
  sampleChannel 1 (fun _ => 1) (fun i => decide (i = 0)) (fun _ => 0) 1 SlotState.READY

/-- Publish 5, find the ring of two slots full, let the consumer read and
release, publish 6, let the consumer read again. -/
def sampleSchedule : List (Step Nat) :=
  [Step.prepare 10 2000, Step.fill 5, Step.commit, Step.prepare 20 2000, Step.peek 30,
   Step.release 40, Step.prepare 50 2000, Step.fill 6, Step.commit, Step.peek 60]

/-- Publish 10 into slot 0 and let the consumer take the view of slot 0. -/
def viewTaken : List (Step Nat) :=
  [Step.prepare 10 2000, Step.fill 10, Step.commit, Step.peek 20]

/-- Two more publications, 11 and 12, shortly after the peek. -/
def publishSoon : List (Step Nat) :=
  [Step.prepare 30 2000, Step.fill 11, Step.commit,
   Step.prepare 40 2000, Step.fill 12, Step.commit]

/-- Two more publications, 11 and 12, five seconds after the peek. -/
def publishLate : List (Step Nat) :=
  [Step.prepare 5000 2000, Step.fill 11, Step.commit,
   Step.prepare 5010 2000, Step.fill 12, Step.commit]

/-- One publication, 11, shortly after the peek. -/
def publishOne : List (Step Nat) :=
  [Step.prepare 30 2000, Step.fill 11, Step.commit, Step.prepare 40 2000]

/-- A system at rest, used where a run has no result. -/
def sampleIdle : Sys Nat :=
  { ch := sampleDrained, prod := sampleProducer OverflowPolicy.BLOCK 10000,
    cons := sampleConsumer 0 7, holding := false, committed := [], delivered := [] }

/-- Capacity `N`, 16 consumer entries, epoch 7, consumer 0 attached at time 0. -/
def sampleInit (N : Nat) (policy : OverflowPolicy) : Sys Nat :=
  (init N 16 8 7 0 (sampleSettings policy 10000)
    (sampleSettings OverflowPolicy.BLOCK 10000) 0 0).getD sampleIdle

/-- The state `sampleInit` reaches with schedule `es`. -/
def sampleAfter (N : Nat) (policy : OverflowPolicy) (es : List (Step Nat)) : Sys Nat :=
  (run N 16 (sampleInit N policy) es).getD sampleIdle

/-- Capacity 2 (or 4), 16 consumer entries, consumer 0 attached at time 0;
then the schedule `es`.  The result shows whether the consumer holds a view,
its tail, and slot 0. -/
def sampleRun (N : Nat) (policy : OverflowPolicy) (es : List (Step Nat)) :
    Option (Bool × Nat × (Nat × SlotState × Nat)) :=
  ((init N 16 8 7 0 (sampleSettings policy 10000)
      (sampleSettings OverflowPolicy.BLOCK 10000) 0 0).bind
    (fun s0 => run N 16 s0 es)).map
    (fun s => (s.holding, s.ch.tails 0, (s.ch.slots 0).obs))

/-! ## Administration and racing reads -/

/-- `void force_disconnect_consumer(int id)`. -/
def force_disconnect_consumer {T : Type} (C : Nat) (id : Int) (ch : SharedChannel T) :
    SharedChannel T :=
  if id < 0 ∨ id ≥ (C : Int) then ch
  else { ch with slot_active := Function.update ch.slot_active id.toNat false }

/-- The shared channel once the attaching constructor has returned or thrown:
every `throw` of that branch comes before its first store. -/
def channel_after {T : Type} (ch : SharedChannel T) :
    Except AttachError (Broker × SharedChannel T) → SharedChannel T
  | Except.ok (_, ch1) => ch1
  | Except.error _ => ch

/-- Entries `tails[i]` and `heartbeats[i]` replaced by `t` and `hb`. -/
def retouch {T : Type} (ch : SharedChannel T) (i t : Nat) (hb : Int) : SharedChannel T :=
  { ch with
    tails := Function.update ch.tails i t
    heartbeats := Function.update ch.heartbeats i hb }

/-- The body of `peek` when the producer may write the slot while the call
runs: `ready` tells whether the bounded wait saw READY, `seq_after` is what
the second load of the sequence returns. -/
def peek_racing {T : Type} (N : Nat) (b : Broker) (ch : SharedChannel T) (now : Int)
    (ready : Bool) (seq_after : Nat) : PeekResult × Broker × SharedChannel T :=
  let current_epoch := ch.producer_epoch
  let b1 : Broker :=
    if b.local_epoch_cache = 0 then { b with local_epoch_cache := current_epoch } else b
  if current_epoch ≠ b1.local_epoch_cache then
    let new_head := ch.head
    (PeekResult.empty, { b1 with local_epoch_cache := current_epoch },
      { ch with tails := Function.update ch.tails b.self new_head })
  else if ch.slot_active b.self = false then
    (PeekResult.disconnected, b1, ch)
  else
    let ch1 := { ch with heartbeats := Function.update ch.heartbeats b.self now }
    let current_tail := ch1.tails b.self
    if current_tail = ch1.head then (PeekResult.empty, b1, ch1)
    else
      let seq_before := (ch1.slots current_tail).sequence
      if ready = false then
        (PeekResult.empty, b1, ch1)
      else
        if seq_before ≠ seq_after then
          (PeekResult.empty, b1, release N b1 ch1 now)
        else (PeekResult.view current_tail, b1, ch1)

/-- The ring invariant: head and every tail are slot indices. -/
def RingInv {T : Type} (N : Nat) (ch : SharedChannel T) : Prop :=
  ch.head < N ∧ ∀ i, ch.tails i < N

/-! ## Fixed-capacity text field -/

/-- Length of the zero-terminated text at `src`: the bytes before the first
zero. -/
def strlen (src : List Nat) : Nat := (src.takeWhile (fun c => c != 0)).length

/-- `strncpy(dest, src, n)` of the C library: the first `n` bytes of `dest`
receive the text at `src`, cut after `n` bytes or padded with zeros. -/
def strncpy (dest : Nat → Nat) (src : List Nat) (n : Nat) : Nat → Nat :=
  fun i => if i < n then (if i < strlen src then src.getD i 0 else 0) else dest i

/-- `NanoString<N>`: the array `char buffer[N]`. -/
structure NanoString (N : Nat) where
  buffer : Nat → Nat

/-- `NanoString(const char*)`, `NanoString(const std::string&)` and both
`operator=`: `strncpy(buffer, str, N - 1); buffer[N - 1] = 0`.  For the
constructors `self` is the uninitialised buffer. -/
def NanoString.assign {N : Nat} (self : NanoString N) (str : List Nat) : NanoString N :=
  { buffer := Function.update (strncpy self.buffer str (N - 1)) (N - 1) 0 }

/-- The text `c_str()` points to: the bytes of the buffer before the first
zero. -/
def NanoString.c_str {N : Nat} (self : NanoString N) : List Nat :=
  ((List.range N).map self.buffer).takeWhile (fun c => c != 0)

/-! ## The video record and the Python binding -/

def MAX_WIDTH : Nat := 1920

def MAX_HEIGHT : Nat := 1080

def CHANNELS : Nat := 3

def MAX_SIZE : Nat := MAX_WIDTH * MAX_HEIGHT * CHANNELS

def BUFFER_SIZE : Nat := 30

def MAX_CONSUMERS : Nat := 16

/-- `Protocol::CameraFrame`; `pixels` is the array `uint8_t pixels[MAX_SIZE]`,
`format` the buffer of the `NanoString<16>`. -/
structure CameraFrame where
  producer_id : Int
  frame_id : Int
  timestamp_ns : Int
  width : Int
  height : Int
  channels : Int
  data_size : Nat
  format : NanoString 16
  pixels : Nat → Nat

/-- A record of a fresh, zero-filled segment. -/
def zeroFrame : CameraFrame :=
  { producer_id := 0, frame_id := 0, timestamp_ns := 0, width := 0, height := 0,
    channels := 0, data_size := 0, format := { buffer := fun _ => 0 }, pixels := fun _ => 0 }

/-- `memcpy(dest, src, src.size)`. -/
def memcpy (dest : Nat → Nat) (src : List Nat) : Nat → Nat :=
  fun i => if i < src.length then src.getD i 0 else dest i

/-- What `publish_frame` does with the result of `prepare_publish()`:
`timestamp` is the reading of the high-resolution clock. -/
def publish_into (N : Nat) (id w h : Int) (input_array : List Nat) (timestamp : Int) :
    Option Nat × Broker × SharedChannel CameraFrame →
      Bool × Broker × SharedChannel CameraFrame
  | (none, b, ch) => (false, b, ch)
  | (some p, b, ch) =>
    let slot := (ch.slots p).data
    let slot1 := { slot with frame_id := id }
    let slot2 := { slot1 with width := w }
    let slot3 := { slot2 with height := h }
    let slot4 := { slot3 with pixels := memcpy slot3.pixels input_array }
    let slot5 := { slot4 with timestamp_ns := timestamp }
    (true, commit_publish N b (fill ch p slot5))

/-- `bool PyVideoBroker::publish_frame(id, w, h, input_array)`; `none` when
`prepare_publish` does not return. -/
def publish_frame (N C : Nat) (b : Broker) (ch : SharedChannel CameraFrame) (now : Int)
    (timestamp : Int) (id w h : Int) (input_array : List Nat) :
    Option (Bool × Broker × SharedChannel CameraFrame) :=
  if input_array.length > MAX_SIZE then some (false, b, ch)
  else (prepare_publish_default N C b ch now).map (publish_into N id w h input_array timestamp)

/-- `wait_and_peek()`: call `peek` until it returns a view; `clock k` is the
clock reading of call number `k`.  `none`: still waiting after `fuel` calls.
An exception of `peek` ends the loop. -/
def wait_and_peek {T : Type} (N : Nat) (clock : Nat → Int) :
    Nat → Nat → Broker → SharedChannel T → Option (PeekResult × Broker × SharedChannel T)
  | 0, _, _, _ => none
  | fuel + 1, k, b, ch =>
    match peek N b ch (clock k) with
    | (PeekResult.empty, b1, ch1) => wait_and_peek N clock fuel (k + 1) b1 ch1
    | r => some r

/-- Shape and elements of the array `get_next_frame` builds over
`frame->pixels`. -/
def array_of (frame : CameraFrame) : List Nat × List Nat :=
  let w := frame.width
  let h := frame.height
  let c := frame.channels
  let size := if frame.data_size > MAX_SIZE then MAX_SIZE else frame.data_size
  let shape :=
    if w > 0 ∧ h > 0 ∧ c > 0 then
      if (w * h * c).toNat ≠ size then [size] else [h.toNat, w.toNat, c.toNat]
    else [size]
  (shape, (List.range shape.prod).map frame.pixels)

/-- The tuple `(producer_id, frame_id, array)` for the view `wait_and_peek`
returned; nothing when `peek` threw. -/
def tuple_of (r : PeekResult × Broker × SharedChannel CameraFrame) :
    Option (Int × Int × List Nat × List Nat) :=
  match r.1 with
  | PeekResult.view i =>
    some (((r.2.2.slots i).data).producer_id, ((r.2.2.slots i).data).frame_id,
      array_of ((r.2.2.slots i).data))
  | _ => none

/-- `py::object PyVideoBroker::get_next_frame()`. -/
def get_next_frame (N : Nat) (clock : Nat → Int) (fuel : Nat) (b : Broker)
    (ch : SharedChannel CameraFrame) :
    Option (Option (Int × Int × List Nat × List Nat) × Broker × SharedChannel CameraFrame) :=
  (wait_and_peek N clock fuel 0 b ch).map (fun r => (tuple_of r, r.2.1, r.2.2))

/-! ## More sample data -/

/-- The readable sample with consumer 0 not registered. -/
def sampleKicked : SharedChannel Nat :=
  { sampleReadable with slot_active := fun _ => false }

/-- Capacity 4: consumer 0 has read and released one record (its cache holds
epoch 7); then the producer is created again, with epoch 9. -/
def sampleRestarted : Sys Nat :=
  { sampleAfter 4 OverflowPolicy.BLOCK (viewTaken ++ [Step.release 30]) with
    ch := (create 4 8 9 0 (sampleSettings OverflowPolicy.BLOCK 10000)).2
    prod := (create 4 8 9 (0 : Nat) (sampleSettings OverflowPolicy.BLOCK 10000)).1 }

/-- The new producer has published 20. -/
def sampleRepublished : Sys Nat :=
  (run 4 16 sampleRestarted [Step.prepare 40 2000, Step.fill 20, Step.commit]).getD sampleIdle

/-- A header as `create` writes it, with the given magic, version and record
size. -/
def sampleHeader (magic version size : Nat) : SharedChannel Nat :=
  { sampleDrained with magic := magic, version := version, struct_size := size }

/-- A fresh video channel. -/
def videoCreated : Broker × SharedChannel CameraFrame :=
  create BUFFER_SIZE 8 7 zeroFrame (sampleSettings OverflowPolicy.BLOCK 10000)

/-- Consumer 0 attaches to the fresh video channel at time 0. -/
def videoAttached : Option (Sys CameraFrame) :=
  attached videoCreated.1
    (attach MAX_CONSUMERS 8 0 (sampleSettings OverflowPolicy.BLOCK 10000) videoCreated.2 0)

/-- The producer calls `publish_frame(1, 1, 1, [7, 8, 9])` at time 10, then the
consumer calls `get_next_frame()`.  The result shows what `publish_frame`
returned and the tuple. -/
def videoRoundTrip : Option (Bool × Option (Int × Int × List Nat × List Nat)) :=
  videoAttached.bind (fun s =>
    (publish_frame BUFFER_SIZE MAX_CONSUMERS s.prod s.ch 10 123 1 1 1 [7, 8, 9]).bind (fun p =>
      (get_next_frame BUFFER_SIZE (fun _ => 20) 3 s.cons p.2.2).map (fun g => (p.1, g.1))))

/-! ## peek, cut at its loads -/

/-- Locals of a call of `peek` that has loaded `seq_before` and has not
returned yet. -/
structure PeekLocals where
  current_tail : Nat
  seq_before : Nat
  deriving DecidableEq, Repr

/-- The call `peek()` from its entry to the load of `seq_before`: the epoch
test, the active-flag test, the heartbeat store, the loads of tail and head
and their comparison, the load of the slot's sequence.  Left: the call has
returned (or thrown).  Right: the call goes on with these locals. -/
def peek_enter {T : Type} (b : Broker) (ch : SharedChannel T) (now : Int) :
    (PeekResult ⊕ PeekLocals) × Broker × SharedChannel T :=
  let current_epoch := ch.producer_epoch
  let b1 : Broker :=
    if b.local_epoch_cache = 0 then { b with local_epoch_cache := current_epoch } else b
  if current_epoch ≠ b1.local_epoch_cache then
    let new_head := ch.head
    (Sum.inl PeekResult.empty, { b1 with local_epoch_cache := current_epoch },
      { ch with tails := Function.update ch.tails b.self new_head })
  else if ch.slot_active b.self = false then
    (Sum.inl PeekResult.disconnected, b1, ch)
  else
    let ch1 := { ch with heartbeats := Function.update ch.heartbeats b.self now }
    let current_tail := ch1.tails b.self
    if current_tail = ch1.head then (Sum.inl PeekResult.empty, b1, ch1)
    else
      (Sum.inr { current_tail := current_tail,
                 seq_before := (ch1.slots current_tail).sequence }, b1, ch1)

/-- The wait loop `while (slot->state.load() != READY)` of `peek`, on a
channel that stays as it is while the loop runs: `true` when the loop is left
with READY, `false` when the call gives up. -/
def peek_wait {T : Type} (ch : SharedChannel T) (l : PeekLocals) : Bool :=
  spin_wait (ch.slots l.current_tail).state 10001 0

/-- The call `peek()` from the load of `seq_after` to its return, on the
channel as it is by then: a sequence other than `seq_before` makes the call
`release()` and return `nullptr`, an equal one returns the pointer to
`slots[current_tail].data`. -/
def peek_leave {T : Type} (N : Nat) (b : Broker) (ch : SharedChannel T) (now : Int)
    (l : PeekLocals) : PeekResult × Broker × SharedChannel T :=
  let seq_after := (ch.slots l.current_tail).sequence
  if l.seq_before ≠ seq_after then (PeekResult.empty, b, release N b ch now)
  else (PeekResult.view l.current_tail, b, ch)

/-- The parts of `peek` after `peek_enter` when nothing else runs in
between. -/
def peek_finish {T : Type} (N : Nat) (now : Int) :
    (PeekResult ⊕ PeekLocals) × Broker × SharedChannel T →
      PeekResult × Broker × SharedChannel T
  | (Sum.inl r, b, ch) => (r, b, ch)
  | (Sum.inr l, b, ch) =>
    if peek_wait ch l = false then (PeekResult.empty, b, ch) else peek_leave N b ch now l

/-- Capacity 2, OVERWRITE_OLD, consumer 0 attached at time 0: 10 is
published into slot 0. -/
def publishFirst : List (Step Nat) := [Step.prepare 10 2000, Step.fill 10, Step.commit]

/-- The state after `publishFirst`: head 1, tail of consumer 0 on slot 0. -/
def raceStart : Sys Nat := sampleAfter 2 OverflowPolicy.OVERWRITE_OLD publishFirst

/-- Consumer 0 has entered `peek` at time 20 and loaded `seq_before`. -/
def raceEntered : (PeekResult ⊕ PeekLocals) × Broker × SharedChannel Nat :=
  peek_enter raceStart.cons raceStart.ch 20

/-- The locals of that call: slot 0, sequence 1. -/
def raceLocals : PeekLocals := { current_tail := 0, seq_before := 1 }

/-- The producer publishes 11 into slot 1, is handed slot 0 and writes 12
into it. -/
def raceProducer : List (Step Nat) :=
  [Step.prepare 30 2000, Step.fill 11, Step.commit, Step.prepare 40 2000, Step.fill 12]

/-- The system when the consumer's call has left its wait loop. -/
def raceWaited : Sys Nat :=
  { raceStart with cons := raceEntered.2.1, ch := raceEntered.2.2 }

/-- The system after the producer has run `raceProducer` from there. -/
def raceDuring : Sys Nat := (run 2 16 raceWaited raceProducer).getD sampleIdle

/-! ## Slot life cycle -/

/-- The pointer a `Broker` object holds refers to a slot in state WRITING. -/
def PendingWriting {T : Type} (b : Broker) (ch : SharedChannel T) : Prop :=
  ∀ p, b.pending_slot = some p → (ch.slots p).state = SlotState.WRITING

/-- What one operation did to a slot that was `w` before and is `w1` after;
`committed` says that the operation is a `commit_publish` through a pointer to
this slot.  The counter does not go down, it moves exactly when `committed`,
and then by one; a slot that has left FREE is not FREE afterwards; a slot that
turns READY was WRITING. -/
def SlotLegal {T : Type} (committed : Prop) (w w1 : SlotWrapper T) : Prop :=
  w.sequence ≤ w1.sequence ∧
    (w.state ≠ SlotState.FREE → w1.state ≠ SlotState.FREE) ∧
    (committed → w1.sequence = w.sequence + 1) ∧
    (¬ committed → w1.sequence = w.sequence) ∧
    (w1.state = SlotState.READY → w.state ≠ SlotState.READY → w.state = SlotState.WRITING)

/-- Every slot of `ch1` is a legal successor of the same slot of `ch`, where
`committed` is the slot a `commit_publish` went through, if any. -/
def SlotsLegal {T : Type} (committed : Option Nat) (ch ch1 : SharedChannel T) : Prop :=
  ∀ i, SlotLegal (committed = some i) (ch.slots i) (ch1.slots i)

/-- An operation that took the channel from `ch` to `ch1` without a commit:
every slot is a legal successor of itself, and a pointer that referred to a
WRITING slot still does. -/
def SlotsKept {T : Type} (ch ch1 : SharedChannel T) : Prop :=
  SlotsLegal none ch ch1 ∧ ∀ p : Broker, PendingWriting p ch → PendingWriting p ch1

/-- Head 0; consumers 0 and 1 are registered with their tails on slot 1;
consumer 0 has heartbeat 0, consumer 1 heartbeat 900. -/
def sampleStaleFirst : SharedChannel Nat :=
  sampleChannel 0 (fun _ => 1) (fun i => decide (i < 2))
    (fun i => if i = 1 then 900 else 0) 0 SlotState.FREE

/-- Capacity 2: 5 and 6 are published, read and released; the head is back
on slot 0 and so is the tail of consumer 0. -/
def drainedTwice : List (Step Nat) := sampleSchedule ++ [Step.release 70]

/-! ## The scan of the consumer table -/

/-- Consumer `j` is registered, its tail is the slot after the head, and its
heartbeat is recent enough: the producer may not overwrite its slot. -/
def blocking {T : Type} (ch : SharedChannel T) (next_head : Nat) (now timeout_ms : Int)
    (j : Nat) : Prop :=
  ch.slot_active j = true ∧ next_head = ch.tails j ∧ now - ch.heartbeats j ≤ timeout_ms

/-- Consumer `j` is registered, its tail is the slot after the head, and its
heartbeat is older than the timeout. -/
def stale {T : Type} (ch : SharedChannel T) (next_head : Nat) (now timeout_ms : Int)
    (j : Nat) : Prop :=
  ch.slot_active j = true ∧ next_head = ch.tails j ∧ now - ch.heartbeats j > timeout_ms

section Scan

variable {T : Type} (N : Nat) (nh : Nat) (now tmo : Int)

theorem scan_cases (ch : SharedChannel T) (i : Nat) :
    ¬ (ch.slot_active i = true ∧ nh = ch.tails i) ∨ stale ch nh now tmo i ∨
      blocking ch nh now tmo i := by
  by_cases h : ch.slot_active i = true ∧ nh = ch.tails i
  · rcases lt_or_le tmo (now - ch.heartbeats i) with hd | hd
    · exact Or.inr (Or.inl ⟨h.1, h.2, hd⟩)
    · exact Or.inr (Or.inr ⟨h.1, h.2, hd⟩)
  · exact Or.inl h

theorem prepare_loop_skip (policy : OverflowPolicy) (rem i : Nat) (ch : SharedChannel T)
    (h : ¬ (ch.slot_active i = true ∧ nh = ch.tails i)) :
    prepare_loop N policy nh now tmo (rem + 1) i ch =
      prepare_loop N policy nh now tmo rem (i + 1) ch := by
  by_cases ha : ch.slot_active i = true
  · have ht : ¬ nh = ch.tails i := fun ht => h ⟨ha, ht⟩
    simp [prepare_loop, ha, ht]
  · simp [prepare_loop, ha]

theorem prepare_loop_evict (policy : OverflowPolicy) (rem i : Nat) (ch : SharedChannel T)
    (h : stale ch nh now tmo i) :
    prepare_loop N policy nh now tmo (rem + 1) i ch =
      prepare_loop N policy nh now tmo rem (i + 1)
        { ch with slot_active := Function.update ch.slot_active i false } := by
  obtain ⟨ha, ht, hd⟩ := h
  have hd2 : tmo < now - ch.heartbeats i := hd
  simp [prepare_loop, ha, ← ht, hd2]

theorem prepare_loop_stop (rem i : Nat) (ch : SharedChannel T)
    (h : blocking ch nh now tmo i) :
    prepare_loop N OverflowPolicy.BLOCK nh now tmo (rem + 1) i ch = (true, ch) := by
  obtain ⟨ha, ht, hd⟩ := h
  have hd2 : ¬ tmo < now - ch.heartbeats i := not_lt.mpr hd
  simp [prepare_loop, ha, ← ht, hd2]

theorem prepare_loop_advance (rem i : Nat) (ch : SharedChannel T)
    (h : blocking ch nh now tmo i) :
    prepare_loop N OverflowPolicy.OVERWRITE_OLD nh now tmo (rem + 1) i ch =
      prepare_loop N OverflowPolicy.OVERWRITE_OLD nh now tmo rem (i + 1)
        { ch with tails := Function.update ch.tails i ((ch.tails i + 1) % N) } := by
  obtain ⟨ha, ht, hd⟩ := h
  have hd2 : ¬ tmo < now - ch.heartbeats i := not_lt.mpr hd
  simp [prepare_loop, ha, ← ht, hd2]

theorem stale_not_blocking (ch : SharedChannel T) (i : Nat) (h : stale ch nh now tmo i) :
    ¬ blocking ch nh now tmo i :=
  fun hb => absurd hb.2.2 (not_le.mpr h.2.2)

theorem blocking_evict_iff (ch : SharedChannel T) (i j : Nat) (hji : j ≠ i) :
    blocking { ch with slot_active := Function.update ch.slot_active i false } nh now tmo j ↔
      blocking ch nh now tmo j := by
  simp [blocking, Function.update_noteq hji]

theorem stale_evict_iff (ch : SharedChannel T) (i j : Nat) (hji : j ≠ i) :
    stale { ch with slot_active := Function.update ch.slot_active i false } nh now tmo j ↔
      stale ch nh now tmo j := by
  simp [stale, Function.update_noteq hji]

theorem blocking_advance_iff (ch : SharedChannel T) (i j v : Nat) (hji : j ≠ i) :
    blocking { ch with tails := Function.update ch.tails i v } nh now tmo j ↔
      blocking ch nh now tmo j := by
  simp [blocking, Function.update_noteq hji]

theorem stale_advance_iff (ch : SharedChannel T) (i j v : Nat) (hji : j ≠ i) :
    stale { ch with tails := Function.update ch.tails i v } nh now tmo j ↔
      stale ch nh now tmo j := by
  simp [stale, Function.update_noteq hji]

theorem prepare_loop_frame (policy : OverflowPolicy) (rem i : Nat) (ch : SharedChannel T) :
    (prepare_loop N policy nh now tmo rem i ch).2 =
      { ch with
        tails := (prepare_loop N policy nh now tmo rem i ch).2.tails
        slot_active := (prepare_loop N policy nh now tmo rem i ch).2.slot_active } := by
  induction rem generalizing i ch with
  | zero => rfl
  | succ rem ih =>
    rcases scan_cases nh now tmo ch i with h | h | h
    · rw [prepare_loop_skip N nh now tmo policy rem i ch h]
      exact ih _ _
    · rw [prepare_loop_evict N nh now tmo policy rem i ch h]
      exact ih _ _
    · cases policy
      · rw [prepare_loop_stop N nh now tmo rem i ch h]
      · rw [prepare_loop_advance N nh now tmo rem i ch h]
        exact ih _ _

theorem prepare_loop_block_tails (rem i : Nat) (ch : SharedChannel T) :
    (prepare_loop N OverflowPolicy.BLOCK nh now tmo rem i ch).2.tails = ch.tails := by
  induction rem generalizing i ch with
  | zero => rfl
  | succ rem ih =>
    rcases scan_cases nh now tmo ch i with h | h | h
    · rw [prepare_loop_skip N nh now tmo _ rem i ch h]
      exact ih _ _
    · rw [prepare_loop_evict N nh now tmo _ rem i ch h]
      exact ih _ _
    · rw [prepare_loop_stop N nh now tmo rem i ch h]

theorem prepare_loop_block_full (rem i : Nat) (ch : SharedChannel T) :
    (prepare_loop N OverflowPolicy.BLOCK nh now tmo rem i ch).1 = true ↔
      ∃ j, i ≤ j ∧ j < i + rem ∧ blocking ch nh now tmo j := by
  induction rem generalizing i ch with
  | zero =>
    simp only [prepare_loop]
    constructor
    · intro h; cases h
    · rintro ⟨j, h1, h2, _⟩; omega
  | succ rem ih =>
    rcases scan_cases nh now tmo ch i with h | h | h
    · rw [prepare_loop_skip N nh now tmo _ rem i ch h, ih]
      constructor
      · rintro ⟨j, h1, h2, hb⟩
        exact ⟨j, by omega, by omega, hb⟩
      · rintro ⟨j, h1, h2, hb⟩
        have hji : j ≠ i := by
          rintro rfl
          exact h ⟨hb.1, hb.2.1⟩
        exact ⟨j, by omega, by omega, hb⟩
    · rw [prepare_loop_evict N nh now tmo _ rem i ch h, ih]
      constructor
      · rintro ⟨j, h1, h2, hb⟩
        have hji : j ≠ i := by omega
        exact ⟨j, by omega, by omega, (blocking_evict_iff nh now tmo ch i j hji).mp hb⟩
      · rintro ⟨j, h1, h2, hb⟩
        have hji : j ≠ i := by
          rintro rfl
          exact stale_not_blocking nh now tmo ch j h hb
        exact ⟨j, by omega, by omega, (blocking_evict_iff nh now tmo ch i j hji).mpr hb⟩
    · rw [prepare_loop_stop N nh now tmo rem i ch h]
      simp only [true_iff]
      exact ⟨i, le_refl i, by omega, h⟩

theorem prepare_loop_block_active (rem i : Nat) (ch : SharedChannel T) (k : Nat) :
    (prepare_loop N OverflowPolicy.BLOCK nh now tmo rem i ch).2.slot_active k = true ↔
      ch.slot_active k = true ∧
        ¬ (i ≤ k ∧ k < i + rem ∧ stale ch nh now tmo k ∧
            ∀ j, i ≤ j → j < k → ¬ blocking ch nh now tmo j) := by
  induction rem generalizing i ch with
  | zero =>
    simp only [prepare_loop]
    constructor
    · intro h
      exact ⟨h, fun hh => by omega⟩
    · intro h; exact h.1
  | succ rem ih =>
    rcases scan_cases nh now tmo ch i with h | h | h
    · rw [prepare_loop_skip N nh now tmo _ rem i ch h, ih]
      have hnb : ¬ blocking ch nh now tmo i := fun hb => h ⟨hb.1, hb.2.1⟩
      have hns : ¬ stale ch nh now tmo i := fun hb => h ⟨hb.1, hb.2.1⟩
      constructor
      · rintro ⟨ha, hn⟩
        refine ⟨ha, ?_⟩
        rintro ⟨h1, h2, hs, hall⟩
        have hki : k ≠ i := by
          rintro rfl
          exact hns hs
        exact hn ⟨by omega, by omega, hs, fun j hj1 hj2 => hall j (by omega) hj2⟩
      · rintro ⟨ha, hn⟩
        refine ⟨ha, ?_⟩
        rintro ⟨h1, h2, hs, hall⟩
        refine hn ⟨by omega, by omega, hs, fun j hj1 hj2 => ?_⟩
        rcases Nat.eq_or_lt_of_le hj1 with hj | hj
        · rw [← hj]; exact hnb
        · exact hall j hj hj2
    · rw [prepare_loop_evict N nh now tmo _ rem i ch h, ih]
      have hnb : ¬ blocking ch nh now tmo i := stale_not_blocking nh now tmo ch i h
      by_cases hki : k = i
      · subst hki
        simp only [Function.update_same]
        constructor
        · rintro ⟨ha, _⟩; cases ha
        · rintro ⟨_, hn⟩
          exact absurd ⟨le_refl k, by omega, h, fun j hj1 hj2 => by omega⟩ hn
      · simp only [Function.update_noteq hki]
        constructor
        · rintro ⟨ha, hn⟩
          refine ⟨ha, ?_⟩
          rintro ⟨h1, h2, hs, hall⟩
          refine hn ⟨by omega, by omega, (stale_evict_iff nh now tmo ch i k hki).mpr hs,
            fun j hj1 hj2 => ?_⟩
          have hji : j ≠ i := by omega
          rw [blocking_evict_iff nh now tmo ch i j hji]
          exact hall j (by omega) hj2
        · rintro ⟨ha, hn⟩
          refine ⟨ha, ?_⟩
          rintro ⟨h1, h2, hs, hall⟩
          refine hn ⟨by omega, by omega, (stale_evict_iff nh now tmo ch i k hki).mp hs,
            fun j hj1 hj2 => ?_⟩
          rcases Nat.eq_or_lt_of_le hj1 with hj | hj
          · rw [← hj]; exact hnb
          · have hji : j ≠ i := by omega
            rw [← blocking_evict_iff nh now tmo ch i j hji]
            exact hall j hj hj2
    · rw [prepare_loop_stop N nh now tmo rem i ch h]
      constructor
      · intro ha
        refine ⟨ha, ?_⟩
        rintro ⟨h1, h2, hs, hall⟩
        rcases Nat.eq_or_lt_of_le h1 with hk | hk
        · rw [← hk] at hs
          exact stale_not_blocking nh now tmo ch i hs h
        · exact hall i (le_refl i) hk h
      · intro ha; exact ha.1

theorem prepare_loop_overwrite_full (rem i : Nat) (ch : SharedChannel T) :
    (prepare_loop N OverflowPolicy.OVERWRITE_OLD nh now tmo rem i ch).1 = false := by
  induction rem generalizing i ch with
  | zero => rfl
  | succ rem ih =>
    rcases scan_cases nh now tmo ch i with h | h | h
    · rw [prepare_loop_skip N nh now tmo _ rem i ch h]
      exact ih _ _
    · rw [prepare_loop_evict N nh now tmo _ rem i ch h]
      exact ih _ _
    · rw [prepare_loop_advance N nh now tmo rem i ch h]
      exact ih _ _

theorem prepare_loop_overwrite_active (rem i : Nat) (ch : SharedChannel T) (k : Nat) :
    (prepare_loop N OverflowPolicy.OVERWRITE_OLD nh now tmo rem i ch).2.slot_active k = true ↔
      ch.slot_active k = true ∧ ¬ (i ≤ k ∧ k < i + rem ∧ stale ch nh now tmo k) := by
  induction rem generalizing i ch with
  | zero =>
    simp only [prepare_loop]
    constructor
    · intro h
      exact ⟨h, fun hh => by omega⟩
    · intro h; exact h.1
  | succ rem ih =>
    rcases scan_cases nh now tmo ch i with h | h | h
    · rw [prepare_loop_skip N nh now tmo _ rem i ch h, ih]
      have hns : ¬ stale ch nh now tmo i := fun hb => h ⟨hb.1, hb.2.1⟩
      constructor
      · rintro ⟨ha, hn⟩
        refine ⟨ha, ?_⟩
        rintro ⟨h1, h2, hs⟩
        have hki : k ≠ i := by
          rintro rfl
          exact hns hs
        exact hn ⟨by omega, by omega, hs⟩
      · rintro ⟨ha, hn⟩
        exact ⟨ha, fun hh => hn ⟨by omega, by omega, hh.2.2⟩⟩
    · rw [prepare_loop_evict N nh now tmo _ rem i ch h, ih]
      by_cases hki : k = i
      · subst hki
        simp only [Function.update_same]
        constructor
        · rintro ⟨ha, _⟩; cases ha
        · rintro ⟨_, hn⟩
          exact absurd ⟨le_refl k, by omega, h⟩ hn
      · simp only [Function.update_noteq hki]
        constructor
        · rintro ⟨ha, hn⟩
          refine ⟨ha, ?_⟩
          rintro ⟨h1, h2, hs⟩
          exact hn ⟨by omega, by omega, (stale_evict_iff nh now tmo ch i k hki).mpr hs⟩
        · rintro ⟨ha, hn⟩
          refine ⟨ha, ?_⟩
          rintro ⟨h1, h2, hs⟩
          exact hn ⟨by omega, by omega, (stale_evict_iff nh now tmo ch i k hki).mp hs⟩
    · rw [prepare_loop_advance N nh now tmo rem i ch h, ih]
      have hns : ¬ stale ch nh now tmo i := fun hs => stale_not_blocking nh now tmo ch i hs h
      constructor
      · rintro ⟨ha, hn⟩
        refine ⟨ha, ?_⟩
        rintro ⟨h1, h2, hs⟩
        have hki : k ≠ i := by
          rintro rfl
          exact hns hs
        exact hn ⟨by omega, by omega,
          (stale_advance_iff nh now tmo ch i k _ hki).mpr hs⟩
      · rintro ⟨ha, hn⟩
        refine ⟨ha, ?_⟩
        rintro ⟨h1, h2, hs⟩
        have hki : k ≠ i := by omega
        exact hn ⟨by omega, by omega, (stale_advance_iff nh now tmo ch i k _ hki).mp hs⟩

theorem prepare_loop_overwrite_tails (rem i : Nat) (ch : SharedChannel T) (k : Nat) :
    ((i ≤ k ∧ k < i + rem ∧ blocking ch nh now tmo k) →
        (prepare_loop N OverflowPolicy.OVERWRITE_OLD nh now tmo rem i ch).2.tails k =
          (ch.tails k + 1) % N) ∧
      (¬ (i ≤ k ∧ k < i + rem ∧ blocking ch nh now tmo k) →
        (prepare_loop N OverflowPolicy.OVERWRITE_OLD nh now tmo rem i ch).2.tails k =
          ch.tails k) := by
  induction rem generalizing i ch with
  | zero =>
    exact ⟨fun h => by omega, fun _ => rfl⟩
  | succ rem ih =>
    rcases scan_cases nh now tmo ch i with h | h | h
    · rw [prepare_loop_skip N nh now tmo _ rem i ch h]
      have hnb : ¬ blocking ch nh now tmo i := fun hb => h ⟨hb.1, hb.2.1⟩
      constructor
      · rintro ⟨h1, h2, hb⟩
        have hki : k ≠ i := by
          rintro rfl
          exact hnb hb
        exact (ih (i + 1) ch).1 ⟨by omega, by omega, hb⟩
      · intro hn
        exact (ih (i + 1) ch).2 (fun hh => hn ⟨by omega, by omega, hh.2.2⟩)
    · rw [prepare_loop_evict N nh now tmo _ rem i ch h]
      have hnb : ¬ blocking ch nh now tmo i := stale_not_blocking nh now tmo ch i h
      constructor
      · rintro ⟨h1, h2, hb⟩
        have hki : k ≠ i := by
          rintro rfl
          exact hnb hb
        exact (ih (i + 1) _).1
          ⟨by omega, by omega, (blocking_evict_iff nh now tmo ch i k hki).mpr hb⟩
      · intro hn
        refine (ih (i + 1) _).2 (fun hh => ?_)
        have hki : k ≠ i := by omega
        exact hn ⟨by omega, by omega, (blocking_evict_iff nh now tmo ch i k hki).mp hh.2.2⟩
    · rw [prepare_loop_advance N nh now tmo rem i ch h]
      by_cases hki : k = i
      · subst hki
        constructor
        · intro _
          rw [(ih (k + 1) _).2 (fun hh => by omega)]
          simp only [Function.update_same]
        · intro hn
          exact absurd ⟨le_refl k, by omega, h⟩ hn
      · constructor
        · rintro ⟨h1, h2, hb⟩
          rw [(ih (i + 1) _).1
            ⟨by omega, by omega, (blocking_advance_iff nh now tmo ch i k _ hki).mpr hb⟩]
          simp only [Function.update_noteq hki]
        · intro hn
          rw [(ih (i + 1) _).2 (fun hh => hn ⟨by omega, by omega,
            (blocking_advance_iff nh now tmo ch i k _ hki).mp hh.2.2⟩)]
          simp only [Function.update_noteq hki]

end Scan

/-! ## prepare_publish -/

section Prepare

variable {T : Type}

theorem prepare_publish_eq (N C : Nat) (b : Broker) (ch : SharedChannel T) (now tmo : Int)
    (hlock : ch.write_lock = false) :
    prepare_publish N C b ch now tmo =
      if (prepare_loop N b.settings.overflow_policy ((ch.head + 1) % N) now tmo C 0
            { ch with write_lock := true }).1 = true then
        some (none, b,
          { (prepare_loop N b.settings.overflow_policy ((ch.head + 1) % N) now tmo C 0
              { ch with write_lock := true }).2 with write_lock := false })
      else
        some (some ch.head, { b with pending_slot := some ch.head },
          { (prepare_loop N b.settings.overflow_policy ((ch.head + 1) % N) now tmo C 0
              { ch with write_lock := true }).2 with
            slots := Function.update ch.slots ch.head
              { ch.slots ch.head with state := SlotState.WRITING } }) := by
  unfold prepare_publish
  rw [if_neg (by simp [hlock])]
  have hf := prepare_loop_frame N ((ch.head + 1) % N) now tmo b.settings.overflow_policy C 0
    { ch with write_lock := true }
  have hs : (prepare_loop N b.settings.overflow_policy ((ch.head + 1) % N) now tmo C 0
      { ch with write_lock := true }).2.slots = ch.slots := by rw [hf]
  simp only [hs]

/-- C2. Under the BLOCK policy a call of `prepare_publish` that finds the
write lock free returns; it returns `nullptr` exactly when some consumer
`i < C` is active, has its tail on `(head + 1) mod N` and a heartbeat no older
than the timeout (the lock is then released again); otherwise it returns the
pointer to `slots[head].data`, with `slots[head].state = WRITING`, the write
lock held and `pending_slot` on that slot. -/
theorem prepare_publish_block (N C : Nat) (b : Broker) (ch : SharedChannel T)
    (now tmo : Int) (hpol : b.settings.overflow_policy = OverflowPolicy.BLOCK)
    (hlock : ch.write_lock = false) :
    ∃ res b1 ch1, prepare_publish N C b ch now tmo = some (res, b1, ch1) ∧
      (res = none ↔ ∃ i, i < C ∧ ch.slot_active i = true ∧
          ch.tails i = (ch.head + 1) % N ∧ now - ch.heartbeats i ≤ tmo) ∧
      (res = none → ch1.write_lock = false) ∧
      (res ≠ none → res = some ch.head ∧ (ch1.slots ch.head).state = SlotState.WRITING ∧
          (ch1.slots ch.head).data = (ch.slots ch.head).data ∧
          ch1.write_lock = true ∧ b1.pending_slot = some ch.head) := by
  have hfull := prepare_loop_block_full N ((ch.head + 1) % N) now tmo C 0
    { ch with write_lock := true }
  have hf := prepare_loop_frame N ((ch.head + 1) % N) now tmo OverflowPolicy.BLOCK C 0
    { ch with write_lock := true }
  have hiff : (∃ j, 0 ≤ j ∧ j < 0 + C ∧
        blocking { ch with write_lock := true } ((ch.head + 1) % N) now tmo j) ↔
      ∃ i, i < C ∧ ch.slot_active i = true ∧
          ch.tails i = (ch.head + 1) % N ∧ now - ch.heartbeats i ≤ tmo := by
    constructor
    · rintro ⟨j, _, h2, ha, ht, hd⟩
      exact ⟨j, by omega, ha, ht.symm, hd⟩
    · rintro ⟨j, h2, ha, ht, hd⟩
      exact ⟨j, Nat.zero_le j, by omega, ha, ht.symm, hd⟩
  rw [prepare_publish_eq N C b ch now tmo hlock, hpol]
  by_cases hr : (prepare_loop N OverflowPolicy.BLOCK ((ch.head + 1) % N) now tmo C 0
      { ch with write_lock := true }).1 = true
  · rw [if_pos hr]
    refine ⟨_, _, _, rfl, ?_, ?_, ?_⟩
    · simp only [true_iff]
      exact hiff.mp (hfull.mp hr)
    · intro _; rfl
    · intro h; exact absurd rfl h
  · rw [if_neg hr]
    refine ⟨_, _, _, rfl, ?_, ?_, ?_⟩
    · constructor
      · intro h; cases h
      · intro h; exact absurd (hfull.mpr (hiff.mpr h)) hr
    · intro h; cases h
    · intro _
      refine ⟨rfl, ?_, ?_, ?_, rfl⟩
      · simp only [Function.update_same]
      · simp only [Function.update_same]
      · show (prepare_loop N OverflowPolicy.BLOCK ((ch.head + 1) % N) now tmo C 0
          { ch with write_lock := true }).2.write_lock = true
        rw [hf]

/-- C3. Under the OVERWRITE_OLD policy a call of `prepare_publish` that finds
the write lock free returns a pointer, never `nullptr`; the tail of every
consumer `i < C` that was active with its tail on `(head + 1) mod N` and a
heartbeat no older than the timeout has become `(tails[i] + 1) mod N`, and
every other tail is what it was. -/
theorem prepare_publish_overwrite (N C : Nat) (b : Broker) (ch : SharedChannel T)
    (now tmo : Int) (hpol : b.settings.overflow_policy = OverflowPolicy.OVERWRITE_OLD)
    (hlock : ch.write_lock = false) :
    ∃ p b1 ch1, prepare_publish N C b ch now tmo = some (some p, b1, ch1) ∧
      ∀ i, ((i < C ∧ ch.slot_active i = true ∧ ch.tails i = (ch.head + 1) % N ∧
              now - ch.heartbeats i ≤ tmo) → ch1.tails i = (ch.tails i + 1) % N) ∧
           (¬ (i < C ∧ ch.slot_active i = true ∧ ch.tails i = (ch.head + 1) % N ∧
              now - ch.heartbeats i ≤ tmo) → ch1.tails i = ch.tails i) := by
  have hfull := prepare_loop_overwrite_full N ((ch.head + 1) % N) now tmo C 0
    { ch with write_lock := true }
  rw [prepare_publish_eq N C b ch now tmo hlock, hpol, if_neg (by simp [hfull])]
  refine ⟨_, _, _, rfl, fun i => ?_⟩
  have ht := prepare_loop_overwrite_tails N ((ch.head + 1) % N) now tmo C 0
    { ch with write_lock := true } i
  constructor
  · rintro ⟨h1, ha, h3, hd⟩
    exact ht.1 ⟨Nat.zero_le i, by omega, ha, h3.symm, hd⟩
  · intro hn
    exact ht.2 (fun hh => hn ⟨by omega, hh.2.2.1, hh.2.2.2.1.symm, hh.2.2.2.2⟩)

theorem prepare_publish_handle (N C : Nat) (b : Broker) (ch : SharedChannel T)
    (now tmo : Int) (p : Nat) (b1 : Broker) (ch1 : SharedChannel T)
    (h : prepare_publish N C b ch now tmo = some (some p, b1, ch1)) :
    ch.write_lock = false ∧ p = ch.head ∧ b1 = { b with pending_slot := some ch.head } ∧
      (prepare_loop N b.settings.overflow_policy ((ch.head + 1) % N) now tmo C 0
          { ch with write_lock := true }).1 = false ∧
      ch1 = { (prepare_loop N b.settings.overflow_policy ((ch.head + 1) % N) now tmo C 0
                { ch with write_lock := true }).2 with
              slots := Function.update ch.slots ch.head
                { ch.slots ch.head with state := SlotState.WRITING } } := by
  have hlock : ch.write_lock = false := by
    by_contra hl
    have hl2 : ch.write_lock = true := by simpa using hl
    simp [prepare_publish, hl2] at h
  rw [prepare_publish_eq N C b ch now tmo hlock] at h
  by_cases hr : (prepare_loop N b.settings.overflow_policy ((ch.head + 1) % N) now tmo C 0
      { ch with write_lock := true }).1 = true
  · rw [if_pos hr] at h
    simp at h
  · rw [if_neg hr] at h
    simp only [Option.some.injEq, Prod.mk.injEq] at h
    obtain ⟨h1, h2, h3⟩ := h
    exact ⟨hlock, h1.symm, h2.symm, by simpa using hr, h3.symm⟩

theorem prepare_publish_full (N C : Nat) (b : Broker) (ch : SharedChannel T)
    (now tmo : Int) (b1 : Broker) (ch1 : SharedChannel T)
    (h : prepare_publish N C b ch now tmo = some (none, b1, ch1)) :
    ch.write_lock = false ∧ b1 = b ∧
      (prepare_loop N b.settings.overflow_policy ((ch.head + 1) % N) now tmo C 0
          { ch with write_lock := true }).1 = true ∧
      ch1 = { (prepare_loop N b.settings.overflow_policy ((ch.head + 1) % N) now tmo C 0
                { ch with write_lock := true }).2 with write_lock := false } := by
  have hlock : ch.write_lock = false := by
    by_contra hl
    have hl2 : ch.write_lock = true := by simpa using hl
    simp [prepare_publish, hl2] at h
  rw [prepare_publish_eq N C b ch now tmo hlock] at h
  by_cases hr : (prepare_loop N b.settings.overflow_policy ((ch.head + 1) % N) now tmo C 0
      { ch with write_lock := true }).1 = true
  · rw [if_pos hr] at h
    simp only [Option.some.injEq, Prod.mk.injEq, true_and] at h
    exact ⟨hlock, h.1.symm, hr, h.2.symm⟩
  · rw [if_neg hr] at h
    simp at h

theorem prepare_publish_overwrite_returns (N C : Nat) (b : Broker) (ch : SharedChannel T)
    (now tmo : Int) (hpol : b.settings.overflow_policy = OverflowPolicy.OVERWRITE_OLD)
    (hlock : ch.write_lock = false) :
    ∃ b1 ch1, prepare_publish N C b ch now tmo = some (some ch.head, b1, ch1) := by
  have hfull := prepare_loop_overwrite_full N ((ch.head + 1) % N) now tmo C 0
    { ch with write_lock := true }
  rw [prepare_publish_eq N C b ch now tmo hlock, hpol, if_neg (by simp [hfull])]
  exact ⟨_, _, rfl⟩

/-- Witness for C2: consumer 0 sits on slot 1 with a fresh heartbeat while the
head is 0, and the call returns `nullptr`. -/
theorem prepare_publish_block_witness :
    (sampleProducer OverflowPolicy.BLOCK 10000).settings.overflow_policy
        = OverflowPolicy.BLOCK ∧
      sampleBlocked.write_lock = false ∧
      ∃ b1 ch1, prepare_publish 4 16 (sampleProducer OverflowPolicy.BLOCK 10000)
          sampleBlocked 100 2000 = some (none, b1, ch1) ∧ ch1.write_lock = false := by
  refine ⟨rfl, rfl, ?_⟩
  obtain ⟨res, b1, ch1, h, hiff, hfull, _⟩ :=
    prepare_publish_block 4 16 (sampleProducer OverflowPolicy.BLOCK 10000)
      sampleBlocked 100 2000 rfl rfl
  have hres : res = none := hiff.mpr ⟨0, by decide, rfl, rfl, by decide⟩
  subst hres
  exact ⟨b1, ch1, h, hfull rfl⟩

/-- Witness for C3: the same channel under OVERWRITE_OLD; consumer 0 is moved
from slot 1 to slot 2 and consumer 1, which is not registered, keeps its
tail. -/
theorem prepare_publish_overwrite_witness :
    (sampleProducer OverflowPolicy.OVERWRITE_OLD 10000).settings.overflow_policy
        = OverflowPolicy.OVERWRITE_OLD ∧
      sampleBlocked.write_lock = false ∧
      ∃ p b1 ch1, prepare_publish 4 16 (sampleProducer OverflowPolicy.OVERWRITE_OLD 10000)
          sampleBlocked 100 2000 = some (some p, b1, ch1) ∧
        ch1.tails 0 = 2 ∧ ch1.tails 1 = 1 := by
  refine ⟨rfl, rfl, ?_⟩
  obtain ⟨p, b1, ch1, h, htl⟩ :=
    prepare_publish_overwrite 4 16 (sampleProducer OverflowPolicy.OVERWRITE_OLD 10000)
      sampleBlocked 100 2000 rfl rfl
  refine ⟨p, b1, ch1, h, ?_, ?_⟩
  · exact (htl 0).1 ⟨by decide, rfl, rfl, by decide⟩
  · exact (htl 1).2 (fun hh => by
      have h2 := hh.2.1
      revert h2
      decide)

/-! ## Stale consumers and the timeout -/

/-- C9, as the claim states it, fails: BLOCK policy, head 0, consumers 0 and 1
both registered with their tails on slot 1; at time 1000 with timeout 500
consumer 0 (heartbeat 900) is live and consumer 1 (heartbeat 0) is stale.  The
scan stops at consumer 0, the call returns `nullptr`, and consumer 1 is still
registered. -/
theorem stale_consumer_behind_blocker :
    sampleTwo.slot_active 1 = true ∧ sampleTwo.tails 1 = (sampleTwo.head + 1) % 4 ∧
      1000 - sampleTwo.heartbeats 1 > 500 ∧
      (prepare_publish 4 16 (sampleProducer OverflowPolicy.BLOCK 10000) sampleTwo 1000 500).map
          (fun r => (r.1, r.2.2.slot_active 1)) = some (none, true) := by
  decide

/-- C9, amended. Let consumer `i < C` be active with its tail on
`(head + 1) mod N` and a heartbeat older than the timeout when
`prepare_publish` is called with the write lock free.  The call returns, and
on return `slot_active[i]` is still set exactly when the policy is BLOCK and
some active consumer `j < i` with its tail on `(head + 1) mod N` and a
heartbeat within the timeout ended the scan before `i`; it is cleared whenever
a pointer is returned.  The tail of `i` is not moved, and a `nullptr` result
is due to a consumer other than `i`. -/
theorem prepare_publish_stale (N C : Nat) (b : Broker) (ch : SharedChannel T)
    (now tmo : Int) (i : Nat) (hlock : ch.write_lock = false) (hi : i < C)
    (hactive : ch.slot_active i = true) (htail : ch.tails i = (ch.head + 1) % N)
    (hdead : now - ch.heartbeats i > tmo) :
    ∃ res b1 ch1, prepare_publish N C b ch now tmo = some (res, b1, ch1) ∧
      (ch1.slot_active i = true ↔
        b.settings.overflow_policy = OverflowPolicy.BLOCK ∧
          ∃ j, j < i ∧ ch.slot_active j = true ∧ ch.tails j = (ch.head + 1) % N ∧
            now - ch.heartbeats j ≤ tmo) ∧
      (res ≠ none → ch1.slot_active i = false) ∧
      ch1.tails i = ch.tails i ∧
      (res = none → ∃ j, j < C ∧ j ≠ i ∧ ch.slot_active j = true ∧
          ch.tails j = (ch.head + 1) % N ∧ now - ch.heartbeats j ≤ tmo) := by
  have hst : stale { ch with write_lock := true } ((ch.head + 1) % N) now tmo i :=
    ⟨hactive, htail.symm, hdead⟩
  have hnb := stale_not_blocking ((ch.head + 1) % N) now tmo _ i hst
  rw [prepare_publish_eq N C b ch now tmo hlock]
  cases hpol : b.settings.overflow_policy
  · -- BLOCK
    have hfull := prepare_loop_block_full N ((ch.head + 1) % N) now tmo C 0
      { ch with write_lock := true }
    have hact := prepare_loop_block_active N ((ch.head + 1) % N) now tmo C 0
      { ch with write_lock := true } i
    have htl := prepare_loop_block_tails N ((ch.head + 1) % N) now tmo C 0
      { ch with write_lock := true }
    have hchar : (prepare_loop N OverflowPolicy.BLOCK ((ch.head + 1) % N) now tmo C 0
          { ch with write_lock := true }).2.slot_active i = true ↔
        OverflowPolicy.BLOCK = OverflowPolicy.BLOCK ∧
          ∃ j, j < i ∧ ch.slot_active j = true ∧ ch.tails j = (ch.head + 1) % N ∧
            now - ch.heartbeats j ≤ tmo := by
      rw [hact]
      constructor
      · rintro ⟨_, hn⟩
        refine ⟨rfl, ?_⟩
        by_contra hex
        refine hn ⟨Nat.zero_le i, by omega, hst, fun j _ hj hb => hex ?_⟩
        exact ⟨j, hj, hb.1, hb.2.1.symm, hb.2.2⟩
      · rintro ⟨_, j, hj, ha, ht, hd⟩
        refine ⟨hactive, ?_⟩
        rintro ⟨_, _, _, hall⟩
        exact hall j (Nat.zero_le j) hj ⟨ha, ht.symm, hd⟩
    by_cases hr : (prepare_loop N OverflowPolicy.BLOCK ((ch.head + 1) % N) now tmo C 0
        { ch with write_lock := true }).1 = true
    · rw [if_pos hr]
      refine ⟨_, _, _, rfl, hchar, ?_, ?_, ?_⟩
      · intro h; exact absurd rfl h
      · show (prepare_loop N OverflowPolicy.BLOCK ((ch.head + 1) % N) now tmo C 0
          { ch with write_lock := true }).2.tails i = ch.tails i
        rw [htl]
      · intro _
        obtain ⟨j, _, hj, hb⟩ := hfull.mp hr
        have hji : j ≠ i := by
          rintro rfl
          exact hnb hb
        exact ⟨j, by omega, hji, hb.1, hb.2.1.symm, hb.2.2⟩
    · rw [if_neg hr]
      refine ⟨_, _, _, rfl, hchar, ?_, ?_, ?_⟩
      · intro _
        show (prepare_loop N OverflowPolicy.BLOCK ((ch.head + 1) % N) now tmo C 0
          { ch with write_lock := true }).2.slot_active i = false
        by_contra hc
        have hc2 := hchar.mp (by simpa using hc)
        obtain ⟨_, j, hj, ha, ht, hd⟩ := hc2
        exact hr (hfull.mpr ⟨j, Nat.zero_le j, by omega, ha, ht.symm, hd⟩)
      · show (prepare_loop N OverflowPolicy.BLOCK ((ch.head + 1) % N) now tmo C 0
          { ch with write_lock := true }).2.tails i = ch.tails i
        rw [htl]
      · intro h; cases h
  · -- OVERWRITE_OLD
    have hfull := prepare_loop_overwrite_full N ((ch.head + 1) % N) now tmo C 0
      { ch with write_lock := true }
    have hact := prepare_loop_overwrite_active N ((ch.head + 1) % N) now tmo C 0
      { ch with write_lock := true } i
    have htl := (prepare_loop_overwrite_tails N ((ch.head + 1) % N) now tmo C 0
      { ch with write_lock := true } i).2 (fun hh => hnb hh.2.2)
    have hoff : (prepare_loop N OverflowPolicy.OVERWRITE_OLD ((ch.head + 1) % N) now tmo C 0
          { ch with write_lock := true }).2.slot_active i = false := by
      by_contra hc
      have hc2 := hact.mp (by simpa using hc)
      exact hc2.2 ⟨Nat.zero_le i, by omega, hst⟩
    rw [if_neg (by simp [hfull])]
    refine ⟨_, _, _, rfl, ?_, fun _ => hoff, htl, ?_⟩
    · constructor
      · intro h
        have h2 : (prepare_loop N OverflowPolicy.OVERWRITE_OLD ((ch.head + 1) % N) now tmo C 0
          { ch with write_lock := true }).2.slot_active i = true := h
        rw [hoff] at h2
        cases h2
      · rintro ⟨h, _⟩; cases h
    · intro h; cases h

/-- Witness for the amended C9: the stale consumer 1 of the two-consumer
sample survives the `nullptr` call and keeps its tail. -/
theorem prepare_publish_stale_witness :
    sampleTwo.write_lock = false ∧ 1 < 16 ∧ sampleTwo.slot_active 1 = true ∧
      sampleTwo.tails 1 = (sampleTwo.head + 1) % 4 ∧
      1000 - sampleTwo.heartbeats 1 > 500 ∧
      ∃ res b1 ch1, prepare_publish 4 16 (sampleProducer OverflowPolicy.BLOCK 10000)
          sampleTwo 1000 500 = some (res, b1, ch1) ∧
        ch1.slot_active 1 = true ∧ ch1.tails 1 = 1 := by
  refine ⟨rfl, by decide, rfl, rfl, by decide, ?_⟩
  obtain ⟨res, b1, ch1, h, hiff, _, htl, _⟩ :=
    prepare_publish_stale 4 16 (sampleProducer OverflowPolicy.BLOCK 10000) sampleTwo
      1000 500 1 rfl (by decide) rfl rfl (by decide)
  exact ⟨res, b1, ch1, h, hiff.mpr ⟨rfl, 0, by decide, rfl, rfl, by decide⟩, htl⟩

/-- C10. The producer is built with `producer_timeout_ms = 500`; consumer 0 is
the only registered consumer, its tail is on `(head + 1) mod N` and its
heartbeat is 1000 ms old.  `prepare_publish()` without argument compares the
age with its default 2000, not with the setting: the call returns `nullptr`
and consumer 0 stays registered. -/
theorem default_timeout_not_setting :
    (sampleProducer OverflowPolicy.BLOCK 500).settings.producer_timeout_ms = 500 ∧
      sampleBlocked.slot_active 0 = true ∧
      sampleBlocked.tails 0 = (sampleBlocked.head + 1) % 4 ∧
      1000 - sampleBlocked.heartbeats 0 > 500 ∧
      (prepare_publish_default 4 16 (sampleProducer OverflowPolicy.BLOCK 500)
          sampleBlocked 1000).map (fun r => (r.1, r.2.2.slot_active 0)) = some (none, true) := by
  decide

/-- The setting `producer_timeout_ms` has no influence on `prepare_publish()`:
changing it changes neither the result nor the channel. -/
theorem prepare_publish_default_setting_free (N C : Nat) (b : Broker)
    (ch : SharedChannel T) (now : Int) (t : Int) :
    (prepare_publish_default N C
        { b with settings := { b.settings with producer_timeout_ms := t } } ch now).map
        (fun r => (r.1, r.2.2)) =
      (prepare_publish_default N C b ch now).map (fun r => (r.1, r.2.2)) := by
  simp only [prepare_publish_default, prepare_publish]
  split_ifs <;> rfl

theorem prepare_publish_block_effect (N C : Nat) (b : Broker) (ch : SharedChannel T)
    (now tmo : Int) (hpol : b.settings.overflow_policy = OverflowPolicy.BLOCK)
    (res : Option Nat) (b1 : Broker) (ch1 : SharedChannel T)
    (h : prepare_publish N C b ch now tmo = some (res, b1, ch1)) :
    ch1.head = ch.head ∧ ch1.tails = ch.tails ∧ ch1.heartbeats = ch.heartbeats ∧
      ch1.producer_epoch = ch.producer_epoch ∧ b1.settings = b.settings ∧
      (∀ k, ch1.slot_active k = true → ch.slot_active k = true) ∧
      (res = none → b1 = b ∧ ch1.slots = ch.slots) ∧
      (∀ p, res = some p → p = ch.head ∧ b1.pending_slot = some ch.head ∧
        ch1.slots = Function.update ch.slots ch.head
          { ch.slots ch.head with state := SlotState.WRITING } ∧
        ∀ i, i < C → ch.slot_active i = true → ch1.slot_active i = true →
          ch.tails i ≠ (ch.head + 1) % N) := by
  have hf := prepare_loop_frame N ((ch.head + 1) % N) now tmo OverflowPolicy.BLOCK C 0
    { ch with write_lock := true }
  have htl := prepare_loop_block_tails N ((ch.head + 1) % N) now tmo C 0
    { ch with write_lock := true }
  have hact := prepare_loop_block_active N ((ch.head + 1) % N) now tmo C 0
    { ch with write_lock := true }
  have hfull := prepare_loop_block_full N ((ch.head + 1) % N) now tmo C 0
    { ch with write_lock := true }
  cases res with
  | none =>
    obtain ⟨_, hb, _, hc⟩ := prepare_publish_full N C b ch now tmo b1 ch1 h
    rw [hpol] at hc
    subst hc
    refine ⟨?_, htl, ?_, ?_, by rw [hb], fun k hk => ((hact k).mp hk).1,
      fun _ => ⟨hb, ?_⟩, fun p hp => (by cases hp)⟩
    · show (prepare_loop N OverflowPolicy.BLOCK ((ch.head + 1) % N) now tmo C 0
        { ch with write_lock := true }).2.head = ch.head
      rw [hf]
    · show (prepare_loop N OverflowPolicy.BLOCK ((ch.head + 1) % N) now tmo C 0
        { ch with write_lock := true }).2.heartbeats = ch.heartbeats
      rw [hf]
    · show (prepare_loop N OverflowPolicy.BLOCK ((ch.head + 1) % N) now tmo C 0
        { ch with write_lock := true }).2.producer_epoch = ch.producer_epoch
      rw [hf]
    · show (prepare_loop N OverflowPolicy.BLOCK ((ch.head + 1) % N) now tmo C 0
        { ch with write_lock := true }).2.slots = ch.slots
      rw [hf]
  | some q =>
    obtain ⟨_, hq, hb, hnf, hc⟩ := prepare_publish_handle N C b ch now tmo q b1 ch1 h
    rw [hpol] at hc hnf
    subst hc
    refine ⟨?_, htl, ?_, ?_, by rw [hb], fun k hk => ((hact k).mp hk).1,
      fun hn => (by cases hn), fun p hp => ?_⟩
    · show (prepare_loop N OverflowPolicy.BLOCK ((ch.head + 1) % N) now tmo C 0
        { ch with write_lock := true }).2.head = ch.head
      rw [hf]
    · show (prepare_loop N OverflowPolicy.BLOCK ((ch.head + 1) % N) now tmo C 0
        { ch with write_lock := true }).2.heartbeats = ch.heartbeats
      rw [hf]
    · show (prepare_loop N OverflowPolicy.BLOCK ((ch.head + 1) % N) now tmo C 0
        { ch with write_lock := true }).2.producer_epoch = ch.producer_epoch
      rw [hf]
    · cases hp
      refine ⟨hq, by rw [hb], rfl, fun i hi ha ha1 ht => ?_⟩
      have hnofull : ¬ ∃ j, 0 ≤ j ∧ j < 0 + C ∧
          blocking { ch with write_lock := true } ((ch.head + 1) % N) now tmo j := by
        intro hex
        have := hfull.mpr hex
        rw [hnf] at this
        cases this
      have hkeep := ((hact i).mp ha1).2
      rcases lt_or_le tmo (now - ch.heartbeats i) with hd | hd
      · exact hkeep ⟨Nat.zero_le i, by omega, ⟨ha, ht.symm, hd⟩,
          fun j hj1 hj2 hb => hnofull ⟨j, hj1, by omega, hb⟩⟩
      · exact hnofull ⟨i, Nat.zero_le i, by omega, ha, ht.symm, hd⟩

/-! ## commit_publish -/

/-- C4. After a successful `prepare_publish` on a channel whose head is `h`, a
`commit_publish` (on the channel as it is by then, the head still `h`) adds
one to `slots[h].sequence`, sets `slots[h].state` to READY, keeps its payload,
moves the head to `(h + 1) mod N` and clears the write lock; every other slot,
every tail, active flag and heartbeat is what it was, and the pointer is
dropped. -/
theorem commit_publish_after_prepare (N C : Nat) (b : Broker) (ch : SharedChannel T)
    (now tmo : Int) (p : Nat) (b1 : Broker) (ch1 : SharedChannel T)
    (hprep : prepare_publish N C b ch now tmo = some (some p, b1, ch1))
    (ch2 : SharedChannel T) (hhead : ch2.head = ch.head) :
    p = ch.head ∧
      ((commit_publish N b1 ch2).2.slots p).sequence = (ch2.slots p).sequence + 1 ∧
      ((commit_publish N b1 ch2).2.slots p).state = SlotState.READY ∧
      ((commit_publish N b1 ch2).2.slots p).data = (ch2.slots p).data ∧
      (commit_publish N b1 ch2).2.head = (ch.head + 1) % N ∧
      (commit_publish N b1 ch2).2.write_lock = false ∧
      (∀ k, k ≠ p → (commit_publish N b1 ch2).2.slots k = ch2.slots k) ∧
      (commit_publish N b1 ch2).2.tails = ch2.tails ∧
      (commit_publish N b1 ch2).2.slot_active = ch2.slot_active ∧
      (commit_publish N b1 ch2).2.heartbeats = ch2.heartbeats ∧
      (commit_publish N b1 ch2).2.producer_epoch = ch2.producer_epoch ∧
      (commit_publish N b1 ch2).1.pending_slot = none := by
  obtain ⟨_, hp, hb1, _, _⟩ := prepare_publish_handle N C b ch now tmo p b1 ch1 hprep
  have hpend : b1.pending_slot = some p := by rw [hb1, hp]
  subst hp
  simp only [commit_publish, hpend, hhead, Function.update_same, true_and, and_true]
  intro k hk
  simp only [Function.update_noteq hk]

/-- Witness for C4: prepare on the OVERWRITE_OLD sample (head 0) succeeds on
slot 0, and the commit moves the head to 1. -/
theorem commit_publish_after_prepare_witness :
    ∃ b1 ch1, prepare_publish 4 16 (sampleProducer OverflowPolicy.OVERWRITE_OLD 10000)
        sampleBlocked 100 2000 = some (some 0, b1, ch1) ∧
      ((commit_publish 4 b1 ch1).2.slots 0).sequence = (ch1.slots 0).sequence + 1 ∧
      ((commit_publish 4 b1 ch1).2.slots 0).state = SlotState.READY ∧
      (commit_publish 4 b1 ch1).2.head = 1 ∧
      (commit_publish 4 b1 ch1).2.write_lock = false := by
  obtain ⟨b1, ch1, h⟩ :=
    prepare_publish_overwrite_returns 4 16 (sampleProducer OverflowPolicy.OVERWRITE_OLD 10000)
      sampleBlocked 100 2000 rfl rfl
  have hc := commit_publish_after_prepare 4 16 _ _ 100 2000 _ b1 ch1 h ch1
    ((prepare_publish_handle 4 16 _ _ 100 2000 _ b1 ch1 h).2.2.2.2 ▸ rfl)
  exact ⟨b1, ch1, h, hc.2.1, hc.2.2.1, hc.2.2.2.2.1, hc.2.2.2.2.2.1⟩

end Prepare

/-! ## peek and release -/

section Consumer

variable {T : Type}

theorem spin_wait_ready (fuel spin : Nat) :
    spin_wait SlotState.READY (fuel + 1) spin = true := by
  simp [spin_wait]

theorem spin_wait_not_ready (st : SlotState) (h : st ≠ SlotState.READY) (fuel spin : Nat) :
    spin_wait st fuel spin = false := by
  induction fuel generalizing spin with
  | zero => rfl
  | succ fuel ih =>
    unfold spin_wait
    rw [if_neg h]
    split_ifs
    · rfl
    · exact ih _

theorem epoch_cache_same (b : Broker) (e : Nat) (h : b.local_epoch_cache = e) :
    (if b.local_epoch_cache = 0 then { b with local_epoch_cache := e } else b) = b := by
  split_ifs
  · cases b
    simp only at h
    subst h
    rfl
  · rfl

/-- What `peek` does once the epoch test has passed. -/
theorem peek_same_epoch (N : Nat) (b : Broker) (ch : SharedChannel T) (now : Int)
    (hepoch : b.local_epoch_cache = ch.producer_epoch) :
    peek N b ch now =
      if ch.slot_active b.self = false then (PeekResult.disconnected, b, ch)
      else if ch.tails b.self = ch.head then
        (PeekResult.empty, b,
          { ch with heartbeats := Function.update ch.heartbeats b.self now })
      else if (ch.slots (ch.tails b.self)).state = SlotState.READY then
        (PeekResult.view (ch.tails b.self), b,
          { ch with heartbeats := Function.update ch.heartbeats b.self now })
      else
        (PeekResult.empty, b,
          { ch with heartbeats := Function.update ch.heartbeats b.self now }) := by
  unfold peek
  simp only [epoch_cache_same b ch.producer_epoch hepoch]
  rw [if_neg (by simp [hepoch])]
  by_cases ha : ch.slot_active b.self = false
  · rw [if_pos ha, if_pos ha]
  · rw [if_neg ha, if_neg ha]
    by_cases ht : ch.tails b.self = ch.head
    · rw [if_pos ht, if_pos ht]
    · rw [if_neg ht, if_neg ht]
      by_cases hr : (ch.slots (ch.tails b.self)).state = SlotState.READY
      · rw [if_pos hr, hr, spin_wait_ready]
        simp
      · rw [if_neg hr, spin_wait_not_ready _ hr]
        simp

/-- C5. When the consumer's cached epoch is the producer epoch, its active
flag is set, its tail differs from the head and the slot under the tail is
READY, `peek` returns the view of `slots[tails[self]]` and changes nothing but
`heartbeats[self]` (the local object is untouched as well); the tail stays, so
a second `peek` right after it, at any later clock reading, returns the same
slot. -/
theorem peek_ready (N : Nat) (b : Broker) (ch : SharedChannel T) (now : Int)
    (hepoch : b.local_epoch_cache = ch.producer_epoch)
    (hactive : ch.slot_active b.self = true)
    (hne : ch.tails b.self ≠ ch.head)
    (hready : (ch.slots (ch.tails b.self)).state = SlotState.READY) :
    peek N b ch now =
        (PeekResult.view (ch.tails b.self), b,
          { ch with heartbeats := Function.update ch.heartbeats b.self now }) ∧
      ∀ now2 : Int,
        (peek N (peek N b ch now).2.1 (peek N b ch now).2.2 now2).1 =
          PeekResult.view (ch.tails b.self) := by
  have h1 : peek N b ch now = (PeekResult.view (ch.tails b.self), b,
      { ch with heartbeats := Function.update ch.heartbeats b.self now }) := by
    rw [peek_same_epoch N b ch now hepoch, if_neg (by simp [hactive]), if_neg hne,
      if_pos hready]
  refine ⟨h1, fun now2 => ?_⟩
  rw [h1]
  show (peek N b { ch with heartbeats := Function.update ch.heartbeats b.self now } now2).1
    = PeekResult.view (ch.tails b.self)
  rw [peek_same_epoch N b
    { ch with heartbeats := Function.update ch.heartbeats b.self now } now2 hepoch]
  simp only [hactive, Bool.true_eq_false, if_false, hne, hready, if_true]

/-- Witness for C5: head 2, consumer 0 on slot 1, slot 1 READY. -/
theorem peek_ready_witness :
    (sampleConsumer 0 7).local_epoch_cache = sampleReadable.producer_epoch ∧
      sampleReadable.slot_active (sampleConsumer 0 7).self = true ∧
      sampleReadable.tails (sampleConsumer 0 7).self ≠ sampleReadable.head ∧
      (sampleReadable.slots (sampleReadable.tails (sampleConsumer 0 7).self)).state
        = SlotState.READY ∧
      (peek 4 (sampleConsumer 0 7) sampleReadable 50).1 = PeekResult.view 1 := by
  refine ⟨rfl, rfl, by decide, rfl, ?_⟩
  rw [(peek_ready 4 (sampleConsumer 0 7) sampleReadable 50 rfl rfl (by decide) rfl).1]
  rfl

/-- C6. For a consumer whose cached epoch is the producer epoch and whose
active flag is set, `peek` returns `nullptr` whenever `tails[self] = head`,
whatever value the head has; tails, head and slots are untouched (only
`heartbeats[self]` is refreshed). -/
theorem peek_empty (N : Nat) (b : Broker) (ch : SharedChannel T) (now : Int)
    (hepoch : b.local_epoch_cache = ch.producer_epoch)
    (hactive : ch.slot_active b.self = true)
    (heq : ch.tails b.self = ch.head) :
    (peek N b ch now).1 = PeekResult.empty ∧
      (peek N b ch now).2.2.tails = ch.tails ∧
      (peek N b ch now).2.2.head = ch.head ∧
      (peek N b ch now).2.2.slots = ch.slots ∧
      (peek N b ch now).2.2 =
        { ch with heartbeats := Function.update ch.heartbeats b.self now } := by
  have h : peek N b ch now = (PeekResult.empty, b,
      { ch with heartbeats := Function.update ch.heartbeats b.self now }) := by
    rw [peek_same_epoch N b ch now hepoch, if_neg (by simp [hactive]), if_pos heq]
  rw [h]
  exact ⟨rfl, rfl, rfl, rfl, rfl⟩

/-- Witness for C6: head and tail of consumer 0 both on slot 1. -/
theorem peek_empty_witness :
    (sampleConsumer 0 7).local_epoch_cache = sampleDrained.producer_epoch ∧
      sampleDrained.slot_active (sampleConsumer 0 7).self = true ∧
      sampleDrained.tails (sampleConsumer 0 7).self = sampleDrained.head ∧
      (peek 4 (sampleConsumer 0 7) sampleDrained 50).1 = PeekResult.empty :=
  ⟨rfl, rfl, rfl, (peek_empty 4 (sampleConsumer 0 7) sampleDrained 50 rfl rfl rfl).1⟩

theorem release_eq (N : Nat) (b : Broker) (ch : SharedChannel T) (now : Int) :
    release N b ch now =
      { ch with
        tails := Function.update ch.tails b.self ((ch.tails b.self + 1) % N)
        heartbeats := Function.update ch.heartbeats b.self now } := rfl

/-- C7. `release` stores `(tails[self] + 1) mod N` into `tails[self]` and the
clock reading into `heartbeats[self]`; the head, the slots, the active flags
(the consumer's own included), every other consumer's tail and heartbeat, the
write lock and the header fields are what they were. -/
theorem release_effect (N : Nat) (b : Broker) (ch : SharedChannel T) (now : Int) :
    (release N b ch now).tails b.self = (ch.tails b.self + 1) % N ∧
      (release N b ch now).heartbeats b.self = now ∧
      (∀ j, j ≠ b.self → (release N b ch now).tails j = ch.tails j) ∧
      (∀ j, j ≠ b.self → (release N b ch now).heartbeats j = ch.heartbeats j) ∧
      (release N b ch now).slot_active = ch.slot_active ∧
      (release N b ch now).head = ch.head ∧
      (release N b ch now).slots = ch.slots ∧
      (release N b ch now).write_lock = ch.write_lock ∧
      (release N b ch now).producer_epoch = ch.producer_epoch ∧
      (release N b ch now).magic = ch.magic ∧
      (release N b ch now).version = ch.version ∧
      (release N b ch now).struct_size = ch.struct_size ∧
      (release N b ch now).buffer_capacity = ch.buffer_capacity := by
  refine ⟨?_, ?_, ?_, ?_, rfl, rfl, rfl, rfl, rfl, rfl, rfl, rfl, rfl⟩
  · simp [release]
  · simp [release]
  · intro j hj
    simp [release, Function.update_noteq hj]
  · intro j hj
    simp [release, Function.update_noteq hj]

end Consumer

/-! ## Delivery order under BLOCK -/

section Ordering

variable {T : Type}

theorem mod_ne_of_window (k P N : Nat) (h1 : k < P) (h2 : P < k + N) : k % N ≠ P % N := by
  intro h
  have hz : (P - k) % N = 0 := Nat.sub_mod_eq_zero_of_mod_eq h.symm
  have hd : N ∣ P - k := Nat.dvd_of_mod_eq_zero hz
  have := Nat.le_of_dvd (by omega) hd
  omega

theorem succ_lt_of_mod_ne (P R N : Nat) (h2 : P < R + N)
    (h : R % N ≠ (P % N + 1) % N) : P + 1 < R + N := by
  by_contra hc
  have hP : P + 1 = R + N := by omega
  apply h
  rw [Nat.mod_add_mod, hP, Nat.add_mod_right]

theorem peek_cached (N : Nat) (b : Broker) (ch : SharedChannel T) (now : Int)
    (h : b.local_epoch_cache = 0 ∨ b.local_epoch_cache = ch.producer_epoch) :
    peek N b ch now =
      peek N { b with local_epoch_cache := ch.producer_epoch } ch now := by
  rcases h with h | h
  · have e1 : (if b.local_epoch_cache = 0 then
          ({ b with local_epoch_cache := ch.producer_epoch } : Broker) else b) =
        { b with local_epoch_cache := ch.producer_epoch } := by rw [if_pos h]
    have e2 : (if ({ b with local_epoch_cache := ch.producer_epoch } : Broker).local_epoch_cache
          = 0 then
          ({ ({ b with local_epoch_cache := ch.producer_epoch } : Broker) with
              local_epoch_cache := ch.producer_epoch } : Broker)
          else { b with local_epoch_cache := ch.producer_epoch }) =
        { b with local_epoch_cache := ch.producer_epoch } := by
      split_ifs <;> rfl
    unfold peek
    simp only [e1, e2]
    rfl
  · have e : ({ b with local_epoch_cache := ch.producer_epoch } : Broker) = b := by
      cases b
      simp only at h
      subst h
      rfl
    rw [e]

/-- Outcome of `peek` for a registered consumer whose cache is empty or
current. -/
theorem peek_registered (N : Nat) (b : Broker) (ch : SharedChannel T) (now : Int)
    (h : b.local_epoch_cache = 0 ∨ b.local_epoch_cache = ch.producer_epoch)
    (hactive : ch.slot_active b.self = true) :
    peek N b ch now =
      if ch.tails b.self = ch.head then
        (PeekResult.empty, { b with local_epoch_cache := ch.producer_epoch },
          { ch with heartbeats := Function.update ch.heartbeats b.self now })
      else if (ch.slots (ch.tails b.self)).state = SlotState.READY then
        (PeekResult.view (ch.tails b.self),
          { b with local_epoch_cache := ch.producer_epoch },
          { ch with heartbeats := Function.update ch.heartbeats b.self now })
      else
        (PeekResult.empty, { b with local_epoch_cache := ch.producer_epoch },
          { ch with heartbeats := Function.update ch.heartbeats b.self now }) := by
  rw [peek_cached N b ch now h,
    peek_same_epoch N { b with local_epoch_cache := ch.producer_epoch } ch now rfl]
  have hs : ({ b with local_epoch_cache := ch.producer_epoch } : Broker).self = b.self := rfl
  rw [hs, if_neg (by simp [hactive])]

theorem attach_registers (C sizeofT : Nat) (cid : Nat) (settings : BrokerSettings)
    (ch : SharedChannel T) (now : Int) (hcid : cid < C) (hmagic : ch.magic = MAGIC_NUMBER)
    (hversion : ch.version = PROTOCOL_VERSION) (hsize : ch.struct_size = sizeofT) :
    attach C sizeofT (cid : Int) settings ch now =
      Except.ok
        ({ is_owner := false, consumer_id := (cid : Int), local_epoch_cache := 0,
           settings := settings, pending_slot := none },
         { ch with
           tails := Function.update ch.tails cid ch.head
           heartbeats := Function.update ch.heartbeats cid now
           slot_active := Function.update ch.slot_active cid true }) := by
  have h99 : ((cid : Int) ≠ -99) := by omega
  have hr : ¬ ((cid : Int) < 0 ∨ (cid : Int) ≥ (C : Int)) := by omega
  unfold attach
  rw [if_neg (not_not.mpr hmagic), if_neg (not_not.mpr hversion), if_neg (not_not.mpr hsize),
    if_pos h99, if_neg hr]
  simp only [Broker.self, Int.toNat_natCast]

theorem inv_init (N C sizeofT epoch : Nat) (blank : T) (pset cset : BrokerSettings)
    (cid : Nat) (now : Int) (hN : 1 ≤ N) (hcid : cid < C)
    (hpol : pset.overflow_policy = OverflowPolicy.BLOCK) (s0 : Sys T)
    (h : init N C sizeofT epoch blank pset cset cid now = some s0) :
    Inv N C cid s0 0 ∧ s0.ch.slot_active cid = true := by
  unfold init at h
  rw [attach_registers C sizeofT cid cset _ now hcid rfl rfl rfl] at h
  simp only [attached, Option.some.injEq] at h
  subst h
  have hself : ((cid : Int)).toNat = cid := Int.toNat_natCast cid
  refine ⟨⟨hcid, hpol, hself, Or.inl rfl, ?_, ?_, Nat.le_refl _, ?_, ?_, rfl, ?_, ?_⟩, ?_⟩
  · simp [create]
  · simp [create]
  · simp only [List.length_nil]; omega
  · intro k _ hk
    simp at hk
  · intro hh; cases hh
  · intro p hp; cases hp
  · simp

theorem inv_prepare (N C cid : Nat) (s : Sys T) (R : Nat) (hinv : Inv N C cid s R)
    (hact : s.ch.slot_active cid = true) (now tmo : Int) (s1 : Sys T)
    (hstep : step N C s (Step.prepare now tmo) = some s1)
    (hact1 : s1.ch.slot_active cid = true) : Inv N C cid s1 R := by
  simp only [step] at hstep
  cases hpp : prepare_publish N C s.prod s.ch now tmo with
  | none => rw [hpp] at hstep; cases hstep
  | some r =>
    obtain ⟨res, b1, ch1⟩ := r
    rw [hpp] at hstep
    simp only [Option.some.injEq] at hstep
    subst hstep
    obtain ⟨hhead, htails, _, hep, hset, _, hnone, hsome⟩ :=
      prepare_publish_block_effect N C s.prod s.ch now tmo hinv.policy res b1 ch1 hpp
    have hwin : ∀ k, R ≤ k → k < s.committed.length → ch1.slots (k % N) = s.ch.slots (k % N) := by
      intro k hk1 hk2
      cases res with
      | none => rw [(hnone rfl).2]
      | some p =>
        rw [(hsome p rfl).2.2.1, hinv.head_eq]
        exact Function.update_noteq
          (mod_ne_of_window k s.committed.length N hk2 (by have := hinv.len_lt; omega)) _ _
    refine ⟨hinv.cid_lt, ?_, hinv.self_eq, ?_, ?_, ?_, hinv.le_len, hinv.len_lt, ?_,
      hinv.delivered_eq, hinv.holding_lt, ?_⟩
    · show b1.settings.overflow_policy = OverflowPolicy.BLOCK
      rw [hset]; exact hinv.policy
    · show s.cons.local_epoch_cache = 0 ∨ s.cons.local_epoch_cache = ch1.producer_epoch
      rw [hep]; exact hinv.epoch
    · show ch1.head = s.committed.length % N
      rw [hhead]; exact hinv.head_eq
    · show ch1.tails cid = R % N
      rw [htails]; exact hinv.tail_eq
    · intro k hk1 hk2
      show (ch1.slots (k % N)).state = SlotState.READY ∧
        s.committed[k]? = some (ch1.slots (k % N)).data
      rw [hwin k hk1 hk2]
      exact hinv.window k hk1 hk2
    · intro p hp
      show p = ch1.head ∧ s.committed.length + 1 < R + N
      have hp2 : b1.pending_slot = some p := hp
      rw [hhead]
      cases res with
      | none =>
        rw [(hnone rfl).1] at hp2
        exact hinv.pending p hp2
      | some q =>
        obtain ⟨_, hpend, _, hne⟩ := hsome q rfl
        rw [hpend] at hp2
        simp only [Option.some.injEq] at hp2
        refine ⟨hp2.symm, ?_⟩
        have h3 := hne cid hinv.cid_lt hact hact1
        rw [hinv.tail_eq, hinv.head_eq] at h3
        exact succ_lt_of_mod_ne _ _ _ hinv.len_lt h3

theorem inv_fill (N C cid : Nat) (s : Sys T) (R : Nat) (hinv : Inv N C cid s R)
    (r : T) (s1 : Sys T) (hstep : step N C s (Step.fill r) = some s1) :
    Inv N C cid s1 R := by
  simp only [step] at hstep
  cases hp : s.prod.pending_slot with
  | none => rw [hp] at hstep; cases hstep
  | some p =>
    rw [hp] at hstep
    simp only [Option.some.injEq] at hstep
    subst hstep
    obtain ⟨hph, _⟩ := hinv.pending p hp
    refine ⟨hinv.cid_lt, hinv.policy, hinv.self_eq, hinv.epoch, hinv.head_eq, hinv.tail_eq,
      hinv.le_len, hinv.len_lt, ?_, hinv.delivered_eq, hinv.holding_lt, hinv.pending⟩
    intro k hk1 hk2
    show ((fill s.ch p r).slots (k % N)).state = SlotState.READY ∧
      s.committed[k]? = some ((fill s.ch p r).slots (k % N)).data
    have hne : k % N ≠ p := by
      rw [hph, hinv.head_eq]
      exact mod_ne_of_window k s.committed.length N hk2 (by have := hinv.len_lt; omega)
    simp only [fill, Function.update_noteq hne]
    exact hinv.window k hk1 hk2

theorem commit_publish_pending (N : Nat) (b : Broker) (ch : SharedChannel T) (p : Nat)
    (hp : b.pending_slot = some p) :
    commit_publish N b ch =
      ({ b with pending_slot := none },
       { ch with
         slots := Function.update ch.slots p
           { sequence := (ch.slots p).sequence + 1, state := SlotState.READY,
             data := (ch.slots p).data }
         head := (ch.head + 1) % N
         write_lock := false }) := by
  simp only [commit_publish, hp, Function.update_same, Function.update_idem]

theorem inv_commit (N C cid : Nat) (s : Sys T) (R : Nat) (hinv : Inv N C cid s R)
    (s1 : Sys T) (hstep : step N C s Step.commit = some s1) :
    Inv N C cid s1 R := by
  simp only [step] at hstep
  cases hp : s.prod.pending_slot with
  | none => rw [hp] at hstep; cases hstep
  | some p =>
    rw [hp] at hstep
    simp only [Option.some.injEq] at hstep
    subst hstep
    obtain ⟨hph, hroom⟩ := hinv.pending p hp
    rw [commit_publish_pending N s.prod s.ch p hp]
    have hpm : p = s.committed.length % N := by rw [hph, hinv.head_eq]
    refine ⟨hinv.cid_lt, hinv.policy, hinv.self_eq, hinv.epoch, ?_, hinv.tail_eq, ?_, ?_, ?_,
      ?_, ?_, ?_⟩
    · show (s.ch.head + 1) % N = (s.committed ++ [(s.ch.slots p).data]).length % N
      rw [hinv.head_eq, List.length_append, List.length_singleton, Nat.mod_add_mod]
    · show R ≤ (s.committed ++ [(s.ch.slots p).data]).length
      rw [List.length_append, List.length_singleton]
      have := hinv.le_len
      omega
    · show (s.committed ++ [(s.ch.slots p).data]).length < R + N
      rw [List.length_append, List.length_singleton]
      exact hroom
    · intro k hk1 hk2
      have hk3 : k < s.committed.length + 1 := by
        have h := hk2
        simp only [List.length_append, List.length_singleton] at h
        exact h
      show ((Function.update s.ch.slots p _) (k % N)).state = SlotState.READY ∧
        (s.committed ++ [(s.ch.slots p).data])[k]? =
          some ((Function.update s.ch.slots p _) (k % N)).data
      rcases Nat.lt_or_ge k s.committed.length with hlt | hge
      · have hne : k % N ≠ p := by
          rw [hpm]
          exact mod_ne_of_window k s.committed.length N hlt (by have := hinv.len_lt; omega)
        rw [Function.update_noteq hne, List.getElem?_append_left hlt]
        exact hinv.window k hk1 hlt
      · have hk : k = s.committed.length := by omega
        subst hk
        rw [← hpm, Function.update_same]
        refine ⟨rfl, ?_⟩
        simp
    · show s.delivered = (s.committed ++ [(s.ch.slots p).data]).take
        (R + (if s.holding = true then 1 else 0))
      rw [List.take_append_of_le_length]
      · exact hinv.delivered_eq
      · by_cases hh : s.holding = true
        · have := hinv.holding_lt hh
          simp only [hh, if_true]
          omega
        · simp only [hh, if_false]
          exact hinv.le_len
    · intro hh
      show R < (s.committed ++ [(s.ch.slots p).data]).length
      rw [List.length_append, List.length_singleton]
      have := hinv.le_len
      omega
    · intro q hq
      cases hq

theorem inv_peek (N C cid : Nat) (s : Sys T) (R : Nat) (hinv : Inv N C cid s R)
    (hact : s.ch.slot_active cid = true) (now : Int) (s1 : Sys T)
    (hstep : step N C s (Step.peek now) = some s1) : Inv N C cid s1 R := by
  simp only [step] at hstep
  by_cases hh : s.holding = true
  · rw [if_pos hh] at hstep; cases hstep
  · rw [if_neg hh] at hstep
    have hact2 : s.ch.slot_active s.cons.self = true := by rw [hinv.self_eq]; exact hact
    rw [peek_registered N s.cons s.ch now hinv.epoch hact2, hinv.self_eq] at hstep
    by_cases ht : s.ch.tails cid = s.ch.head
    · rw [if_pos ht] at hstep
      simp only [Option.some.injEq] at hstep
      subst hstep
      exact ⟨hinv.cid_lt, hinv.policy, hinv.self_eq, Or.inr rfl, hinv.head_eq, hinv.tail_eq,
        hinv.le_len, hinv.len_lt, hinv.window, hinv.delivered_eq, hinv.holding_lt,
        hinv.pending⟩
    · rw [if_neg ht] at hstep
      have hRP : R < s.committed.length := by
        rcases Nat.lt_or_ge R s.committed.length with h | h
        · exact h
        · exfalso
          apply ht
          have hle := hinv.le_len
          have : R = s.committed.length := by omega
          rw [hinv.tail_eq, hinv.head_eq, this]
      obtain ⟨hready, hdata⟩ := hinv.window R (Nat.le_refl R) hRP
      rw [hinv.tail_eq, if_pos hready] at hstep
      simp only [Option.some.injEq] at hstep
      subst hstep
      refine ⟨hinv.cid_lt, hinv.policy, hinv.self_eq, Or.inr rfl, hinv.head_eq, hinv.tail_eq,
        hinv.le_len, hinv.len_lt, hinv.window, ?_, fun _ => hRP, hinv.pending⟩
      show s.delivered ++ [(s.ch.slots (R % N)).data] = s.committed.take (R + 1)
      have hd := hinv.delivered_eq
      simp only [hh, if_false, Nat.add_zero] at hd
      rw [hd, List.take_succ, hdata]
      rfl

theorem inv_release (N C cid : Nat) (s : Sys T) (R : Nat) (hinv : Inv N C cid s R)
    (now : Int) (s1 : Sys T) (hstep : step N C s (Step.release now) = some s1) :
    Inv N C cid s1 (R + 1) := by
  simp only [step] at hstep
  by_cases hh : s.holding = true
  · rw [if_pos hh] at hstep
    simp only [Option.some.injEq] at hstep
    subst hstep
    have hRP := hinv.holding_lt hh
    have hrel := release_eq N s.cons s.ch now
    rw [hinv.self_eq] at hrel
    have htail : (release N s.cons s.ch now).tails cid = (s.ch.tails cid + 1) % N := by
      rw [hrel]; simp only [Function.update_same]
    have hhead : (release N s.cons s.ch now).head = s.ch.head := by rw [hrel]
    have hslots : (release N s.cons s.ch now).slots = s.ch.slots := by rw [hrel]
    have hep : (release N s.cons s.ch now).producer_epoch = s.ch.producer_epoch := by
      rw [hrel]
    refine ⟨hinv.cid_lt, hinv.policy, hinv.self_eq, ?_, ?_, ?_, hRP, ?_, ?_, ?_, ?_, ?_⟩
    · show s.cons.local_epoch_cache = 0 ∨
        s.cons.local_epoch_cache = (release N s.cons s.ch now).producer_epoch
      rw [hep]; exact hinv.epoch
    · show (release N s.cons s.ch now).head = s.committed.length % N
      rw [hhead]; exact hinv.head_eq
    · show (release N s.cons s.ch now).tails cid = (R + 1) % N
      rw [htail, hinv.tail_eq, Nat.mod_add_mod]
    · have := hinv.len_lt
      show s.committed.length < R + 1 + N
      omega
    · intro k hk1 hk2
      show ((release N s.cons s.ch now).slots (k % N)).state = SlotState.READY ∧
        s.committed[k]? = some ((release N s.cons s.ch now).slots (k % N)).data
      rw [hslots]
      exact hinv.window k (by omega) hk2
    · show s.delivered = s.committed.take (R + 1 + (if false = true then 1 else 0))
      have hd := hinv.delivered_eq
      simp only [hh, if_true] at hd
      simpa using hd
    · intro h; cases h
    · intro p hp
      show p = (release N s.cons s.ch now).head ∧ s.committed.length + 1 < R + 1 + N
      rw [hhead]
      obtain ⟨h1, h2⟩ := hinv.pending p hp
      exact ⟨h1, by omega⟩
  · rw [if_neg hh] at hstep; cases hstep

theorem inv_step (N C cid : Nat) (s : Sys T) (R : Nat) (hinv : Inv N C cid s R)
    (hact : s.ch.slot_active cid = true) (e : Step T) (s1 : Sys T)
    (hstep : step N C s e = some s1) (hact1 : s1.ch.slot_active cid = true) :
    ∃ R1, Inv N C cid s1 R1 := by
  cases e with
  | prepare now tmo => exact ⟨R, inv_prepare N C cid s R hinv hact now tmo s1 hstep hact1⟩
  | fill r => exact ⟨R, inv_fill N C cid s R hinv r s1 hstep⟩
  | commit => exact ⟨R, inv_commit N C cid s R hinv s1 hstep⟩
  | peek now => exact ⟨R, inv_peek N C cid s R hinv hact now s1 hstep⟩
  | release now => exact ⟨R + 1, inv_release N C cid s R hinv now s1 hstep⟩

theorem aliveAlong_head (N C cid : Nat) (s : Sys T) (es : List (Step T))
    (h : aliveAlong N C cid s es = true) : s.ch.slot_active cid = true := by
  cases es with
  | nil => exact h
  | cons e es =>
    simp only [aliveAlong, Bool.and_eq_true] at h
    exact h.1

theorem inv_run (N C cid : Nat) (es : List (Step T)) (s : Sys T) (R : Nat)
    (hinv : Inv N C cid s R) (s1 : Sys T) (hrun : run N C s es = some s1)
    (hlive : aliveAlong N C cid s es = true) : ∃ R1, Inv N C cid s1 R1 := by
  induction es generalizing s R with
  | nil =>
    simp only [run, Option.some.injEq] at hrun
    subst hrun
    exact ⟨R, hinv⟩
  | cons e es ih =>
    have hact := aliveAlong_head N C cid s (e :: es) hlive
    simp only [run] at hrun
    simp only [aliveAlong, Bool.and_eq_true] at hlive
    cases hs : step N C s e with
    | none => rw [hs] at hrun; cases hrun
    | some s2 =>
      rw [hs] at hrun
      have hl2 : aliveAlong N C cid s2 es = true := by
        have := hlive.2
        rw [hs] at this
        exact this
      have hact2 := aliveAlong_head N C cid s2 es hl2
      obtain ⟨R2, hinv2⟩ := inv_step N C cid s R hinv hact e s2 hs hact2
      exact ih s2 R2 hinv2 hrun hl2

/-- C1. A producer with the BLOCK policy creates a channel of capacity
`N ≥ 1` and consumer `cid` attaches.  For every schedule of producer steps
(`prepare_publish` with any clock reading and timeout, writes through the
pointer, `commit_publish`) and consumer steps (`peek`, and `release` exactly
when a view is held) that runs to the end and in which the consumer stays
registered throughout, the records handed out by the successful peeks are, in
order, an initial segment of the records committed. -/
theorem delivered_prefix_of_committed (N C sizeofT epoch : Nat) (blank : T)
    (pset cset : BrokerSettings) (cid : Nat) (now0 : Int) (hN : 1 ≤ N) (hcid : cid < C)
    (hpol : pset.overflow_policy = OverflowPolicy.BLOCK) (s0 : Sys T)
    (hinit : init N C sizeofT epoch blank pset cset cid now0 = some s0)
    (es : List (Step T)) (s : Sys T) (hrun : run N C s0 es = some s)
    (hlive : aliveAlong N C cid s0 es = true) :
    s.delivered <+: s.committed := by
  obtain ⟨hinv0, _⟩ :=
    inv_init N C sizeofT epoch blank pset cset cid now0 hN hcid hpol s0 hinit
  obtain ⟨R, hinv⟩ := inv_run N C cid es s0 0 hinv0 s hrun hlive
  rw [hinv.delivered_eq]
  exact List.take_prefix _ _

theorem some_getD_of_isSome {α : Type} (o : Option α) (d : α) (h : o.isSome = true) :
    o = some (o.getD d) := by
  cases o with
  | none => cases h
  | some a => rfl

/-- Witness for C1: capacity 2; 5 is published, the next prepare finds the
ring full, the consumer reads 5 and releases, 6 is published and read. -/
theorem delivered_prefix_of_committed_witness :
    init 2 16 8 7 0 (sampleSettings OverflowPolicy.BLOCK 10000)
        (sampleSettings OverflowPolicy.BLOCK 10000) 0 0
        = some (sampleInit 2 OverflowPolicy.BLOCK) ∧
      run 2 16 (sampleInit 2 OverflowPolicy.BLOCK) sampleSchedule
        = some (sampleAfter 2 OverflowPolicy.BLOCK sampleSchedule) ∧
      aliveAlong 2 16 0 (sampleInit 2 OverflowPolicy.BLOCK) sampleSchedule = true ∧
      (sampleAfter 2 OverflowPolicy.BLOCK sampleSchedule).delivered = [5, 6] ∧
      (sampleAfter 2 OverflowPolicy.BLOCK sampleSchedule).committed = [5, 6] ∧
      (sampleAfter 2 OverflowPolicy.BLOCK sampleSchedule).delivered <+:
        (sampleAfter 2 OverflowPolicy.BLOCK sampleSchedule).committed := by
  have hi : init 2 16 8 7 (0 : Nat) (sampleSettings OverflowPolicy.BLOCK 10000)
      (sampleSettings OverflowPolicy.BLOCK 10000) 0 0
      = some (sampleInit 2 OverflowPolicy.BLOCK) :=
    some_getD_of_isSome _ sampleIdle (by decide)
  have hr : run 2 16 (sampleInit 2 OverflowPolicy.BLOCK) sampleSchedule
      = some (sampleAfter 2 OverflowPolicy.BLOCK sampleSchedule) :=
    some_getD_of_isSome _ sampleIdle (by decide)
  have hl : aliveAlong 2 16 0 (sampleInit 2 OverflowPolicy.BLOCK) sampleSchedule = true := by
    decide
  exact ⟨hi, hr, hl, by decide, by decide,
    delivered_prefix_of_committed 2 16 8 7 0 _ _ 0 0 (by decide) (by decide) rfl _ hi
      sampleSchedule _ hr hl⟩

end Ordering

/-! ## Lifetime of a view -/

section View

variable {T : Type}

/-- C8, as the claim states it, fails.  Capacity 2, consumer 0 attached; 10 is
published into slot 0 and the consumer peeks: it holds the view of slot 0,
which reads (sequence 1, READY, 10).  Producer steps only follow.
Under OVERWRITE_OLD two publications push the consumer's tail along and the
second one lands in slot 0.  Under BLOCK the same happens when the
publications come five seconds later, with timeout 2000: the consumer is
evicted.  In both runs slot 0 reads (sequence 2, READY, 12) while the view is
still held. -/
theorem view_overwritten :
    sampleRun 2 OverflowPolicy.OVERWRITE_OLD viewTaken
        = some (true, 0, (1, SlotState.READY, 10)) ∧
      publishSoon.all Step.isProducer = true ∧
      sampleRun 2 OverflowPolicy.OVERWRITE_OLD (viewTaken ++ publishSoon)
        = some (true, 0, (2, SlotState.READY, 12)) ∧
      sampleRun 2 OverflowPolicy.BLOCK viewTaken
        = some (true, 0, (1, SlotState.READY, 10)) ∧
      publishLate.all Step.isProducer = true ∧
      sampleRun 2 OverflowPolicy.BLOCK (viewTaken ++ publishLate)
        = some (true, 0, (2, SlotState.READY, 12)) := by
  refine ⟨?_, ?_, ?_, ?_, ?_, ?_⟩ <;> decide

theorem held_step (N C cid t : Nat) (w : SlotWrapper T) (s : Sys T)
    (hcid : cid < C) (hheld : ViewHeld N cid t w s) (hact : s.ch.slot_active cid = true)
    (e : Step T) (he : e.isProducer = true) (s1 : Sys T) (hstep : step N C s e = some s1)
    (hact1 : s1.ch.slot_active cid = true) : ViewHeld N cid t w s1 := by
  cases e with
  | prepare now tmo =>
    simp only [step] at hstep
    cases hpp : prepare_publish N C s.prod s.ch now tmo with
    | none => rw [hpp] at hstep; cases hstep
    | some r =>
      obtain ⟨res, b1, ch1⟩ := r
      rw [hpp] at hstep
      simp only [Option.some.injEq] at hstep
      subst hstep
      obtain ⟨hhead, htails, _, _, hset, _, hnone, hsome⟩ :=
        prepare_publish_block_effect N C s.prod s.ch now tmo hheld.policy res b1 ch1 hpp
      refine ⟨?_, ?_, ?_, ?_, ?_⟩
      · show b1.settings.overflow_policy = OverflowPolicy.BLOCK
        rw [hset]; exact hheld.policy
      · show ch1.tails cid = t
        rw [htails]; exact hheld.tail_eq
      · show ch1.head ≠ t
        rw [hhead]; exact hheld.head_ne
      · show ch1.slots t = w
        cases res with
        | none => rw [(hnone rfl).2]; exact hheld.slot_eq
        | some p =>
          rw [(hsome p rfl).2.2.1, Function.update_noteq (Ne.symm hheld.head_ne)]
          exact hheld.slot_eq
      · intro p hp
        show p = ch1.head ∧ (ch1.head + 1) % N ≠ t
        have hp2 : b1.pending_slot = some p := hp
        rw [hhead]
        cases res with
        | none =>
          rw [(hnone rfl).1] at hp2
          exact hheld.pending p hp2
        | some q =>
          obtain ⟨_, hpend, _, hne⟩ := hsome q rfl
          rw [hpend] at hp2
          simp only [Option.some.injEq] at hp2
          refine ⟨hp2.symm, fun h => ?_⟩
          exact hne cid hcid hact hact1 (by rw [hheld.tail_eq, h])
  | fill r =>
    simp only [step] at hstep
    cases hp : s.prod.pending_slot with
    | none => rw [hp] at hstep; cases hstep
    | some p =>
      rw [hp] at hstep
      simp only [Option.some.injEq] at hstep
      subst hstep
      obtain ⟨hph, _⟩ := hheld.pending p hp
      refine ⟨hheld.policy, hheld.tail_eq, hheld.head_ne, ?_, hheld.pending⟩
      show (fill s.ch p r).slots t = w
      have hne : t ≠ p := by rw [hph]; exact Ne.symm hheld.head_ne
      simp only [fill, Function.update_noteq hne]
      exact hheld.slot_eq
  | commit =>
    simp only [step] at hstep
    cases hp : s.prod.pending_slot with
    | none => rw [hp] at hstep; cases hstep
    | some p =>
      rw [hp] at hstep
      simp only [Option.some.injEq] at hstep
      subst hstep
      obtain ⟨hph, hnext⟩ := hheld.pending p hp
      rw [commit_publish_pending N s.prod s.ch p hp]
      refine ⟨hheld.policy, hheld.tail_eq, hnext, ?_, fun q hq => (by cases hq)⟩
      show Function.update s.ch.slots p _ t = w
      have hne : t ≠ p := by rw [hph]; exact Ne.symm hheld.head_ne
      rw [Function.update_noteq hne]
      exact hheld.slot_eq
  | peek now => cases he
  | release now => cases he

theorem held_run (N C cid t : Nat) (w : SlotWrapper T) (hcid : cid < C)
    (es : List (Step T)) (s : Sys T) (hheld : ViewHeld N cid t w s)
    (hprod : es.all Step.isProducer = true) (s1 : Sys T) (hrun : run N C s es = some s1)
    (hlive : aliveAlong N C cid s es = true) : ViewHeld N cid t w s1 := by
  induction es generalizing s with
  | nil =>
    simp only [run, Option.some.injEq] at hrun
    subst hrun
    exact hheld
  | cons e es ih =>
    have hact := aliveAlong_head N C cid s (e :: es) hlive
    simp only [run] at hrun
    simp only [aliveAlong, Bool.and_eq_true] at hlive
    simp only [List.all_cons, Bool.and_eq_true] at hprod
    cases hs : step N C s e with
    | none => rw [hs] at hrun; cases hrun
    | some s2 =>
      rw [hs] at hrun
      have hl2 : aliveAlong N C cid s2 es = true := by
        have := hlive.2
        rw [hs] at this
        exact this
      have hact2 := aliveAlong_head N C cid s2 es hl2
      exact ih s2 (held_step N C cid t w s hcid hheld hact e hprod.1 s2 hs hact2)
        hprod.2 hrun hl2

/-- C8, amended.  BLOCK policy; consumer `cid < C` holds the view of slot
`t = tails[cid]`, the head being elsewhere; a publication in
flight, if there is one, targets the head and was admitted with
`(head + 1) mod N` off `t`.  Then after any sequence of producer steps
(`prepare_publish` with any clock reading and timeout, writes through the
pointer, `commit_publish`) during which the consumer stays registered, slot
`t` has the sequence, state and payload it had, and the consumer's tail is
still `t`. -/
theorem view_stable_block (N C cid : Nat) (s : Sys T) (hcid : cid < C)
    (hpol : s.prod.settings.overflow_policy = OverflowPolicy.BLOCK)
    (hne : s.ch.tails cid ≠ s.ch.head)
    (hpend : ∀ p, s.prod.pending_slot = some p →
      p = s.ch.head ∧ (s.ch.head + 1) % N ≠ s.ch.tails cid)
    (es : List (Step T)) (hprod : es.all Step.isProducer = true) (s1 : Sys T)
    (hrun : run N C s es = some s1) (hlive : aliveAlong N C cid s es = true) :
    s1.ch.slots (s.ch.tails cid) = s.ch.slots (s.ch.tails cid) ∧
      s1.ch.tails cid = s.ch.tails cid := by
  have hheld : ViewHeld N cid (s.ch.tails cid) (s.ch.slots (s.ch.tails cid)) s :=
    ⟨hpol, rfl, Ne.symm hne, rfl, hpend⟩
  have h1 := held_run N C cid _ _ hcid es s hheld hprod s1 hrun hlive
  exact ⟨h1.slot_eq, h1.tail_eq⟩

/-- Witness for the amended C8: capacity 4, BLOCK; after the consumer took the
view of slot 0 the producer publishes 11 and prepares once more; slot 0 still
reads (sequence 1, READY, 10). -/
theorem view_stable_block_witness :
    (sampleAfter 4 OverflowPolicy.BLOCK viewTaken).holding = true ∧
      (sampleAfter 4 OverflowPolicy.BLOCK viewTaken).ch.slot_active 0 = true ∧
      (sampleAfter 4 OverflowPolicy.BLOCK viewTaken).ch.tails 0 = 0 ∧
      (sampleAfter 4 OverflowPolicy.BLOCK viewTaken).ch.head = 1 ∧
      (sampleAfter 4 OverflowPolicy.BLOCK viewTaken).prod.pending_slot = none ∧
      publishOne.all Step.isProducer = true ∧
      run 4 16 (sampleAfter 4 OverflowPolicy.BLOCK viewTaken) publishOne
        = some (sampleAfter 4 OverflowPolicy.BLOCK (viewTaken ++ publishOne)) ∧
      aliveAlong 4 16 0 (sampleAfter 4 OverflowPolicy.BLOCK viewTaken) publishOne = true ∧
      (sampleAfter 4 OverflowPolicy.BLOCK (viewTaken ++ publishOne)).prod.pending_slot
        = some 2 ∧
      ((sampleAfter 4 OverflowPolicy.BLOCK (viewTaken ++ publishOne)).ch.slots 0).obs
        = (1, SlotState.READY, 10) ∧
      (sampleAfter 4 OverflowPolicy.BLOCK (viewTaken ++ publishOne)).ch.slots
          ((sampleAfter 4 OverflowPolicy.BLOCK viewTaken).ch.tails 0) =
        (sampleAfter 4 OverflowPolicy.BLOCK viewTaken).ch.slots
          ((sampleAfter 4 OverflowPolicy.BLOCK viewTaken).ch.tails 0) := by
  have hn : (sampleAfter 4 OverflowPolicy.BLOCK viewTaken).prod.pending_slot = none := by
    decide
  have hr : run 4 16 (sampleAfter 4 OverflowPolicy.BLOCK viewTaken) publishOne
      = some (sampleAfter 4 OverflowPolicy.BLOCK (viewTaken ++ publishOne)) := by
    have h1 := some_getD_of_isSome
      (run 4 16 (sampleAfter 4 OverflowPolicy.BLOCK viewTaken) publishOne) sampleIdle
      (by decide)
    rw [h1]
    rfl
  have hl : aliveAlong 4 16 0 (sampleAfter 4 OverflowPolicy.BLOCK viewTaken) publishOne
      = true := by decide
  refine ⟨by decide, by decide, by decide, by decide, hn, by decide, hr, hl,
    by decide, by decide, ?_⟩
  exact (view_stable_block 4 16 0 _ (by decide) (by decide) (by decide)
    (fun p hp => by rw [hn] at hp; cases hp) publishOne (by decide) _ hr hl).1

end View

/-! ## Disconnection and producer epochs -/

section Epoch

variable {T : Type}

/-- C11. When the consumer's cached epoch is the producer epoch, `peek` throws
"disconnected" exactly when `slot_active[self]` is false, and a throwing call
leaves the channel (heartbeat and tail included) and the consumer object as
they were. -/
theorem peek_disconnected (N : Nat) (b : Broker) (ch : SharedChannel T) (now : Int)
    (hepoch : b.local_epoch_cache = ch.producer_epoch) :
    ((peek N b ch now).1 = PeekResult.disconnected ↔ ch.slot_active b.self = false) ∧
      ((peek N b ch now).1 = PeekResult.disconnected →
        (peek N b ch now).2.2 = ch ∧ (peek N b ch now).2.1 = b) := by
  rw [peek_same_epoch N b ch now hepoch]
  by_cases ha : ch.slot_active b.self = false
  · rw [if_pos ha]
    exact ⟨⟨fun _ => ha, fun _ => rfl⟩, fun _ => ⟨rfl, rfl⟩⟩
  · rw [if_neg ha]
    have hne : (if ch.tails b.self = ch.head then
          (PeekResult.empty, b,
            { ch with heartbeats := Function.update ch.heartbeats b.self now })
        else if (ch.slots (ch.tails b.self)).state = SlotState.READY then
          (PeekResult.view (ch.tails b.self), b,
            { ch with heartbeats := Function.update ch.heartbeats b.self now })
        else
          (PeekResult.empty, b,
            { ch with heartbeats := Function.update ch.heartbeats b.self now })).1
        ≠ PeekResult.disconnected := by
      split_ifs <;> simp
    exact ⟨⟨fun h => absurd h hne, fun h => absurd h ha⟩, fun h => absurd h hne⟩

/-- Witness for C11: consumer 0 of the readable sample has been kicked. -/
theorem peek_disconnected_witness :
    (sampleConsumer 0 7).local_epoch_cache = sampleKicked.producer_epoch ∧
      sampleKicked.slot_active (sampleConsumer 0 7).self = false ∧
      (peek 4 (sampleConsumer 0 7) sampleKicked 50).1 = PeekResult.disconnected ∧
      (peek 4 (sampleConsumer 0 7) sampleKicked 50).2.2 = sampleKicked := by
  have h := peek_disconnected 4 (sampleConsumer 0 7) sampleKicked 50 rfl
  exact ⟨rfl, rfl, h.1.mpr rfl, (h.2 (h.1.mpr rfl)).1⟩

/-- The reset path of `peek`: a cache that is neither empty nor current. -/
theorem peek_epoch_reset (N : Nat) (b : Broker) (ch : SharedChannel T) (now : Int)
    (h0 : b.local_epoch_cache ≠ 0) (hne : ch.producer_epoch ≠ b.local_epoch_cache) :
    peek N b ch now =
      (PeekResult.empty, { b with local_epoch_cache := ch.producer_epoch },
        { ch with tails := Function.update ch.tails b.self ch.head }) := by
  unfold peek
  simp only [if_neg h0]
  rw [if_pos hne]

/-- After the reset path the next `peek` under the same epoch does not take
it again: it goes on to the active-flag test. -/
theorem peek_after_reset (N : Nat) (b : Broker) (ch : SharedChannel T) (now now2 : Int)
    (h0 : b.local_epoch_cache ≠ 0) (hne : ch.producer_epoch ≠ b.local_epoch_cache) :
    peek N (peek N b ch now).2.1 (peek N b ch now).2.2 now2 =
      peek N { b with local_epoch_cache := ch.producer_epoch }
        { ch with tails := Function.update ch.tails b.self ch.head } now2 ∧
      ((peek N (peek N b ch now).2.1 (peek N b ch now).2.2 now2).1 = PeekResult.empty →
        (peek N (peek N b ch now).2.1 (peek N b ch now).2.2 now2).2.2.heartbeats b.self
          = now2) := by
  rw [peek_epoch_reset N b ch now h0 hne]
  refine ⟨rfl, ?_⟩
  show (peek N { b with local_epoch_cache := ch.producer_epoch }
      { ch with tails := Function.update ch.tails b.self ch.head } now2).1
        = PeekResult.empty →
    (peek N { b with local_epoch_cache := ch.producer_epoch }
      { ch with tails := Function.update ch.tails b.self ch.head } now2).2.2.heartbeats b.self
        = now2
  rw [peek_same_epoch N { b with local_epoch_cache := ch.producer_epoch }
    { ch with tails := Function.update ch.tails b.self ch.head } now2 rfl]
  have hs : ({ b with local_epoch_cache := ch.producer_epoch } : Broker).self = b.self := rfl
  simp only [hs]
  split_ifs <;> simp

/-- C13. Consumer 0 has read and released a record under epoch 7; the producer
is created again with epoch 9 and publishes 20 into slot 0.  The consumer's
next `peek` returns `nullptr` (reset path), and the one after it throws
"disconnected" instead of delivering 20: creation cleared `slot_active[0]`
and nothing on the reset path sets it again. -/
theorem peek_after_restart_disconnected :
    sampleRepublished.cons.local_epoch_cache = 7 ∧
      sampleRepublished.ch.producer_epoch = 9 ∧
      sampleRepublished.ch.head = 1 ∧
      (sampleRepublished.ch.slots 0).obs = (1, SlotState.READY, 20) ∧
      sampleRepublished.ch.slot_active 0 = false ∧
      (peek 4 sampleRepublished.cons sampleRepublished.ch 50).1 = PeekResult.empty ∧
      (peek 4 (peek 4 sampleRepublished.cons sampleRepublished.ch 50).2.1
          (peek 4 sampleRepublished.cons sampleRepublished.ch 50).2.2 60).1
        = PeekResult.disconnected ∧
      (peek 4 (peek 4 sampleRepublished.cons sampleRepublished.ch 50).2.1
          (peek 4 sampleRepublished.cons sampleRepublished.ch 50).2.2 60).2.2.tails 0 = 1 := by
  refine ⟨?_, ?_, ?_, ?_, ?_, ?_, ?_, ?_⟩ <;> decide

/-- Creation clears every active flag, so after a restart each consumer that
does not attach again is thrown out by the first `peek` that passes the epoch
test. -/
theorem create_clears_active (N sizeofT epoch : Nat) (blank : T) (pset : BrokerSettings)
    (b : Broker) (now : Int)
    (hepoch : b.local_epoch_cache = epoch) :
    (peek N b (create N sizeofT epoch blank pset).2 now).1 = PeekResult.disconnected := by
  rw [peek_same_epoch N b _ now hepoch]
  rfl

end Epoch

/-! ## Attaching -/

section Attach

variable {T : Type}

/-- C14. Attaching throws "stale memory" when the magic differs from the
sentinel; otherwise "version mismatch" when the version differs from the
protocol version; otherwise "layout mismatch" when `struct_size` differs from
the consumer's record size; otherwise "invalid consumer id" when the id is
neither -99 nor in `[0, C)`; in every other case it succeeds.  A throwing
attach leaves the channel as it was. -/
theorem attach_outcome (C sizeofT : Nat) (id : Int) (settings : BrokerSettings)
    (ch : SharedChannel T) (now : Int) :
    (ch.magic ≠ MAGIC_NUMBER →
        attach C sizeofT id settings ch now = Except.error AttachError.STALE_MEMORY) ∧
      (ch.magic = MAGIC_NUMBER → ch.version ≠ PROTOCOL_VERSION →
        attach C sizeofT id settings ch now = Except.error AttachError.VERSION_MISMATCH) ∧
      (ch.magic = MAGIC_NUMBER → ch.version = PROTOCOL_VERSION → ch.struct_size ≠ sizeofT →
        attach C sizeofT id settings ch now = Except.error AttachError.LAYOUT_MISMATCH) ∧
      (ch.magic = MAGIC_NUMBER → ch.version = PROTOCOL_VERSION → ch.struct_size = sizeofT →
        id ≠ -99 → ¬ (0 ≤ id ∧ id < (C : Int)) →
        attach C sizeofT id settings ch now = Except.error AttachError.INVALID_CONSUMER_ID) ∧
      (ch.magic = MAGIC_NUMBER → ch.version = PROTOCOL_VERSION → ch.struct_size = sizeofT →
        (id = -99 ∨ (0 ≤ id ∧ id < (C : Int))) →
        ∃ b ch1, attach C sizeofT id settings ch now = Except.ok (b, ch1)) ∧
      (∀ e, attach C sizeofT id settings ch now = Except.error e →
        channel_after ch (attach C sizeofT id settings ch now) = ch) := by
  refine ⟨?_, ?_, ?_, ?_, ?_, ?_⟩
  · intro h1
    unfold attach
    rw [if_pos h1]
  · intro h1 h2
    unfold attach
    rw [if_neg (not_not.mpr h1), if_pos h2]
  · intro h1 h2 h3
    unfold attach
    rw [if_neg (not_not.mpr h1), if_neg (not_not.mpr h2), if_pos h3]
  · intro h1 h2 h3 h4 h5
    have h6 : id < 0 ∨ id ≥ (C : Int) := by omega
    unfold attach
    rw [if_neg (not_not.mpr h1), if_neg (not_not.mpr h2), if_neg (not_not.mpr h3),
      if_pos h4, if_pos h6]
  · intro h1 h2 h3 h4
    unfold attach
    rw [if_neg (not_not.mpr h1), if_neg (not_not.mpr h2), if_neg (not_not.mpr h3)]
    by_cases h5 : id ≠ -99
    · have h6 : ¬ (id < 0 ∨ id ≥ (C : Int)) := by omega
      rw [if_pos h5, if_neg h6]
      exact ⟨_, _, rfl⟩
    · rw [if_neg h5]
      exact ⟨_, _, rfl⟩
  · intro e he
    rw [he]
    rfl

/-- Sample outcomes for C14 with `C = 16` and record size 8: a foreign magic
wins over a wrong version, a wrong version over a wrong size, a wrong size
over a bad id; ids 16 and -1 are refused, ids 15 and -99 accepted. -/
theorem attach_outcome_witness :
    attach 16 8 99 (sampleSettings OverflowPolicy.BLOCK 10000)
        (sampleHeader 1 3 9) 0 = Except.error AttachError.STALE_MEMORY ∧
      attach 16 8 99 (sampleSettings OverflowPolicy.BLOCK 10000)
        (sampleHeader MAGIC_NUMBER 3 9) 0 = Except.error AttachError.VERSION_MISMATCH ∧
      attach 16 8 99 (sampleSettings OverflowPolicy.BLOCK 10000)
        (sampleHeader MAGIC_NUMBER 2 9) 0 = Except.error AttachError.LAYOUT_MISMATCH ∧
      attach 16 8 16 (sampleSettings OverflowPolicy.BLOCK 10000)
        (sampleHeader MAGIC_NUMBER 2 8) 0 = Except.error AttachError.INVALID_CONSUMER_ID ∧
      attach 16 8 (-1) (sampleSettings OverflowPolicy.BLOCK 10000)
        (sampleHeader MAGIC_NUMBER 2 8) 0 = Except.error AttachError.INVALID_CONSUMER_ID ∧
      (∃ b ch1, attach 16 8 15 (sampleSettings OverflowPolicy.BLOCK 10000)
        (sampleHeader MAGIC_NUMBER 2 8) 0 = Except.ok (b, ch1)) ∧
      (∃ b ch1, attach 16 8 (-99) (sampleSettings OverflowPolicy.BLOCK 10000)
        (sampleHeader MAGIC_NUMBER 2 8) 0 = Except.ok (b, ch1)) := by
  refine ⟨?_, ?_, ?_, ?_, ?_, ?_, ?_⟩
  · exact (attach_outcome 16 8 99 _ (sampleHeader 1 3 9) 0).1 (by decide)
  · exact (attach_outcome 16 8 99 _ (sampleHeader MAGIC_NUMBER 3 9) 0).2.1 rfl (by decide)
  · exact (attach_outcome 16 8 99 _ (sampleHeader MAGIC_NUMBER 2 9) 0).2.2.1 rfl rfl
      (by decide)
  · exact (attach_outcome 16 8 16 _ (sampleHeader MAGIC_NUMBER 2 8) 0).2.2.2.1 rfl rfl rfl
      (by decide) (by decide)
  · exact (attach_outcome 16 8 (-1) _ (sampleHeader MAGIC_NUMBER 2 8) 0).2.2.2.1 rfl rfl rfl
      (by decide) (by decide)
  · exact (attach_outcome 16 8 15 _ (sampleHeader MAGIC_NUMBER 2 8) 0).2.2.2.2.1 rfl rfl rfl
      (Or.inr (by decide))
  · exact (attach_outcome 16 8 (-99) _ (sampleHeader MAGIC_NUMBER 2 8) 0).2.2.2.2.1 rfl rfl rfl
      (Or.inl rfl)

theorem attach_inert (C sizeofT : Nat) (settings : BrokerSettings)
    (ch : SharedChannel T) (now : Int) (hmagic : ch.magic = MAGIC_NUMBER)
    (hversion : ch.version = PROTOCOL_VERSION) (hsize : ch.struct_size = sizeofT) :
    attach C sizeofT (-99) settings ch now =
      Except.ok
        ({ is_owner := false, consumer_id := -99, local_epoch_cache := 0,
           settings := settings, pending_slot := none }, ch) := by
  unfold attach
  rw [if_neg (not_not.mpr hmagic), if_neg (not_not.mpr hversion), if_neg (not_not.mpr hsize),
    if_neg (by decide)]

/-- C15. On a channel that passes the header checks, attaching with id
`i < C` returns a consumer object and the channel with `tails[i]` set to the
head, `heartbeats[i]` to the clock reading and `slot_active[i]` to true, every
other field as it was; the first `peek` of that consumer on that channel
returns `nullptr`.  Attaching with id -99 returns the channel unchanged. -/
theorem attach_effect (C sizeofT : Nat) (i : Nat) (settings : BrokerSettings)
    (ch : SharedChannel T) (now : Int) (hi : i < C) (hmagic : ch.magic = MAGIC_NUMBER)
    (hversion : ch.version = PROTOCOL_VERSION) (hsize : ch.struct_size = sizeofT) :
    (∃ b, attach C sizeofT (i : Int) settings ch now =
        Except.ok (b,
          { ch with
            tails := Function.update ch.tails i ch.head
            heartbeats := Function.update ch.heartbeats i now
            slot_active := Function.update ch.slot_active i true }) ∧
        b.self = i ∧
        ∀ (N : Nat) (now2 : Int),
          (peek N b
            { ch with
              tails := Function.update ch.tails i ch.head
              heartbeats := Function.update ch.heartbeats i now
              slot_active := Function.update ch.slot_active i true } now2).1
            = PeekResult.empty) ∧
      ∃ b, attach C sizeofT (-99) settings ch now = Except.ok (b, ch) := by
  refine ⟨⟨_, attach_registers C sizeofT i settings ch now hi hmagic hversion hsize, ?_, ?_⟩,
    ⟨_, attach_inert C sizeofT settings ch now hmagic hversion hsize⟩⟩
  · exact Int.toNat_natCast i
  · intro N now2
    have hself : Broker.self ⟨false, (i : Int), 0, settings, none⟩ = i :=
      Int.toNat_natCast i
    rw [peek_registered N _ _ now2 (Or.inl rfl) (by rw [hself]; simp)]
    rw [hself, if_pos (by simp)]

/-- Witness for C15: consumer 3 attaches to the drained sample (head 1) at
time 77. -/
theorem attach_effect_witness :
    (3 : Nat) < 16 ∧ sampleDrained.magic = MAGIC_NUMBER ∧
      sampleDrained.version = PROTOCOL_VERSION ∧ sampleDrained.struct_size = 8 ∧
      (channel_after sampleDrained
        (attach 16 8 3 (sampleSettings OverflowPolicy.BLOCK 10000) sampleDrained 77)).tails 3
        = 1 ∧
      (channel_after sampleDrained
        (attach 16 8 3 (sampleSettings OverflowPolicy.BLOCK 10000)
          sampleDrained 77)).heartbeats 3 = 77 ∧
      (channel_after sampleDrained
        (attach 16 8 3 (sampleSettings OverflowPolicy.BLOCK 10000)
          sampleDrained 77)).slot_active 3 = true ∧
      channel_after sampleDrained
        (attach 16 8 (-99) (sampleSettings OverflowPolicy.BLOCK 10000) sampleDrained 77)
        = sampleDrained := by
  obtain ⟨⟨b, h1, _, _⟩, ⟨b2, h2⟩⟩ :=
    attach_effect 16 8 3 (sampleSettings OverflowPolicy.BLOCK 10000) sampleDrained 77
      (by decide) rfl rfl rfl
  have h1c : attach 16 8 3 (sampleSettings OverflowPolicy.BLOCK 10000) sampleDrained 77 = _ :=
    h1
  refine ⟨by decide, rfl, rfl, rfl, ?_, ?_, ?_, ?_⟩
  · rw [h1c]; rfl
  · rw [h1c]; rfl
  · rw [h1c]; rfl
  · rw [h2]; rfl

end Attach

/-! ## Forced disconnection -/

section Kick

variable {T : Type}

theorem retouch_set_active (ch : SharedChannel T) (i0 t : Nat) (hb : Int) (i : Nat) (v : Bool) :
    ({ retouch ch i0 t hb with
        slot_active := Function.update (retouch ch i0 t hb).slot_active i v } : SharedChannel T)
      = retouch { ch with slot_active := Function.update ch.slot_active i v } i0 t hb := rfl

theorem retouch_set_tail (ch : SharedChannel T) (i0 t : Nat) (hb : Int) (i v : Nat)
    (hne : i ≠ i0) :
    ({ retouch ch i0 t hb with
        tails := Function.update (retouch ch i0 t hb).tails i v } : SharedChannel T)
      = retouch { ch with tails := Function.update ch.tails i v } i0 t hb := by
  simp only [retouch]
  rw [Function.update_comm hne]

theorem prepare_loop_retouch (N nh : Nat) (now tmo : Int) (policy : OverflowPolicy)
    (i0 t : Nat) (hb : Int) (rem i : Nat) (ch : SharedChannel T)
    (h : ch.slot_active i0 = false) :
    prepare_loop N policy nh now tmo rem i (retouch ch i0 t hb) =
      ((prepare_loop N policy nh now tmo rem i ch).1,
        retouch (prepare_loop N policy nh now tmo rem i ch).2 i0 t hb) := by
  induction rem generalizing i ch with
  | zero => rfl
  | succ rem ih =>
    rcases scan_cases nh now tmo ch i with hc | hc | hc
    · have hc2 : ¬ ((retouch ch i0 t hb).slot_active i = true ∧
          nh = (retouch ch i0 t hb).tails i) := by
        rintro ⟨ha, ht⟩
        have ha2 : ch.slot_active i = true := ha
        have hne : i ≠ i0 := by
          rintro rfl
          rw [h] at ha2
          cases ha2
        apply hc
        refine ⟨ha2, ?_⟩
        simpa [retouch, Function.update_noteq hne] using ht
      rw [prepare_loop_skip N nh now tmo policy rem i ch hc,
        prepare_loop_skip N nh now tmo policy rem i _ hc2]
      exact ih (i + 1) ch h
    · have hne : i ≠ i0 := by
        rintro rfl
        have := hc.1
        rw [h] at this
        cases this
      have hc2 : stale (retouch ch i0 t hb) nh now tmo i := by
        obtain ⟨h1, h2, h3⟩ := hc
        refine ⟨h1, ?_, ?_⟩
        · simpa [retouch, Function.update_noteq hne] using h2
        · simpa [retouch, Function.update_noteq hne] using h3
      rw [prepare_loop_evict N nh now tmo policy rem i ch hc,
        prepare_loop_evict N nh now tmo policy rem i _ hc2, retouch_set_active]
      refine ih (i + 1) _ ?_
      show Function.update ch.slot_active i false i0 = false
      rw [Function.update_noteq (Ne.symm hne)]
      exact h
    · have hne : i ≠ i0 := by
        rintro rfl
        have := hc.1
        rw [h] at this
        cases this
      have hc2 : blocking (retouch ch i0 t hb) nh now tmo i := by
        obtain ⟨h1, h2, h3⟩ := hc
        refine ⟨h1, ?_, ?_⟩
        · simpa [retouch, Function.update_noteq hne] using h2
        · simpa [retouch, Function.update_noteq hne] using h3
      cases policy
      · rw [prepare_loop_stop N nh now tmo rem i ch hc,
          prepare_loop_stop N nh now tmo rem i _ hc2]
      · have hti : (retouch ch i0 t hb).tails i = ch.tails i := by
          simp [retouch, Function.update_noteq hne]
        rw [prepare_loop_advance N nh now tmo rem i ch hc,
          prepare_loop_advance N nh now tmo rem i _ hc2, hti, retouch_set_tail _ _ _ _ _ _ hne]
        exact ih (i + 1) _ h

theorem lock_retouch (c ch : SharedChannel T) (i0 t : Nat) (hb : Int)
    (hc : c = retouch ch i0 t hb) :
    ({ c with write_lock := true } : SharedChannel T) =
      retouch { ch with write_lock := true } i0 t hb := by
  subst hc
  rfl

theorem prepare_publish_retouch (N C : Nat) (b : Broker) (ch : SharedChannel T)
    (now tmo : Int) (i0 t : Nat) (hb : Int) (h : ch.slot_active i0 = false) :
    prepare_publish N C b (retouch ch i0 t hb) now tmo =
      (prepare_publish N C b ch now tmo).map (fun r => (r.1, r.2.1, retouch r.2.2 i0 t hb)) := by
  by_cases hl : ch.write_lock = true
  · have hl2 : (retouch ch i0 t hb).write_lock = true := hl
    simp only [prepare_publish, hl, hl2, if_true, Option.map_none']
  · have hl1 : ch.write_lock = false := by simpa using hl
    have hl2 : (retouch ch i0 t hb).write_lock = false := hl1
    have hhead : (retouch ch i0 t hb).head = ch.head := rfl
    rw [prepare_publish_eq N C b ch now tmo hl1,
      prepare_publish_eq N C b (retouch ch i0 t hb) now tmo hl2]
    have hloop := prepare_loop_retouch N ((ch.head + 1) % N) now tmo
      b.settings.overflow_policy i0 t hb C 0 { ch with write_lock := true } h
    rw [lock_retouch _ ch i0 t hb rfl, hhead, hloop]
    by_cases hr : (prepare_loop N b.settings.overflow_policy ((ch.head + 1) % N) now tmo C 0
        { ch with write_lock := true }).1 = true
    · simp only [hr, if_true, Option.map_some']
      rfl
    · simp only [hr, if_false, Option.map_some']
      rfl

/-- C16. `force_disconnect_consumer(i)` with `i < C` clears `slot_active[i]`
and nothing else; with an id outside `[0, C)` it changes nothing.  After it,
`prepare_publish` does not look at `tails[i]` or `heartbeats[i]`: with any
other values in these two entries it returns the same result and leaves the
same channel (those two entries apart).  Under BLOCK, when the write lock is
free and consumer `i` was the only one that made the producer full, the call
now returns the pointer to `slots[head]`. -/
theorem force_disconnect_effect (N C : Nat) (i : Nat) (hi : i < C) (ch : SharedChannel T) :
    force_disconnect_consumer C (i : Int) ch =
        { ch with slot_active := Function.update ch.slot_active i false } ∧
      (∀ id : Int, ¬ (0 ≤ id ∧ id < (C : Int)) → force_disconnect_consumer C id ch = ch) ∧
      (∀ (b : Broker) (now tmo : Int) (t : Nat) (hb : Int),
        prepare_publish N C b (retouch (force_disconnect_consumer C (i : Int) ch) i t hb)
            now tmo =
          (prepare_publish N C b (force_disconnect_consumer C (i : Int) ch) now tmo).map
            (fun r => (r.1, r.2.1, retouch r.2.2 i t hb))) ∧
      (∀ (b : Broker) (now tmo : Int),
        b.settings.overflow_policy = OverflowPolicy.BLOCK → ch.write_lock = false →
        (∀ j, j < C → blocking ch ((ch.head + 1) % N) now tmo j → j = i) →
        ∃ b1 ch1, prepare_publish N C b (force_disconnect_consumer C (i : Int) ch) now tmo
          = some (some ch.head, b1, ch1)) := by
  have hrange : ¬ ((i : Int) < 0 ∨ (i : Int) ≥ (C : Int)) := by omega
  have heq : force_disconnect_consumer C (i : Int) ch =
      { ch with slot_active := Function.update ch.slot_active i false } := by
    unfold force_disconnect_consumer
    rw [if_neg hrange, Int.toNat_natCast]
  refine ⟨heq, ?_, ?_, ?_⟩
  · intro id hid
    have h2 : id < 0 ∨ id ≥ (C : Int) := by omega
    unfold force_disconnect_consumer
    rw [if_pos h2]
  · intro b now tmo t hb
    apply prepare_publish_retouch
    rw [heq]
    simp
  · intro b now tmo hpol hlock honly
    rw [heq]
    have hfull := prepare_loop_block_full N ((ch.head + 1) % N) now tmo C 0
      { ch with slot_active := Function.update ch.slot_active i false, write_lock := true }
    have hlock2 : ({ ch with slot_active := Function.update ch.slot_active i false } :
        SharedChannel T).write_lock = false := hlock
    rw [prepare_publish_eq N C b _ now tmo hlock2, hpol]
    have hnf : ¬ (prepare_loop N OverflowPolicy.BLOCK ((ch.head + 1) % N) now tmo C 0
        { ch with slot_active := Function.update ch.slot_active i false,
                  write_lock := true }).1 = true := by
      intro hf
      obtain ⟨j, _, hj, ha, ht, hd⟩ := hfull.mp hf
      have hji : j ≠ i := by
        rintro rfl
        simp at ha
      have ha2 : ch.slot_active j = true := by
        simpa [Function.update_noteq hji] using ha
      exact hji (honly j (by omega) ⟨ha2, ht, hd⟩)
    rw [if_neg hnf]
    exact ⟨_, _, rfl⟩

/-- Witness for C16: in the blocked sample consumer 0 alone keeps the
producer full; after `force_disconnect_consumer(0)` the producer gets slot
0. -/
theorem force_disconnect_effect_witness :
    (0 : Nat) < 16 ∧
      (prepare_publish 4 16 (sampleProducer OverflowPolicy.BLOCK 10000) sampleBlocked
        100 2000).map (fun r => r.1) = some none ∧
      (force_disconnect_consumer 16 0 sampleBlocked).slot_active 0 = false ∧
      ∃ b1 ch1, prepare_publish 4 16 (sampleProducer OverflowPolicy.BLOCK 10000)
        (force_disconnect_consumer 16 0 sampleBlocked) 100 2000 = some (some 0, b1, ch1) := by
  refine ⟨by decide, by decide, by decide, ?_⟩
  refine (force_disconnect_effect 4 16 0 (by decide) sampleBlocked).2.2.2
    (sampleProducer OverflowPolicy.BLOCK 10000) 100 2000 rfl rfl ?_
  intro j _ hb
  have ha : decide (j = 0) = true := hb.1
  simpa using ha

end Kick

/-! ## NanoString -/

section Text

theorem map_range_eq_take (f : Nat → Nat) (l : List Nat) (m : Nat) (hm : m ≤ l.length)
    (h : ∀ i, i < m → f i = l.getD i 0) : (List.range m).map f = l.take m := by
  apply List.ext_getElem
  · simp [hm]
  · intro i h1 h2
    have hi : i < m := by simpa using h1
    have hl : i < l.length := by omega
    simp only [List.getElem_map, List.getElem_range, List.getElem_take]
    rw [h i hi, List.getD_eq_getElem l 0 hl]

theorem text_getD (str : List Nat) (i : Nat) (hi : i < strlen str) :
    str.getD i 0 = (str.takeWhile (fun c => c != 0)).getD i 0 := by
  have hp : str.takeWhile (fun c => c != 0) <+: str := List.takeWhile_prefix _
  have hi2 : i < (str.takeWhile (fun c => c != 0)).length := hi
  have hl : i < str.length := lt_of_lt_of_le hi2 hp.length_le
  rw [List.getD_eq_getElem _ 0 hl, List.getD_eq_getElem _ 0 hi2]
  exact (hp.getElem hi2).symm

theorem assign_buffer_low {N : Nat} (self : NanoString N) (str : List Nat) (i : Nat)
    (h1 : i < N - 1) (h2 : i < strlen str) :
    (self.assign str).buffer i = (str.takeWhile (fun c => c != 0)).getD i 0 := by
  have hne : i ≠ N - 1 := by omega
  simp only [NanoString.assign, Function.update_noteq hne, strncpy, if_pos h1, if_pos h2]
  exact text_getD str i h2

theorem assign_buffer_end {N : Nat} (self : NanoString N) (str : List Nat) :
    (self.assign str).buffer (min (strlen str) (N - 1)) = 0 := by
  rcases Nat.lt_or_ge (strlen str) (N - 1) with h | h
  · have hm : min (strlen str) (N - 1) = strlen str := Nat.min_eq_left (Nat.le_of_lt h)
    have hne : strlen str ≠ N - 1 := by omega
    rw [hm]
    simp only [NanoString.assign, Function.update_noteq hne, strncpy, if_pos h,
      if_neg (Nat.lt_irrefl _)]
  · have hm : min (strlen str) (N - 1) = N - 1 := Nat.min_eq_right h
    rw [hm]
    simp only [NanoString.assign, Function.update_same]

/-- C17. For every capacity `N ≥ 1`, every previous buffer content and every
zero-terminated text at `str`, after construction or assignment from `str`
the byte `buffer[N-1]` is zero and `c_str()` reads exactly the first
`min(len, N-1)` bytes of the text; so a text of at most `N-1` bytes is stored
whole. -/
theorem nanostring_assign (N : Nat) (hN : 1 ≤ N) (self : NanoString N) (str : List Nat) :
    (self.assign str).buffer (N - 1) = 0 ∧
      (self.assign str).c_str = (str.takeWhile (fun c => c != 0)).take (N - 1) ∧
      ((self.assign str).c_str).length = min (strlen str) (N - 1) ∧
      (strlen str ≤ N - 1 →
        (self.assign str).c_str = str.takeWhile (fun c => c != 0)) := by
  have hlast : (self.assign str).buffer (N - 1) = 0 := by
    simp only [NanoString.assign, Function.update_same]
  have hmle : min (strlen str) (N - 1) ≤ strlen str := Nat.min_le_left _ _
  have hmN : min (strlen str) (N - 1) < N := by
    have := Nat.min_le_right (strlen str) (N - 1)
    omega
  have hsplit : N = min (strlen str) (N - 1) + ((N - 1 - min (strlen str) (N - 1)) + 1) := by
    omega
  have hhead : (List.range (min (strlen str) (N - 1))).map (self.assign str).buffer =
      (str.takeWhile (fun c => c != 0)).take (min (strlen str) (N - 1)) := by
    apply map_range_eq_take
    · exact hmle
    · intro i hi
      have h1 : i < N - 1 := lt_of_lt_of_le hi (Nat.min_le_right _ _)
      have h2 : i < strlen str := lt_of_lt_of_le hi hmle
      exact assign_buffer_low self str i h1 h2
  have hall : ∀ a ∈ (str.takeWhile (fun c => c != 0)).take (min (strlen str) (N - 1)),
      (fun c : Nat => c != 0) a = true := by
    intro a ha
    have hmem : a ∈ str.takeWhile (fun c => c != 0) := List.mem_of_mem_take ha
    have hp := List.mem_takeWhile_imp hmem
    exact hp
  have hc : (self.assign str).c_str =
      (str.takeWhile (fun c => c != 0)).take (min (strlen str) (N - 1)) := by
    have hr : List.range N = List.range
        (min (strlen str) (N - 1) + ((N - 1 - min (strlen str) (N - 1)) + 1)) :=
      congrArg List.range hsplit
    unfold NanoString.c_str
    rw [hr, List.range_add, List.map_append, hhead, List.range_succ_eq_map, List.map_cons,
      List.map_cons, List.takeWhile_append_of_pos hall, Nat.add_zero, assign_buffer_end,
      List.takeWhile_cons_of_neg (by decide), List.append_nil]
  have htake : (str.takeWhile (fun c => c != 0)).take (min (strlen str) (N - 1)) =
      (str.takeWhile (fun c => c != 0)).take (N - 1) := by
    rcases Nat.lt_or_ge (strlen str) (N - 1) with h | h
    · have h1 : (str.takeWhile (fun c => c != 0)).length ≤ strlen str := Nat.le_refl _
      have h2 : (str.takeWhile (fun c => c != 0)).length ≤ N - 1 := Nat.le_of_lt h
      rw [Nat.min_eq_left (Nat.le_of_lt h), List.take_of_length_le h1,
        List.take_of_length_le h2]
    · rw [Nat.min_eq_right h]
  refine ⟨hlast, hc.trans htake, ?_, ?_⟩
  · rw [hc, List.length_take]
    exact Nat.min_eq_left hmle
  · intro hle
    rw [hc.trans htake]
    exact List.take_of_length_le hle

/-- Witness for C17 with `N = 4`: the text "hi" (followed by other bytes) is
stored whole over a buffer full of 9s, and a text of five bytes is cut to
three. -/
theorem nanostring_assign_witness :
    1 ≤ 4 ∧
      (NanoString.assign (N := 4) { buffer := fun _ => 9 } [104, 105, 0, 33]).c_str
        = [104, 105] ∧
      (NanoString.assign (N := 4) { buffer := fun _ => 9 } [1, 2, 3, 4, 5, 0]).c_str
        = [1, 2, 3] ∧
      (NanoString.assign (N := 4) { buffer := fun _ => 9 } [1, 2, 3, 4, 5, 0]).buffer 3 = 0 := by
  refine ⟨by decide, ?_, ?_, ?_⟩
  · rw [(nanostring_assign 4 (by decide) { buffer := fun _ => 9 } [104, 105, 0, 33]).2.1]
    decide
  · rw [(nanostring_assign 4 (by decide) { buffer := fun _ => 9 } [1, 2, 3, 4, 5, 0]).2.1]
    decide
  · exact (nanostring_assign 4 (by decide) { buffer := fun _ => 9 } [1, 2, 3, 4, 5, 0]).1

end Text

/-! ## Round trip through the Python binding -/

section Binding

/-- The record `publish_frame` commits has the `data_size`, `channels` and
`producer_id` the slot held before: the function stores only the frame id,
the width, the height, the pixels and the time stamp. -/
theorem publish_into_keeps_size (N : Nat) (id w h : Int) (input_array : List Nat)
    (timestamp : Int) (p : Nat) (b : Broker) (ch : SharedChannel CameraFrame) :
    (((publish_into N id w h input_array timestamp (some p, b, ch)).2.2.slots p).data).data_size
        = ((ch.slots p).data).data_size ∧
      (((publish_into N id w h input_array timestamp (some p, b, ch)).2.2.slots p).data).channels
        = ((ch.slots p).data).channels ∧
      (((publish_into N id w h input_array timestamp (some p, b, ch)).2.2.slots p).data).producer_id
        = ((ch.slots p).data).producer_id := by
  cases hp : b.pending_slot with
  | none => simp [publish_into, commit_publish, hp, fill]
  | some q =>
    by_cases hq : p = q
    · subst hq
      simp [publish_into, commit_publish, hp, fill]
    · simp [publish_into, commit_publish, hp, fill, Function.update_noteq hq]

/-- C18. On a fresh channel with consumer 0 attached,
`publish_frame(1, 1, 1, [7, 8, 9])` returns true (3 bytes, `w * h * 3 = 3`),
and `get_next_frame()` then returns frame id 1 with an array of shape `[0]`
holding no element: `publish_frame` never stores `data_size` (nor
`channels`), which still read 0 in the zero-filled slot. -/
theorem round_trip_loses_pixels :
    [7, 8, 9].length ≤ MAX_SIZE ∧ 1 * 1 * 3 = [7, 8, 9].length ∧
      videoRoundTrip.map (fun r => r.1) = some true ∧
      videoRoundTrip.bind (fun r => r.2) = some (0, 1, [0], []) ∧
      (videoRoundTrip.bind (fun r => r.2)).map (fun t => t.2.2.2.length) ≠ some 3 := by
  refine ⟨?_, ?_, ?_, ?_, ?_⟩ <;> decide

end Binding

/-! ## The ring invariant -/

section Ring

variable {T : Type}

theorem ringInv_of (N : Nat) (ch ch1 : SharedChannel T) (h : RingInv N ch)
    (hh : ch1.head = ch.head ∨ ch1.head < N)
    (ht : ∀ k, ch1.tails k = ch.tails k ∨ ch1.tails k < N) : RingInv N ch1 := by
  refine ⟨?_, fun k => ?_⟩
  · rcases hh with hh | hh
    · rw [hh]; exact h.1
    · exact hh
  · rcases ht k with hk | hk
    · rw [hk]; exact h.2 k
    · exact hk

theorem update_tail_cases (f : Nat → Nat) (i v k : Nat) (N : Nat) (hv : v < N) :
    Function.update f i v k = f k ∨ Function.update f i v k < N := by
  by_cases hk : k = i
  · subst hk
    rw [Function.update_same]
    exact Or.inr hv
  · rw [Function.update_noteq hk]
    exact Or.inl rfl

theorem prepare_loop_tails_lt (N nh : Nat) (now tmo : Int) (hN : 1 ≤ N)
    (policy : OverflowPolicy) (rem i : Nat) (ch : SharedChannel T)
    (h : ∀ k, ch.tails k < N) :
    ∀ k, (prepare_loop N policy nh now tmo rem i ch).2.tails k < N := by
  induction rem generalizing i ch with
  | zero => exact h
  | succ rem ih =>
    rcases scan_cases nh now tmo ch i with hc | hc | hc
    · rw [prepare_loop_skip N nh now tmo policy rem i ch hc]
      exact ih _ _ h
    · rw [prepare_loop_evict N nh now tmo policy rem i ch hc]
      exact ih _ _ h
    · cases policy
      · rw [prepare_loop_stop N nh now tmo rem i ch hc]
        exact h
      · rw [prepare_loop_advance N nh now tmo rem i ch hc]
        apply ih
        intro k
        rcases update_tail_cases ch.tails i ((ch.tails i + 1) % N) k N
          (Nat.mod_lt _ (by omega)) with hk | hk
        · show Function.update ch.tails i ((ch.tails i + 1) % N) k < N
          rw [hk]; exact h k
        · exact hk

theorem peek_eq_racing (N : Nat) (b : Broker) (ch : SharedChannel T) (now : Int) :
    peek N b ch now =
      peek_racing N b ch now (spin_wait (ch.slots (ch.tails b.self)).state 10001 0)
        (ch.slots (ch.tails b.self)).sequence := rfl

theorem ringInv_release (N : Nat) (hN : 1 ≤ N) (b : Broker) (ch : SharedChannel T)
    (now : Int) (h : RingInv N ch) : RingInv N (release N b ch now) := by
  refine ringInv_of N ch (release N b ch now) h (Or.inl rfl) ?_
  intro k
  rw [release_eq]
  exact update_tail_cases ch.tails b.self _ k N (Nat.mod_lt _ (by omega))

theorem ringInv_peek_racing (N : Nat) (hN : 1 ≤ N) (b : Broker) (ch : SharedChannel T)
    (now : Int) (ready : Bool) (seq_after : Nat) (h : RingInv N ch) :
    RingInv N (peek_racing N b ch now ready seq_after).2.2 := by
  have hrel : ∀ (b1 : Broker), RingInv N
      (release N b1 { ch with heartbeats := Function.update ch.heartbeats b.self now } now) :=
    fun b1 => ringInv_release N hN b1 _ now h
  have hreset : RingInv N { ch with tails := Function.update ch.tails b.self ch.head } :=
    ringInv_of N ch _ h (Or.inl rfl) (fun k => update_tail_cases ch.tails b.self _ k N h.1)
  have hhb : RingInv N { ch with heartbeats := Function.update ch.heartbeats b.self now } := h
  simp only [peek_racing]
  split_ifs
  all_goals first
    | exact hreset
    | exact h
    | exact hhb
    | exact hrel _

/-- C20. For every capacity `N ≥ 1` the predicate "head `< N` and every tail
`< N`" holds for the channel `create` writes and is kept by every operation:
the attaching constructor (thrown or not), `prepare_publish` under either
policy, `commit_publish`, `peek` (also when the slot is written during the
call, whatever the wait and the second sequence load see, which covers the
epoch-reset and the sequence-mismatch paths), `release` and
`force_disconnect_consumer`. -/
theorem ring_invariant (N : Nat) (hN : 1 ≤ N) :
    (∀ (sizeofT epoch : Nat) (blank : T) (pset : BrokerSettings),
        RingInv N (create N sizeofT epoch blank pset).2) ∧
      ∀ ch : SharedChannel T, RingInv N ch →
        (∀ (C sizeofT : Nat) (id : Int) (settings : BrokerSettings) (now : Int),
          RingInv N (channel_after ch (attach C sizeofT id settings ch now))) ∧
        (∀ (C : Nat) (b : Broker) (now tmo : Int) (res : Option Nat) (b1 : Broker)
            (ch1 : SharedChannel T),
          prepare_publish N C b ch now tmo = some (res, b1, ch1) → RingInv N ch1) ∧
        (∀ b : Broker, RingInv N (commit_publish N b ch).2) ∧
        (∀ (b : Broker) (now : Int), RingInv N (peek N b ch now).2.2) ∧
        (∀ (b : Broker) (now : Int) (ready : Bool) (seq_after : Nat),
          RingInv N (peek_racing N b ch now ready seq_after).2.2) ∧
        (∀ (b : Broker) (now : Int), RingInv N (release N b ch now)) ∧
        (∀ (C : Nat) (id : Int), RingInv N (force_disconnect_consumer C id ch)) := by
  refine ⟨?_, ?_⟩
  · intro sizeofT epoch blank pset
    exact ⟨by show 0 < N; omega, fun k => by show 0 < N; omega⟩
  · intro ch h
    refine ⟨?_, ?_, ?_, ?_, ?_, ?_, ?_⟩
    · intro C sizeofT id settings now
      unfold attach
      split_ifs
      · exact h
      · exact h
      · exact h
      · exact h
      · exact ringInv_of N ch _ h (Or.inl rfl)
          (fun k => update_tail_cases ch.tails _ _ k N h.1)
      · exact h
    · intro C b now tmo res b1 ch1 hp
      have hf := prepare_loop_frame N ((ch.head + 1) % N) now tmo b.settings.overflow_policy
        C 0 { ch with write_lock := true }
      have ht := prepare_loop_tails_lt N ((ch.head + 1) % N) now tmo hN
        b.settings.overflow_policy C 0 { ch with write_lock := true } h.2
      have hhead : (prepare_loop N b.settings.overflow_policy ((ch.head + 1) % N) now tmo C 0
          { ch with write_lock := true }).2.head = ch.head := by rw [hf]
      cases res with
      | none =>
        obtain ⟨_, _, _, hc⟩ := prepare_publish_full N C b ch now tmo b1 ch1 hp
        rw [hc]
        exact ⟨by show _ < N; rw [hhead]; exact h.1, ht⟩
      | some p =>
        obtain ⟨_, _, _, _, hc⟩ := prepare_publish_handle N C b ch now tmo p b1 ch1 hp
        rw [hc]
        exact ⟨by show _ < N; rw [hhead]; exact h.1, ht⟩
    · intro b
      cases hp : b.pending_slot with
      | none =>
        have : commit_publish N b ch = (b, ch) := by simp [commit_publish, hp]
        rw [this]
        exact h
      | some p =>
        rw [commit_publish_pending N b ch p hp]
        exact ⟨Nat.mod_lt _ (by omega), h.2⟩
    · intro b now
      rw [peek_eq_racing]
      exact ringInv_peek_racing N hN b ch now _ _ h
    · intro b now ready seq_after
      exact ringInv_peek_racing N hN b ch now ready seq_after h
    · intro b now
      exact ringInv_release N hN b ch now h
    · intro C id
      unfold force_disconnect_consumer
      split_ifs
      · exact h
      · exact h

/-- Witness for C20 with `N = 4`: the created channel satisfies the invariant,
and so does the drained sample after the mismatch path of `peek` has called
`release` (tail 1 becomes 2). -/
theorem ring_invariant_witness :
    1 ≤ 4 ∧
      RingInv 4 (create 4 8 7 (0 : Nat) (sampleSettings OverflowPolicy.BLOCK 10000)).2 ∧
      RingInv 4 sampleReadable ∧
      (peek_racing 4 (sampleConsumer 0 7) sampleReadable 50 true 9).2.2.tails 0 = 2 ∧
      RingInv 4 (peek_racing 4 (sampleConsumer 0 7) sampleReadable 50 true 9).2.2 := by
  have hs : RingInv 4 sampleReadable := ⟨by decide, fun _ => (by decide : (1 : Nat) < 4)⟩
  have hw := ring_invariant (T := Nat) 4 (by decide)
  exact ⟨by decide, hw.1 8 7 0 _, hs, by decide,
    (hw.2 sampleReadable hs).2.2.2.2.1 (sampleConsumer 0 7) 50 true 9⟩

end Ring

/-! ## A call of prepare_publish that finds the ring full -/

section Full

variable {T : Type}

theorem exists_first (P : Nat → Prop) (h : ∃ j, P j) :
    ∃ j, P j ∧ ∀ i, i < j → ¬ P i := by
  classical
  exact ⟨Nat.find h, Nat.find_spec h, fun i hi => Nat.find_min h hi⟩

theorem full_of_result (N C : Nat) (b : Broker) (ch : SharedChannel T) (now tmo : Int)
    (h : (prepare_publish N C b ch now tmo).map (fun r => r.1) = some none) :
    ∃ b1 ch1, prepare_publish N C b ch now tmo = some (none, b1, ch1) := by
  cases hp : prepare_publish N C b ch now tmo with
  | none => rw [hp] at h; cases h
  | some r =>
    obtain ⟨res, b1, ch1⟩ := r
    rw [hp] at h
    simp only [Option.map_some', Option.some.injEq] at h
    subst h
    exact ⟨b1, ch1, rfl⟩

/-- C22. When `prepare_publish` returns `nullptr`, the producer object, the
head, every tail, every heartbeat, every slot (sequence, state, payload) and
the header fields are what they were and the write lock is free.  The scan
stopped at a consumer `j < C`, the first one that is registered with its tail
on `(head + 1) mod N` and a heartbeat no older than the timeout; a flag
`slot_active[k]` that differs from before was true and is false, and `k` is
below `j`, had its tail on `(head + 1) mod N` and a heartbeat older than the
timeout.  Every such `k` below `j` has lost its flag. -/
theorem prepare_publish_full_frame (N C : Nat) (b : Broker) (ch : SharedChannel T)
    (now tmo : Int) (b1 : Broker) (ch1 : SharedChannel T)
    (h : prepare_publish N C b ch now tmo = some (none, b1, ch1)) :
    b1 = b ∧ ch1.head = ch.head ∧ ch1.tails = ch.tails ∧ ch1.heartbeats = ch.heartbeats ∧
      ch1.slots = ch.slots ∧ ch1.write_lock = false ∧
      ch1.magic = ch.magic ∧ ch1.version = ch.version ∧ ch1.struct_size = ch.struct_size ∧
      ch1.buffer_capacity = ch.buffer_capacity ∧ ch1.producer_epoch = ch.producer_epoch ∧
      ∃ j, j < C ∧ ch.slot_active j = true ∧ ch.tails j = (ch.head + 1) % N ∧
        now - ch.heartbeats j ≤ tmo ∧
        (∀ i, i < j → ¬ (ch.slot_active i = true ∧ ch.tails i = (ch.head + 1) % N ∧
            now - ch.heartbeats i ≤ tmo)) ∧
        (∀ k, ch1.slot_active k ≠ ch.slot_active k →
          ch.slot_active k = true ∧ ch1.slot_active k = false ∧ k < j ∧
            ch.tails k = (ch.head + 1) % N ∧ now - ch.heartbeats k > tmo) ∧
        ∀ k, k < j → ch.slot_active k = true → ch.tails k = (ch.head + 1) % N →
          now - ch.heartbeats k > tmo → ch1.slot_active k = false := by
  obtain ⟨_, hb, hfull1, hc⟩ := prepare_publish_full N C b ch now tmo b1 ch1 h
  have hpol : b.settings.overflow_policy = OverflowPolicy.BLOCK := by
    cases hp : b.settings.overflow_policy with
    | BLOCK => rfl
    | OVERWRITE_OLD =>
      rw [hp, prepare_loop_overwrite_full] at hfull1
      cases hfull1
  rw [hpol] at hc hfull1
  have hf := prepare_loop_frame N ((ch.head + 1) % N) now tmo OverflowPolicy.BLOCK C 0
    { ch with write_lock := true }
  have htl := prepare_loop_block_tails N ((ch.head + 1) % N) now tmo C 0
    { ch with write_lock := true }
  have hact := prepare_loop_block_active N ((ch.head + 1) % N) now tmo C 0
    { ch with write_lock := true }
  have hex := (prepare_loop_block_full N ((ch.head + 1) % N) now tmo C 0
    { ch with write_lock := true }).mp hfull1
  obtain ⟨j, ⟨_, hjC, hja, hjt, hjd⟩, hmin⟩ := exists_first _ hex
  subst hc
  refine ⟨hb, ?_, htl, ?_, ?_, rfl, ?_, ?_, ?_, ?_, ?_, j, by omega, hja, hjt.symm, hjd,
    ?_, ?_, ?_⟩
  · show (prepare_loop N OverflowPolicy.BLOCK ((ch.head + 1) % N) now tmo C 0
      { ch with write_lock := true }).2.head = ch.head
    rw [hf]
  · show (prepare_loop N OverflowPolicy.BLOCK ((ch.head + 1) % N) now tmo C 0
      { ch with write_lock := true }).2.heartbeats = ch.heartbeats
    rw [hf]
  · show (prepare_loop N OverflowPolicy.BLOCK ((ch.head + 1) % N) now tmo C 0
      { ch with write_lock := true }).2.slots = ch.slots
    rw [hf]
  · show (prepare_loop N OverflowPolicy.BLOCK ((ch.head + 1) % N) now tmo C 0
      { ch with write_lock := true }).2.magic = ch.magic
    rw [hf]
  · show (prepare_loop N OverflowPolicy.BLOCK ((ch.head + 1) % N) now tmo C 0
      { ch with write_lock := true }).2.version = ch.version
    rw [hf]
  · show (prepare_loop N OverflowPolicy.BLOCK ((ch.head + 1) % N) now tmo C 0
      { ch with write_lock := true }).2.struct_size = ch.struct_size
    rw [hf]
  · show (prepare_loop N OverflowPolicy.BLOCK ((ch.head + 1) % N) now tmo C 0
      { ch with write_lock := true }).2.buffer_capacity = ch.buffer_capacity
    rw [hf]
  · show (prepare_loop N OverflowPolicy.BLOCK ((ch.head + 1) % N) now tmo C 0
      { ch with write_lock := true }).2.producer_epoch = ch.producer_epoch
    rw [hf]
  · intro i hi hbl
    exact hmin i hi ⟨Nat.zero_le i, by omega, hbl.1, hbl.2.1.symm, hbl.2.2⟩
  · intro k hk
    have hk1 : (prepare_loop N OverflowPolicy.BLOCK ((ch.head + 1) % N) now tmo C 0
        { ch with write_lock := true }).2.slot_active k ≠ ch.slot_active k := hk
    cases hnew : (prepare_loop N OverflowPolicy.BLOCK ((ch.head + 1) % N) now tmo C 0
        { ch with write_lock := true }).2.slot_active k with
    | true =>
      exact absurd (hnew.trans ((hact k).mp hnew).1.symm) hk1
    | false =>
      cases hold : ch.slot_active k with
      | false => exact absurd (hnew.trans hold.symm) hk1
      | true =>
        have hgone : ¬ (prepare_loop N OverflowPolicy.BLOCK ((ch.head + 1) % N) now tmo C 0
            { ch with write_lock := true }).2.slot_active k = true := by
          rw [hnew]; exact Bool.false_ne_true
        have hst : 0 ≤ k ∧ k < 0 + C ∧
            stale { ch with write_lock := true } ((ch.head + 1) % N) now tmo k ∧
            ∀ j, 0 ≤ j → j < k →
              ¬ blocking { ch with write_lock := true } ((ch.head + 1) % N) now tmo j := by
          by_contra hn
          exact hgone ((hact k).mpr ⟨hold, hn⟩)
        obtain ⟨_, _, hs, hall⟩ := hst
        have hkj : k < j := by
          rcases Nat.lt_trichotomy k j with hlt | heq | hgt
          · exact hlt
          · subst heq
            exact absurd ⟨hja, hjt, hjd⟩ (stale_not_blocking _ now tmo _ k hs)
          · exact absurd ⟨hja, hjt, hjd⟩ (hall j (Nat.zero_le j) hgt)
        exact ⟨rfl, rfl, hkj, hs.2.1.symm, hs.2.2⟩
  · intro k hkj ha ht hd
    have hnot : ¬ (prepare_loop N OverflowPolicy.BLOCK ((ch.head + 1) % N) now tmo C 0
        { ch with write_lock := true }).2.slot_active k = true := by
      intro hk
      exact ((hact k).mp hk).2 ⟨Nat.zero_le k, by omega, ⟨ha, ht.symm, hd⟩,
        fun i _ hi hbl => hmin i (by omega) ⟨Nat.zero_le i, by omega, hbl⟩⟩
    simpa using hnot

/-- Witness for C22: head 0, consumers 0 and 1 both on slot 1; at time 1000
with timeout 500 consumer 0 (heartbeat 0) is stale and consumer 1 (heartbeat
900) is live.  The call returns `nullptr`; consumer 0 has lost its flag,
consumer 1 keeps it, and head, tails, heartbeats, slots and lock are as
before. -/
theorem prepare_publish_full_frame_witness :
    ∃ b1 ch1, prepare_publish 4 16 (sampleProducer OverflowPolicy.BLOCK 10000)
        sampleStaleFirst 1000 500 = some (none, b1, ch1) ∧
      ch1.slot_active 0 = false ∧ ch1.slot_active 1 = true ∧
      ch1.head = 0 ∧ ch1.tails = sampleStaleFirst.tails ∧
      ch1.heartbeats = sampleStaleFirst.heartbeats ∧ ch1.slots = sampleStaleFirst.slots ∧
      ch1.write_lock = false := by
  obtain ⟨b1, ch1, h⟩ := full_of_result 4 16 (sampleProducer OverflowPolicy.BLOCK 10000)
    sampleStaleFirst 1000 500 (by decide)
  have hw := prepare_publish_full_frame 4 16 _ _ 1000 500 b1 ch1 h
  obtain ⟨_, hhead, htl, hhb, hsl, hlk, _, _, _, _, _, j, _, _, _, _, hmin, hchg, hev⟩ := hw
  have hj0 : j ≠ 0 := by
    rintro rfl
    revert ‹1000 - sampleStaleFirst.heartbeats 0 ≤ 500›
    decide
  have hj1 : ¬ 1 < j := fun hlt => hmin 1 hlt (by decide)
  have hj : j = 1 := by omega
  subst hj
  refine ⟨b1, ch1, h, hev 0 (by decide) rfl rfl (by decide), ?_, hhead, htl, hhb, hsl, hlk⟩
  by_contra hne
  have := (hchg 1 (by rw [show sampleStaleFirst.slot_active 1 = true from rfl]; exact hne)).2.2.1
  omega

end Full

/-! ## A release that no view preceded -/

section Unmatched

theorem succ_mod_ne (N h : Nat) (hN : 2 ≤ N) : (h + 1) % N ≠ h := by
  intro he
  have hlt : (h + 1) % N < N := Nat.mod_lt _ (by omega)
  have hh : h < N := by omega
  rcases Nat.lt_or_ge (h + 1) N with h1 | h1
  · rw [Nat.mod_eq_of_lt h1] at he
    omega
  · have h2 : h + 1 = N := by omega
    rw [h2, Nat.mod_self] at he
    omega

/-- C23. `release` does not look at the head.  For every capacity `N ≥ 2`, a
`release` called while `tails[self] = head` leaves the head alone and stores
`(head + 1) mod N` into `tails[self]`, which is not the head, so the emptiness
test of `peek` fails from then on.  And there is such a state that one
producer and one consumer reach on a ring of two slots: 5 and 6 have been
published, read and released, so the head has come back to slot 0, the
consumer holds no view and its `peek` returns `nullptr`; after one more
`release` its `peek` returns the view of slot 1, whose record 6 this consumer
has been handed before. -/
theorem release_unmatched :
    (∀ (T : Type) (N : Nat) (b : Broker) (ch : SharedChannel T) (now : Int), 2 ≤ N →
        ch.tails b.self = ch.head →
        (release N b ch now).head = ch.head ∧
          (release N b ch now).tails b.self = (ch.head + 1) % N ∧
          (release N b ch now).tails b.self ≠ (release N b ch now).head) ∧
      ∃ (s0 : Sys Nat) (es : List (Step Nat)) (s : Sys Nat),
        init 2 16 8 7 0 (sampleSettings OverflowPolicy.BLOCK 10000)
            (sampleSettings OverflowPolicy.BLOCK 10000) 0 0 = some s0 ∧
          run 2 16 s0 es = some s ∧
          2 ≤ s.committed.length ∧
          s.delivered = s.committed ∧
          s.holding = false ∧
          s.ch.slot_active s.cons.self = true ∧
          s.ch.tails s.cons.self = s.ch.head ∧
          (peek 2 s.cons s.ch 80).1 = PeekResult.empty ∧
          ∃ i, (peek 2 s.cons (release 2 s.cons s.ch 80) 90).1 = PeekResult.view i ∧
            ((peek 2 s.cons (release 2 s.cons s.ch 80) 90).2.2.slots i).data ∈ s.delivered := by
  refine ⟨?_, ?_⟩
  · intro T N b ch now hN hempty
    refine ⟨rfl, ?_, ?_⟩
    · rw [release_eq]
      show Function.update ch.tails b.self ((ch.tails b.self + 1) % N) b.self = _
      rw [Function.update_same, hempty]
    · rw [release_eq]
      show Function.update ch.tails b.self ((ch.tails b.self + 1) % N) b.self ≠ ch.head
      rw [Function.update_same, hempty]
      exact succ_mod_ne N ch.head hN
  · refine ⟨sampleInit 2 OverflowPolicy.BLOCK, drainedTwice,
      sampleAfter 2 OverflowPolicy.BLOCK drainedTwice,
      some_getD_of_isSome _ sampleIdle (by decide),
      some_getD_of_isSome _ sampleIdle (by decide), ?_, ?_, ?_, ?_, ?_, ?_, 1, ?_, ?_⟩ <;>
    decide

/-- Witness for C23 on the drained sample with `N = 4`: consumer 0 has its
tail on the head, slot 1; after `release` its tail is slot 2. -/
theorem release_unmatched_witness :
    (2 : Nat) ≤ 4 ∧ sampleDrained.tails (sampleConsumer 0 7).self = sampleDrained.head ∧
      (release 4 (sampleConsumer 0 7) sampleDrained 50).tails (sampleConsumer 0 7).self = 2 ∧
      (release 4 (sampleConsumer 0 7) sampleDrained 50).tails (sampleConsumer 0 7).self ≠
        (release 4 (sampleConsumer 0 7) sampleDrained 50).head :=
  ⟨by decide, rfl,
    (release_unmatched.1 Nat 4 (sampleConsumer 0 7) sampleDrained 50 (by decide) rfl).2.1,
    (release_unmatched.1 Nat 4 (sampleConsumer 0 7) sampleDrained 50 (by decide) rfl).2.2⟩

end Unmatched

/-! ## Slot life cycle -/

section Lifecycle

variable {T : Type}

theorem slotsLegal_of_slots_eq (ch ch1 : SharedChannel T) (h : ch1.slots = ch.slots) :
    SlotsLegal none ch ch1 := by
  intro i
  rw [h]
  exact ⟨le_refl _, fun hs => hs, fun hc => (by cases hc), fun _ => rfl,
    fun hr hn => absurd hr hn⟩

theorem pendingWriting_of_slots_eq (p : Broker) (ch ch1 : SharedChannel T)
    (h : ch1.slots = ch.slots) (hp : PendingWriting p ch) : PendingWriting p ch1 := by
  intro q hq
  rw [h]
  exact hp q hq

theorem prepare_publish_slots (N C : Nat) (b : Broker) (ch : SharedChannel T)
    (now tmo : Int) (res : Option Nat) (b1 : Broker) (ch1 : SharedChannel T)
    (h : prepare_publish N C b ch now tmo = some (res, b1, ch1)) :
    (res = none ∧ b1 = b ∧ ch1.slots = ch.slots) ∨
      (res = some ch.head ∧ b1 = { b with pending_slot := some ch.head } ∧
        ch1.slots = Function.update ch.slots ch.head
          { ch.slots ch.head with state := SlotState.WRITING }) := by
  have hf := prepare_loop_frame N ((ch.head + 1) % N) now tmo b.settings.overflow_policy C 0
    { ch with write_lock := true }
  cases res with
  | none =>
    obtain ⟨_, hb, _, hc⟩ := prepare_publish_full N C b ch now tmo b1 ch1 h
    refine Or.inl ⟨rfl, hb, ?_⟩
    rw [hc]
    show (prepare_loop N b.settings.overflow_policy ((ch.head + 1) % N) now tmo C 0
      { ch with write_lock := true }).2.slots = ch.slots
    rw [hf]
  | some p =>
    obtain ⟨_, hp, hb, _, hc⟩ := prepare_publish_handle N C b ch now tmo p b1 ch1 h
    refine Or.inr ⟨by rw [hp], hb, ?_⟩
    rw [hc]

theorem prepare_publish_legal (N C : Nat) (b : Broker) (ch : SharedChannel T)
    (now tmo : Int) (res : Option Nat) (b1 : Broker) (ch1 : SharedChannel T)
    (h : prepare_publish N C b ch now tmo = some (res, b1, ch1)) :
    SlotsLegal none ch ch1 ∧ (PendingWriting b ch → PendingWriting b1 ch1) := by
  rcases prepare_publish_slots N C b ch now tmo res b1 ch1 h with
    ⟨_, hb, hs⟩ | ⟨_, hb, hs⟩
  · refine ⟨slotsLegal_of_slots_eq ch ch1 hs, fun hp => ?_⟩
    rw [hb]
    exact pendingWriting_of_slots_eq b ch ch1 hs hp
  · refine ⟨fun i => ?_, fun _ q hq => ?_⟩
    · rw [hs]
      by_cases hi : i = ch.head
      · subst hi
        rw [Function.update_same]
        exact ⟨le_refl _, fun _ hf => (by cases hf), fun hc => (by cases hc), fun _ => rfl,
          fun hr => (by cases hr)⟩
      · rw [Function.update_noteq hi]
        exact ⟨le_refl _, fun hs => hs, fun hc => (by cases hc), fun _ => rfl,
          fun hr hn => absurd hr hn⟩
    · rw [hb] at hq
      simp only [Option.some.injEq] at hq
      subst hq
      rw [hs, Function.update_same]

theorem commit_publish_legal (N : Nat) (b : Broker) (ch : SharedChannel T)
    (hpw : PendingWriting b ch) :
    SlotsLegal b.pending_slot ch (commit_publish N b ch).2 ∧
      PendingWriting (commit_publish N b ch).1 (commit_publish N b ch).2 := by
  cases hp : b.pending_slot with
  | none =>
    have hc : commit_publish N b ch = (b, ch) := by simp [commit_publish, hp]
    rw [hc]
    exact ⟨slotsLegal_of_slots_eq ch ch rfl, hpw⟩
  | some p =>
    rw [commit_publish_pending N b ch p hp]
    refine ⟨fun i => ?_, fun q hq => by cases hq⟩
    show SlotLegal (some p = some i) (ch.slots i)
      (Function.update ch.slots p
        { sequence := (ch.slots p).sequence + 1, state := SlotState.READY,
          data := (ch.slots p).data } i)
    by_cases hi : i = p
    · subst hi
      rw [Function.update_same]
      exact ⟨Nat.le_succ _, fun _ hf => (by cases hf), fun _ => rfl,
        fun hn => absurd rfl hn, fun _ _ => hpw i hp⟩
    · rw [Function.update_noteq hi]
      have hne : ¬ (some p = some i) := fun he => hi (Option.some.inj he).symm
      exact ⟨le_refl _, fun hs => hs, fun hc => absurd hc hne, fun _ => rfl,
        fun hr hn => absurd hr hn⟩

theorem peek_racing_slots (N : Nat) (b : Broker) (ch : SharedChannel T) (now : Int)
    (ready : Bool) (seq_after : Nat) :
    (peek_racing N b ch now ready seq_after).2.2.slots = ch.slots := by
  simp only [peek_racing]
  split_ifs <;> rfl

theorem peek_slots (N : Nat) (b : Broker) (ch : SharedChannel T) (now : Int) :
    (peek N b ch now).2.2.slots = ch.slots := by
  rw [peek_eq_racing]
  exact peek_racing_slots N b ch now _ _

theorem attach_slots (C sizeofT : Nat) (id : Int) (settings : BrokerSettings)
    (ch : SharedChannel T) (now : Int) :
    (channel_after ch (attach C sizeofT id settings ch now)).slots = ch.slots := by
  unfold attach
  split_ifs <;> rfl

theorem attach_pending (C sizeofT : Nat) (id : Int) (settings : BrokerSettings)
    (ch : SharedChannel T) (now : Int) (b1 : Broker) (ch1 : SharedChannel T)
    (h : attach C sizeofT id settings ch now = Except.ok (b1, ch1)) :
    b1.pending_slot = none := by
  unfold attach at h
  split_ifs at h
  all_goals
    cases h
    try rfl

theorem force_disconnect_slots (C : Nat) (id : Int) (ch : SharedChannel T) :
    (force_disconnect_consumer C id ch).slots = ch.slots := by
  unfold force_disconnect_consumer
  split_ifs <;> rfl

theorem fill_legal (ch : SharedChannel T) (p : Nat) (r : T) :
    SlotsLegal none ch (fill ch p r) ∧
      ∀ q : Broker, PendingWriting q ch → PendingWriting q (fill ch p r) := by
  have hslot : ∀ i, ((fill ch p r).slots i).sequence = (ch.slots i).sequence ∧
      ((fill ch p r).slots i).state = (ch.slots i).state := by
    intro i
    by_cases hi : i = p
    · subst hi
      simp only [fill, Function.update_same, and_self]
    · simp only [fill, Function.update_noteq hi, and_self]
  refine ⟨fun i => ?_, fun q hq k hk => ?_⟩
  · obtain ⟨h1, h2⟩ := hslot i
    refine ⟨by rw [h1], fun hs => (by rw [h2]; exact hs), fun hc => (by cases hc),
      fun _ => h1, fun hr hn => ?_⟩
    rw [h2] at hr
    exact absurd hr hn
  · rw [(hslot k).2]
    exact hq k hk

theorem slotsKept_of_slots_eq (ch ch1 : SharedChannel T) (h : ch1.slots = ch.slots) :
    SlotsKept ch ch1 :=
  ⟨slotsLegal_of_slots_eq ch ch1 h, fun p hp => pendingWriting_of_slots_eq p ch ch1 h hp⟩

/-- C21. Every `Broker` object starts without a pointer (`create`, `attach`),
and a pointer it holds refers to a slot in state WRITING: `prepare_publish`
keeps that true and `commit_publish` drops the pointer.  Across each operation
on a channel `ch` (the attaching constructor, thrown or not,
`prepare_publish` whatever it returns, a write through the pointer,
`commit_publish`, `peek`, also when the slot is written during the call,
`release`, `force_disconnect_consumer`) and for every slot: the sequence does
not go down and a state other than FREE does not become FREE; the sequence is
what it was, except for the slot `commit_publish` has its pointer on, where it
is one more; and a slot that is READY afterwards and was not before was
WRITING. -/
theorem slot_lifecycle (N : Nat) (ch : SharedChannel T) :
    (∀ (sizeofT epoch : Nat) (blank : T) (pset : BrokerSettings),
        PendingWriting (create N sizeofT epoch blank pset).1
          (create N sizeofT epoch blank pset).2) ∧
      (∀ (C sizeofT : Nat) (id : Int) (settings : BrokerSettings) (now : Int),
        SlotsKept ch (channel_after ch (attach C sizeofT id settings ch now)) ∧
          ∀ (b1 : Broker) (ch1 : SharedChannel T),
            attach C sizeofT id settings ch now = Except.ok (b1, ch1) →
              PendingWriting b1 ch1) ∧
      (∀ (C : Nat) (b : Broker) (now tmo : Int) (res : Option Nat) (b1 : Broker)
          (ch1 : SharedChannel T),
        prepare_publish N C b ch now tmo = some (res, b1, ch1) →
          SlotsLegal none ch ch1 ∧ (PendingWriting b ch → PendingWriting b1 ch1)) ∧
      (∀ (p : Nat) (r : T), SlotsKept ch (fill ch p r)) ∧
      (∀ b : Broker, PendingWriting b ch →
        SlotsLegal b.pending_slot ch (commit_publish N b ch).2 ∧
          PendingWriting (commit_publish N b ch).1 (commit_publish N b ch).2) ∧
      (∀ (b : Broker) (now : Int), SlotsKept ch (peek N b ch now).2.2) ∧
      (∀ (b : Broker) (now : Int) (ready : Bool) (seq_after : Nat),
        SlotsKept ch (peek_racing N b ch now ready seq_after).2.2) ∧
      (∀ (b : Broker) (now : Int), SlotsKept ch (release N b ch now)) ∧
      (∀ (C : Nat) (id : Int), SlotsKept ch (force_disconnect_consumer C id ch)) := by
  refine ⟨?_, ?_, ?_, ?_, ?_, ?_, ?_, ?_, ?_⟩
  · intro sizeofT epoch blank pset p hp
    cases hp
  · intro C sizeofT id settings now
    refine ⟨slotsKept_of_slots_eq _ _ (attach_slots C sizeofT id settings ch now), ?_⟩
    intro b1 ch1 h p hp
    rw [attach_pending C sizeofT id settings ch now b1 ch1 h] at hp
    cases hp
  · intro C b now tmo res b1 ch1 h
    exact prepare_publish_legal N C b ch now tmo res b1 ch1 h
  · intro p r
    exact fill_legal ch p r
  · intro b hpw
    exact commit_publish_legal N b ch hpw
  · intro b now
    exact slotsKept_of_slots_eq _ _ (peek_slots N b ch now)
  · intro b now ready seq_after
    exact slotsKept_of_slots_eq _ _ (peek_racing_slots N b ch now ready seq_after)
  · intro b now
    exact slotsKept_of_slots_eq _ _ rfl
  · intro C id
    exact slotsKept_of_slots_eq _ _ (force_disconnect_slots C id ch)

/-- Witness for C21: on the sample with head 0 the OVERWRITE_OLD producer, which
holds no pointer, is handed slot 0; the slot is WRITING and keeps its sequence
0; `commit_publish` makes the sequence 1 and the state READY, and leaves the
sequence of slot 1 at 0. -/
theorem slot_lifecycle_witness :
    PendingWriting (sampleProducer OverflowPolicy.OVERWRITE_OLD 10000) sampleBlocked ∧
      ∃ b1 ch1, prepare_publish 4 16 (sampleProducer OverflowPolicy.OVERWRITE_OLD 10000)
          sampleBlocked 100 2000 = some (some 0, b1, ch1) ∧
        PendingWriting b1 ch1 ∧ b1.pending_slot = some 0 ∧
        (ch1.slots 0).sequence = 0 ∧ (ch1.slots 0).state = SlotState.WRITING ∧
        ((commit_publish 4 b1 ch1).2.slots 0).sequence = 1 ∧
        ((commit_publish 4 b1 ch1).2.slots 0).state = SlotState.READY ∧
        ((commit_publish 4 b1 ch1).2.slots 1).sequence = 0 := by
  have hp0 : PendingWriting (sampleProducer OverflowPolicy.OVERWRITE_OLD 10000) sampleBlocked :=
    fun p hp => by cases hp
  obtain ⟨b1, ch1, h⟩ :=
    prepare_publish_overwrite_returns 4 16 (sampleProducer OverflowPolicy.OVERWRITE_OLD 10000)
      sampleBlocked 100 2000 rfl rfl
  obtain ⟨_, _, hb1, _, hch1⟩ := prepare_publish_handle 4 16 _ _ 100 2000 _ b1 ch1 h
  have hpend : b1.pending_slot = some 0 := by rw [hb1]; rfl
  obtain ⟨hleg, hpw⟩ :=
    (slot_lifecycle 4 sampleBlocked).2.2.1 16 _ 100 2000 _ b1 ch1 h
  have hpw1 := hpw hp0
  have hseq0 : (ch1.slots 0).sequence = 0 := (hleg 0).2.2.2.1 (fun hc => by cases hc)
  have hc := ((slot_lifecycle 4 ch1).2.2.2.2.1 b1 hpw1).1
  have hst : ((commit_publish 4 b1 ch1).2.slots 0).state = SlotState.READY := by
    simp only [commit_publish_pending 4 b1 ch1 0 hpend, Function.update_same]
  have h0 := (hc 0).2.2.1 hpend
  have h1 := (hc 1).2.2.2.1 (by rw [hpend]; decide)
  have hseq1 : (ch1.slots 1).sequence = 0 := (hleg 1).2.2.2.1 (fun hc => by cases hc)
  exact ⟨hp0, b1, ch1, h, hpw1, hpend, hseq0, hpw1 0 hpend, by rw [h0, hseq0],
    hst, by rw [h1, hseq1]⟩

theorem step_sequence_le (N C : Nat) (s s1 : Sys T) (e : Step T)
    (hstep : step N C s e = some s1)
    (h : ∀ i, (s.ch.slots i).sequence ≤ s.committed.length) :
    ∀ i, (s1.ch.slots i).sequence ≤ s1.committed.length := by
  cases e with
  | prepare now tmo =>
    simp only [step] at hstep
    cases hpp : prepare_publish N C s.prod s.ch now tmo with
    | none => rw [hpp] at hstep; cases hstep
    | some r =>
      obtain ⟨res, b1, ch1⟩ := r
      rw [hpp] at hstep
      simp only [Option.some.injEq] at hstep
      subst hstep
      intro i
      have hl := (prepare_publish_legal N C s.prod s.ch now tmo res b1 ch1 hpp).1 i
      show (ch1.slots i).sequence ≤ s.committed.length
      rw [hl.2.2.2.1 (fun hc => by cases hc)]
      exact h i
  | fill r =>
    simp only [step] at hstep
    cases hp : s.prod.pending_slot with
    | none => rw [hp] at hstep; cases hstep
    | some p =>
      rw [hp] at hstep
      simp only [Option.some.injEq] at hstep
      subst hstep
      intro i
      show ((fill s.ch p r).slots i).sequence ≤ s.committed.length
      rw [((fill_legal s.ch p r).1 i).2.2.2.1 (fun hc => by cases hc)]
      exact h i
  | commit =>
    simp only [step] at hstep
    cases hp : s.prod.pending_slot with
    | none => rw [hp] at hstep; cases hstep
    | some p =>
      rw [hp] at hstep
      simp only [Option.some.injEq] at hstep
      subst hstep
      intro i
      show (((commit_publish N s.prod s.ch).2).slots i).sequence
        ≤ (s.committed ++ [(s.ch.slots p).data]).length
      rw [commit_publish_pending N s.prod s.ch p hp, List.length_append, List.length_singleton]
      show ((Function.update s.ch.slots p _ i)).sequence ≤ s.committed.length + 1
      by_cases hi : i = p
      · subst hi
        rw [Function.update_same]
        exact Nat.succ_le_succ (h i)
      · rw [Function.update_noteq hi]
        exact Nat.le_succ_of_le (h i)
  | peek now =>
    simp only [step] at hstep
    by_cases hh : s.holding = true
    · rw [if_pos hh] at hstep; cases hstep
    · rw [if_neg hh] at hstep
      have hsl := peek_slots N s.cons s.ch now
      cases hpk : peek N s.cons s.ch now with
      | mk res rest =>
        obtain ⟨b, ch⟩ := rest
        rw [hpk] at hstep hsl
        have hsl2 : ch.slots = s.ch.slots := hsl
        cases res <;>
        · simp only [Option.some.injEq] at hstep
          subst hstep
          intro i
          show (ch.slots i).sequence ≤ s.committed.length
          rw [hsl2]
          exact h i
  | release now =>
    simp only [step] at hstep
    by_cases hh : s.holding = true
    · rw [if_pos hh] at hstep
      simp only [Option.some.injEq] at hstep
      subst hstep
      exact h
    · rw [if_neg hh] at hstep; cases hstep

/-- In every state that a producer and a consumer reach from a fresh channel,
a slot's sequence is at most the number of commits so far: the 64-bit counter
of the source cannot wrap in fewer than `2^64` publications. -/
theorem sequence_le_committed (N C sizeofT epoch : Nat) (blank : T)
    (pset cset : BrokerSettings) (cid : Nat) (now0 : Int) (s0 : Sys T)
    (hinit : init N C sizeofT epoch blank pset cset cid now0 = some s0)
    (es : List (Step T)) (s : Sys T) (hrun : run N C s0 es = some s) :
    ∀ i, (s.ch.slots i).sequence ≤ s.committed.length := by
  have h0 : ∀ i, (s0.ch.slots i).sequence ≤ s0.committed.length := by
    unfold init at hinit
    have hsl := attach_slots C sizeofT (cid : Int) cset
      (create N sizeofT epoch blank pset).2 now0
    cases hatt : attach C sizeofT (cid : Int) cset (create N sizeofT epoch blank pset).2 now0 with
    | error err =>
      rw [hatt] at hinit
      cases hinit
    | ok r =>
      obtain ⟨c, ch1⟩ := r
      rw [hatt] at hinit hsl
      simp only [attached, Option.some.injEq] at hinit
      subst hinit
      have hsl2 : ch1.slots = (create N sizeofT epoch blank pset).2.slots := hsl
      intro i
      show (ch1.slots i).sequence ≤ 0
      rw [hsl2]
      exact Nat.le_refl 0
  clear hinit
  induction es generalizing s0 with
  | nil =>
    simp only [run, Option.some.injEq] at hrun
    subst hrun
    exact h0
  | cons e es ih =>
    simp only [run] at hrun
    cases hs : step N C s0 e with
    | none => rw [hs] at hrun; cases hrun
    | some s2 =>
      rw [hs] at hrun
      exact ih s2 hrun (step_sequence_le N C s0 s2 e hs h0)

theorem step_pendingWriting (N C : Nat) (s s1 : Sys T) (e : Step T)
    (hstep : step N C s e = some s1) (h : PendingWriting s.prod s.ch) :
    PendingWriting s1.prod s1.ch := by
  cases e with
  | prepare now tmo =>
    simp only [step] at hstep
    cases hpp : prepare_publish N C s.prod s.ch now tmo with
    | none => rw [hpp] at hstep; cases hstep
    | some r =>
      obtain ⟨res, b1, ch1⟩ := r
      rw [hpp] at hstep
      simp only [Option.some.injEq] at hstep
      subst hstep
      exact (prepare_publish_legal N C s.prod s.ch now tmo res b1 ch1 hpp).2 h
  | fill r =>
    simp only [step] at hstep
    cases hp : s.prod.pending_slot with
    | none => rw [hp] at hstep; cases hstep
    | some p =>
      rw [hp] at hstep
      simp only [Option.some.injEq] at hstep
      subst hstep
      exact (fill_legal s.ch p r).2 s.prod h
  | commit =>
    simp only [step] at hstep
    cases hp : s.prod.pending_slot with
    | none => rw [hp] at hstep; cases hstep
    | some p =>
      rw [hp] at hstep
      simp only [Option.some.injEq] at hstep
      subst hstep
      exact (commit_publish_legal N s.prod s.ch h).2
  | peek now =>
    simp only [step] at hstep
    by_cases hh : s.holding = true
    · rw [if_pos hh] at hstep; cases hstep
    · rw [if_neg hh] at hstep
      have hsl := peek_slots N s.cons s.ch now
      cases hpk : peek N s.cons s.ch now with
      | mk res rest =>
        obtain ⟨b, ch⟩ := rest
        rw [hpk] at hstep hsl
        have hsl2 : ch.slots = s.ch.slots := hsl
        cases res <;>
        · simp only [Option.some.injEq] at hstep
          subst hstep
          exact pendingWriting_of_slots_eq s.prod s.ch ch hsl2 h
  | release now =>
    simp only [step] at hstep
    by_cases hh : s.holding = true
    · rw [if_pos hh] at hstep
      simp only [Option.some.injEq] at hstep
      subst hstep
      exact h
    · rw [if_neg hh] at hstep; cases hstep

/-- In every state that a producer and a consumer reach from a fresh channel,
the pointer the producer holds refers to a slot in state WRITING. -/
theorem pendingWriting_reachable (N C sizeofT epoch : Nat) (blank : T)
    (pset cset : BrokerSettings) (cid : Nat) (now0 : Int) (s0 : Sys T)
    (hinit : init N C sizeofT epoch blank pset cset cid now0 = some s0)
    (es : List (Step T)) (s : Sys T) (hrun : run N C s0 es = some s) :
    PendingWriting s.prod s.ch := by
  have h0 : PendingWriting s0.prod s0.ch := by
    unfold init at hinit
    cases hatt : attach C sizeofT (cid : Int) cset (create N sizeofT epoch blank pset).2 now0 with
    | error err =>
      rw [hatt] at hinit
      cases hinit
    | ok r =>
      obtain ⟨c, ch1⟩ := r
      rw [hatt] at hinit
      simp only [attached, Option.some.injEq] at hinit
      subst hinit
      intro p hp
      cases hp
  clear hinit
  induction es generalizing s0 with
  | nil =>
    simp only [run, Option.some.injEq] at hrun
    subst hrun
    exact h0
  | cons e es ih =>
    simp only [run] at hrun
    cases hs : step N C s0 e with
    | none => rw [hs] at hrun; cases hrun
    | some s2 =>
      rw [hs] at hrun
      exact ih s2 hrun (step_pendingWriting N C s0 s2 e hs h0)

end Lifecycle

/-! ## Views and publications in flight -/

section Torn

variable {T : Type}

theorem peek_eq_finish (N : Nat) (b : Broker) (ch : SharedChannel T) (now : Int) :
    peek N b ch now = peek_finish N now (peek_enter b ch now) := by
  have key : ∀ b1 : Broker,
      (if ch.producer_epoch ≠ b1.local_epoch_cache then
          (PeekResult.empty, { b1 with local_epoch_cache := ch.producer_epoch },
            { ch with tails := Function.update ch.tails b.self ch.head })
        else if ch.slot_active b.self = false then (PeekResult.disconnected, b1, ch)
        else if ch.tails b.self = ch.head then
          (PeekResult.empty, b1,
            { ch with heartbeats := Function.update ch.heartbeats b.self now })
        else if spin_wait (ch.slots (ch.tails b.self)).state 10001 0 = false then
          (PeekResult.empty, b1,
            { ch with heartbeats := Function.update ch.heartbeats b.self now })
        else if (ch.slots (ch.tails b.self)).sequence ≠ (ch.slots (ch.tails b.self)).sequence
          then
          (PeekResult.empty, b1,
            release N b1 { ch with heartbeats := Function.update ch.heartbeats b.self now }
              now)
        else
          (PeekResult.view (ch.tails b.self), b1,
            { ch with heartbeats := Function.update ch.heartbeats b.self now })) =
      peek_finish N now
        (if ch.producer_epoch ≠ b1.local_epoch_cache then
          (Sum.inl PeekResult.empty, { b1 with local_epoch_cache := ch.producer_epoch },
            { ch with tails := Function.update ch.tails b.self ch.head })
        else if ch.slot_active b.self = false then (Sum.inl PeekResult.disconnected, b1, ch)
        else if ch.tails b.self = ch.head then
          (Sum.inl PeekResult.empty, b1,
            { ch with heartbeats := Function.update ch.heartbeats b.self now })
        else
          (Sum.inr { current_tail := ch.tails b.self,
                     seq_before := (ch.slots (ch.tails b.self)).sequence }, b1,
            { ch with heartbeats := Function.update ch.heartbeats b.self now })) := by
    intro b1
    by_cases h1 : ch.producer_epoch ≠ b1.local_epoch_cache
    · rw [if_pos h1, if_pos h1]
      rfl
    · rw [if_neg h1, if_neg h1]
      by_cases h2 : ch.slot_active b.self = false
      · rw [if_pos h2, if_pos h2]
        rfl
      · rw [if_neg h2, if_neg h2]
        by_cases h3 : ch.tails b.self = ch.head
        · rw [if_pos h3, if_pos h3]
          rfl
        · rw [if_neg h3, if_neg h3]
          by_cases h4 : spin_wait (ch.slots (ch.tails b.self)).state 10001 0 = false
          · rw [if_pos h4]
            show _ = if spin_wait (ch.slots (ch.tails b.self)).state 10001 0 = false then _
              else _
            rw [if_pos h4]
          · rw [if_neg h4]
            show _ = if spin_wait (ch.slots (ch.tails b.self)).state 10001 0 = false then _
              else _
            rw [if_neg h4]
            rfl
  exact key _

/-- When no step of the producer falls between the loads of a `peek`, a view
it returns is of the slot under the consumer's tail, that slot is READY, and
the call has not touched a slot. -/
theorem peek_view_ready (N : Nat) (b : Broker) (ch : SharedChannel T) (now : Int) (i : Nat)
    (h : (peek N b ch now).1 = PeekResult.view i) :
    i = ch.tails b.self ∧ (ch.slots i).state = SlotState.READY ∧
      (peek N b ch now).2.2.slots = ch.slots := by
  have hi : i = ch.tails b.self := by
    revert h
    rw [peek_eq_racing]
    simp only [peek_racing]
    split_ifs <;> simp
    all_goals
      intro h
      exact h.symm
  refine ⟨hi, ?_, peek_slots N b ch now⟩
  by_contra hst
  rw [hi] at hst
  revert h
  rw [peek_eq_racing, spin_wait_not_ready _ hst]
  simp only [peek_racing]
  split_ifs <;> simp

/-- C19. Capacity 2, OVERWRITE_OLD, one consumer.  10 has been published into
slot 0 (sequence 1, READY).  The consumer enters `peek`, loads
`seq_before = 1` and leaves the wait loop on READY.  Before it loads
`seq_after` the producer publishes 11 into slot 1, is handed slot 0 again by
`prepare_publish`, which stores WRITING and leaves the sequence alone, and
writes 12 into it.  The consumer then loads `seq_after = 1`, finds the two
sequences equal and returns the view of slot 0, which at that moment is
WRITING and holds the record of a publication that is not committed. -/
theorem peek_returns_view_of_writing_slot :
    init 2 16 8 7 0 (sampleSettings OverflowPolicy.OVERWRITE_OLD 10000)
        (sampleSettings OverflowPolicy.BLOCK 10000) 0 0
        = some (sampleInit 2 OverflowPolicy.OVERWRITE_OLD) ∧
      run 2 16 (sampleInit 2 OverflowPolicy.OVERWRITE_OLD) publishFirst = some raceStart ∧
      (raceStart.ch.slots 0).obs = (1, SlotState.READY, 10) ∧
      raceEntered.1 = Sum.inr raceLocals ∧
      peek_wait raceEntered.2.2 raceLocals = true ∧
      run 2 16 raceWaited raceProducer = some raceDuring ∧
      (raceDuring.ch.slots 0).obs = (1, SlotState.WRITING, 12) ∧
      raceDuring.committed = [10, 11] ∧
      (peek_leave 2 raceDuring.cons raceDuring.ch 20 raceLocals).1 = PeekResult.view 0 ∧
      ((peek_leave 2 raceDuring.cons raceDuring.ch 20 raceLocals).2.2.slots 0).obs
        = (1, SlotState.WRITING, 12) := by
  refine ⟨some_getD_of_isSome _ sampleIdle (by decide),
    some_getD_of_isSome _ sampleIdle (by decide), ?_, ?_, ?_,
    some_getD_of_isSome _ sampleIdle (by decide), ?_, ?_, ?_, ?_⟩ <;> decide

end Torn

end NanoBroker
